import Mathlib

/-!
# ekf-cal: shallow embedding of the estimation kernels

Scalars: the C++ code computes in `double`; the embedding is exact and generic over a
linearly ordered field `K` (instantiated with `ℝ` in the theorems).  Square roots
(`std::sqrt`, `Eigen::norm`) are passed in as a function `sqrt : K → K`; over `ℝ` it is
`Real.sqrt`.

Matrices: Eigen's dense matrices are Mathlib matrices indexed by `Fin`.
-/

namespace EkfCal

open Matrix

variable {K : Type} [LinearOrderedField K]

/-! ## Eigen: Jacobi / Givens rotations -/

/-- Eigen `JacobiRotation<double>`: the pair `(m_c, m_s)` standing for `[c s; -s c]`. -/
structure JacobiRotation (K : Type) where
  c : K
  s : K

/-- Eigen `JacobiRotation::makeGivens(p, q)` for a real scalar type
(`Eigen/src/Jacobi/Jacobi.h`, the `internal::false_type` overload). -/
def makeGivens (sqrt : K → K) (p q : K) : JacobiRotation K :=
  if q = 0 then
    { c := if p < 0 then -1 else 1, s := 0 }
  else if p = 0 then
    { c := 0, s := if q < 0 then 1 else -1 }
  else if |p| > |q| then
    let t := q / p
    let u := sqrt (1 + t * t)
    let u := if p < 0 then -u else u
    let c := 1 / u
    { c := c, s := -t * c }
  else
    let t := p / q
    let u := sqrt (1 + t * t)
    let u := if q < 0 then -u else u
    let s := -1 / u
    { c := -t * s, s := s }

/-- Eigen `JacobiRotation::adjoint()`: `(conj c, -s)`. -/
def JacobiRotation.adjoint (j : JacobiRotation K) : JacobiRotation K :=
  { c := j.c, s := -j.s }

/-- Eigen `MatrixBase::applyOnTheLeft(p, q, j)`: rows `p` and `q` become
`j.c * x + j.s * y` and `-j.s * x + j.c * y` (`apply_rotation_in_the_plane`). -/
def applyOnTheLeft {r c : Nat} (M : Matrix (Fin r) (Fin c) K) (p q : Fin r)
    (j : JacobiRotation K) : Matrix (Fin r) (Fin c) K :=
  fun i k =>
    if i = p then j.c * M p k + j.s * M q k
    else if i = q then -j.s * M p k + j.c * M q k
    else M i k

/-- The call `(M.block(m, n, 2, M.cols() - n)).applyOnTheLeft(0, 1, j)`: rows `m`, `m + 1`
of `M` are rotated in the columns `n ..`, the other columns are left alone. -/
def blockApplyOnTheLeft {r c : Nat} (M : Matrix (Fin r) (Fin c) K) (m n : Nat)
    (j : JacobiRotation K) : Matrix (Fin r) (Fin c) K :=
  if h : m + 1 < r then
    fun i k =>
      if n ≤ k.val then applyOnTheLeft M ⟨m, Nat.lt_of_succ_lt h⟩ ⟨m + 1, h⟩ j i k else M i k
  else M

/-- The call `(res.block(m, 0, 2, 1)).applyOnTheLeft(0, 1, j)` on a column vector. -/
def vecApplyOnTheLeft {r : Nat} (v : Fin r → K) (m : Nat) (j : JacobiRotation K) : Fin r → K :=
  fun i => blockApplyOnTheLeft (Matrix.col (Fin 1) v) m 0 j i 0

/-- Coefficient `M(m, n)` with natural-number indices (the loops index with `int`). -/
def coeff {r c : Nat} (M : Matrix (Fin r) (Fin c) K) (m n : Nat) : K :=
  if h : m < r ∧ n < c then M ⟨m, h.1⟩ ⟨n, h.2⟩ else 0

/-- The row indices of the inner loops `for (m = rows - 2; m >= n; --m)`. -/
def rowsDown (rows n : Nat) : List Nat :=
  (List.range' n (rows - 1 - n)).reverse

/-! ## MsckfUpdater::ApplyLeftNullspace -/

/-- One pass of the loop body of `MsckfUpdater::ApplyLeftNullspace` at `(m, n)`. -/
def leftNullspaceStep {r cf cx : Nat} (sqrt : K → K) (n : Nat)
    (st : Matrix (Fin r) (Fin cf) K × Matrix (Fin r) (Fin cx) K × (Fin r → K)) (m : Nat) :
    Matrix (Fin r) (Fin cf) K × Matrix (Fin r) (Fin cx) K × (Fin r → K) :=
  let tempHo_GR := makeGivens sqrt (coeff st.1 m n) (coeff st.1 m n)
  (blockApplyOnTheLeft st.1 m n tempHo_GR.adjoint,
   blockApplyOnTheLeft st.2.1 m 0 tempHo_GR.adjoint,
   vecApplyOnTheLeft st.2.2 m tempHo_GR.adjoint)

/-- `MsckfUpdater::ApplyLeftNullspace(H_f, H_x, res)`; the three arguments are updated in
place in the source and returned here. -/
def ApplyLeftNullspace {r cf cx : Nat} (sqrt : K → K)
    (H_f : Matrix (Fin r) (Fin cf) K) (H_x : Matrix (Fin r) (Fin cx) K) (res : Fin r → K) :
    Matrix (Fin r) (Fin cf) K × Matrix (Fin r) (Fin cx) K × (Fin r → K) :=
  (List.range cf).foldl
    (fun st n => (rowsDown r n).foldl (leftNullspaceStep sqrt n) st)
    (H_f, H_x, res)

/-! ## MsckfUpdater::CompressMeasurements -/

/-- One pass of the loop body of `MsckfUpdater::CompressMeasurements` at `(m, n)`. -/
def compressStep {r c : Nat} (sqrt : K → K) (n : Nat)
    (st : Matrix (Fin r) (Fin c) K × (Fin r → K)) (m : Nat) :
    Matrix (Fin r) (Fin c) K × (Fin r → K) :=
  let temp_jac_gr := makeGivens sqrt (coeff st.1 m n) (coeff st.1 m n)
  (blockApplyOnTheLeft st.1 m n temp_jac_gr.adjoint,
   vecApplyOnTheLeft st.2 m temp_jac_gr.adjoint)

/-- `MsckfUpdater::CompressMeasurements(jacobian, residual)`. -/
def CompressMeasurements {r c : Nat} (sqrt : K → K)
    (jacobian : Matrix (Fin r) (Fin c) K) (residual : Fin r → K) :
    Matrix (Fin r) (Fin c) K × (Fin r → K) :=
  if r > c then
    (List.range c).foldl
      (fun st n => (rowsDown r n).foldl (compressStep sqrt n) st)
      (jacobian, residual)
  else (jacobian, residual)

/-- The tail of `MsckfUpdater::UpdateEKF` that builds the compressed system (source lines
333 to 343): `CompressMeasurements`, then `r = min(rows, cols)`, an early return when
`r == 1` (no system is built: `none`), and otherwise `conservativeResize(r, cols)`, which
keeps the first `r` rows. -/
def compressedSystem {r c : Nat} (sqrt : K → K)
    (Hx_big : Matrix (Fin r) (Fin c) K) (res_big : Fin r → K) :
    Option (Matrix (Fin (min r c)) (Fin c) K × (Fin (min r c) → K)) :=
  let st := CompressMeasurements sqrt Hx_big res_big
  if min r c = 1 then none
  else some (fun i k => st.1 (Fin.castLE (Nat.min_le_left r c) i) k,
             fun i => st.2 (Fin.castLE (Nat.min_le_left r c) i))

/-! ## Eigen: vectors and quaternions -/

/-- Eigen `Vector3d::cross`. -/
def cross (a b : Fin 3 → K) : Fin 3 → K :=
  ![a 1 * b 2 - a 2 * b 1, a 2 * b 0 - a 0 * b 2, a 0 * b 1 - a 1 * b 0]

/-- Eigen `Vector3d::norm`. -/
def norm3 (sqrt : K → K) (a : Fin 3 → K) : K :=
  sqrt (a 0 * a 0 + a 1 * a 1 + a 2 * a 2)

/-- Eigen `Quaterniond`, coefficients `(w, x, y, z)`. -/
structure Quaterniond (K : Type) where
  w : K
  x : K
  y : K
  z : K

/-- Eigen `QuaternionBase::vec()`. -/
def Quaterniond.vec (q : Quaterniond K) : Fin 3 → K := ![q.x, q.y, q.z]

/-- Eigen `QuaternionBase::_transformVector`, the product `q * v` of a quaternion and a
3-vector (`uv = vec × v; uv += uv; v + w * uv + vec × uv`). -/
def Quaterniond.transformVector (q : Quaterniond K) (v : Fin 3 → K) : Fin 3 → K :=
  let uv := cross q.vec v
  let uv := uv + uv
  v + q.w • uv + cross q.vec uv

/-- Eigen `QuaternionBase::toRotationMatrix`. -/
def Quaterniond.toRotationMatrix (q : Quaterniond K) : Matrix (Fin 3) (Fin 3) K :=
  let tx := 2 * q.x
  let ty := 2 * q.y
  let tz := 2 * q.z
  let twx := tx * q.w
  let twy := ty * q.w
  let twz := tz * q.w
  let txx := tx * q.x
  let txy := ty * q.x
  let txz := tz * q.x
  let tyy := ty * q.y
  let tyz := tz * q.y
  let tzz := tz * q.z
  !![1 - (tyy + tzz), txy - twz, txz + twy;
     txy + twz, 1 - (txx + tzz), tyz - twx;
     txz - twy, tyz + twx, 1 - (txx + tyy)]

/-- `MathHelper::CrossProductMatrix` (`utility/MathHelper.hpp`). -/
def CrossProductMatrix (inVec : Fin 3 → K) : Matrix (Fin 3) (Fin 3) K :=
  !![0, -inVec 2, inVec 1;
     inVec 2, 0, -inVec 0;
     -inVec 1, inVec 0, 0]

/-- Modelled from the spec: the helper `skewSymmetric` / `SkewSymmetric` called by the
updaters is not among the sources; the spec names it the skew-symmetric matrix `[v]×`,
which is what `MathHelper::CrossProductMatrix` of `utility/MathHelper.hpp` builds. -/
def SkewSymmetric (inVec : Fin 3 → K) : Matrix (Fin 3) (Fin 3) K :=
  CrossProductMatrix inVec

/-- Modelled from the spec: the helper `minBoundDiagonal` called by
`ImuUpdater::updateEKF` is not among the sources (`utility/MathHelper.hpp` holds
`MathHelper::MinBoundDiagonal`, the same loop with the `return` missing); the spec says the
3x3 block is lower-bounded on the diagonal by the given minimum. -/
def minBoundDiagonal (inMat : Matrix (Fin 3) (Fin 3) K) (minBound : K) :
    Matrix (Fin 3) (Fin 3) K :=
  fun i j => if i = j ∧ inMat i i < minBound then minBound else inMat i j

/-- The assignment `M.block(i0, j0, p, q) = B`. -/
def setBlock {r c p q : Nat} (M : Matrix (Fin r) (Fin c) K) (i0 j0 : Nat)
    (B : Matrix (Fin p) (Fin q) K) : Matrix (Fin r) (Fin c) K :=
  fun i j =>
    if h : (i0 ≤ i.val ∧ i.val < i0 + p) ∧ (j0 ≤ j.val ∧ j.val < j0 + q) then
      B ⟨i.val - i0, by omega⟩ ⟨j.val - j0, by omega⟩
    else M i j

/-- The read `M.block<p, q>(i0, j0)` (entries outside `M` read as zero; the source only
reads blocks that lie inside). -/
def getBlock {r c : Nat} (M : Matrix (Fin r) (Fin c) K) (i0 j0 p q : Nat) :
    Matrix (Fin p) (Fin q) K :=
  fun i j => coeff M (i0 + i.val) (j0 + j.val)

/-- Eigen `MatrixXd::determinant()` in exact arithmetic. -/
def determinant {n : Nat} (S : Matrix (Fin n) (Fin n) K) : K :=
  S.det

/-- Eigen `MatrixXd::inverse()` in exact arithmetic: `det⁻¹ • adjugate`, the inverse
whenever the matrix is invertible.  Callers guard the singular case themselves. -/
def inverse {n : Nat} (S : Matrix (Fin n) (Fin n) K) : Matrix (Fin n) (Fin n) K :=
  (determinant S)⁻¹ • S.adjugate

/-! ## ImuUpdater -/

/-- The members of `ImuUpdater` read by the measurement model (set by `RefreshStates`). -/
structure ImuUpdater (K : Type) where
  m_bodyAcc : Fin 3 → K
  m_bodyAngVel : Fin 3 → K
  m_bodyAngAcc : Fin 3 → K
  m_posOffset : Fin 3 → K
  m_angOffset : Quaterniond K
  m_accBias : Fin 3 → K
  m_omgBias : Fin 3 → K

/-- The constant `ImuUpdater::GRAVITY`; `predictMeasurement` does not read it. -/
def ImuUpdater.GRAVITY : Fin 3 → K := ![0, 0, -9.80665]

/-- `ImuUpdater::predictMeasurement`. -/
def ImuUpdater.predictMeasurement (u : ImuUpdater K) : Fin 6 → K :=
  let imuAcc := u.m_bodyAcc + cross u.m_bodyAngAcc u.m_posOffset +
    cross u.m_bodyAngVel (cross u.m_bodyAngVel u.m_posOffset)
  let imuAccRot := u.m_angOffset.transformVector imuAcc
  let imuOmgRot := u.m_angOffset.transformVector u.m_bodyAngVel
  let imuAccRot := imuAccRot + u.m_accBias
  let imuOmgRot := imuOmgRot + u.m_omgBias
  ![imuAccRot 0, imuAccRot 1, imuAccRot 2, imuOmgRot 0, imuOmgRot 1, imuOmgRot 2]

/-- `ImuUpdater::getMeasurementJacobian` (6 x 30).  A product `m_angOffset * M` of the
quaternion with a 3x3 matrix is Eigen's `toRotationMatrix() * M`. -/
def ImuUpdater.getMeasurementJacobian (u : ImuUpdater K) : Matrix (Fin 6) (Fin 30) K :=
  let p := u.m_posOffset
  let w := u.m_bodyAngVel
  let Rq := u.m_angOffset.toRotationMatrix
  let J : Matrix (Fin 6) (Fin 30) K := 0
  let J := setBlock J 0 6 Rq
  let temp : Matrix (Fin 3) (Fin 3) K :=
    !![p 1 * w 1 + 1 * p 2 * w 2, p 1 * w 0 - 2 * p 0 * w 1, p 2 * w 0 - 2 * p 0 * w 2;
       p 0 * w 1 - 2 * p 1 * w 0, p 0 * w 0 + 1 * p 2 * w 2, p 2 * w 1 - 2 * p 1 * w 2;
       p 0 * w 2 - 2 * p 2 * w 0, p 1 * w 2 - 2 * p 2 * w 1, p 0 * w 0 + 1 * p 1 * w 1]
  let J := setBlock J 0 12 (Rq * temp)
  let J := setBlock J 0 15 (Rq * SkewSymmetric p)
  let temp : Matrix (Fin 3) (Fin 3) K :=
    !![-(w 1 * w 1) - (w 2 * w 2), w 0 * w 1, w 0 * w 2;
       w 0 * w 1, -(w 0 * w 0) - (w 2 * w 2), w 1 * w 2;
       w 0 * w 2, w 1 * w 2, -(w 0 * w 0) - (w 1 * w 1)]
  let J := setBlock J 0 18 (Rq * SkewSymmetric u.m_bodyAngAcc + temp)
  let imu_acc := u.m_bodyAcc + cross u.m_bodyAngAcc p + cross w (cross w p)
  let J := setBlock J 0 21 (-(Rq * SkewSymmetric imu_acc))
  let J := setBlock J 3 12 Rq
  let J := setBlock J 3 21 (-(Rq * SkewSymmetric w))
  let J := setBlock J 0 24 (1 : Matrix (Fin 3) (Fin 3) K)
  let J := setBlock J 3 27 (1 : Matrix (Fin 3) (Fin 3) K)
  J

/-- The matrix `H` of `ImuUpdater::updateEKF`: zero, then the body block of `subH`, then
the IMU block of `subH` at `stateStartIndex`. -/
def ImuUpdater.updateEKF_H (u : ImuUpdater K) (stateSize stateStartIndex : Nat) :
    Matrix (Fin 6) (Fin stateSize) K :=
  let subH := u.getMeasurementJacobian
  let H : Matrix (Fin 6) (Fin stateSize) K := 0
  let H := setBlock H 0 0 (getBlock subH 0 0 6 18)
  setBlock H 0 stateStartIndex (getBlock subH 0 18 6 12)

/-- The matrix `R` of `ImuUpdater::updateEKF`. -/
def updateEKF_R (accelerationCovariance angularRateCovariance : Matrix (Fin 3) (Fin 3) K) :
    Matrix (Fin 6) (Fin 6) K :=
  let R : Matrix (Fin 6) (Fin 6) K := 0
  let R := setBlock R 0 0 (minBoundDiagonal accelerationCovariance 1e-3)
  setBlock R 3 3 (minBoundDiagonal angularRateCovariance 1e-2)

/-- The innovation covariance `S = H * P * Hᵀ + R` of `ImuUpdater::updateEKF`; `cov` is the
covariance `m_ekf->getCov()` after `processModel(time)`. -/
def ImuUpdater.updateEKF_S (u : ImuUpdater K) {stateSize : Nat} (stateStartIndex : Nat)
    (cov : Matrix (Fin stateSize) (Fin stateSize) K)
    (accelerationCovariance angularRateCovariance : Matrix (Fin 3) (Fin 3) K) :
    Matrix (Fin 6) (Fin 6) K :=
  let H := u.updateEKF_H stateSize stateStartIndex
  H * cov * Hᵀ + updateEKF_R accelerationCovariance angularRateCovariance

/-- The covariance that `ImuUpdater::updateEKF` stores, `(I - K * H) * cov` with
`K = cov * Hᵀ * S.inverse()`.  `S.inverse()` has a defined value only for an invertible
`S`; for a singular `S` nothing defined is stored (`none`). -/
def ImuUpdater.updateEKF (u : ImuUpdater K) {stateSize : Nat} (stateStartIndex : Nat)
    (cov : Matrix (Fin stateSize) (Fin stateSize) K)
    (accelerationCovariance angularRateCovariance : Matrix (Fin 3) (Fin 3) K) :
    Option (Matrix (Fin stateSize) (Fin stateSize) K) :=
  let H := u.updateEKF_H stateSize stateStartIndex
  let S := u.updateEKF_S stateStartIndex cov accelerationCovariance angularRateCovariance
  if determinant S = 0 then none
  else
    let Kg := cov * Hᵀ * inverse S
    some ((1 - Kg * H) * cov)

/-! ## MsckfUpdater::TriangulateFeature -/

/-- The clone record `AugmentedState` (its declaration is not among the sources; the
fields are the ones the updater reads). -/
structure AugmentedState (K : Type) where
  frame_id : Nat
  position : Fin 3 → K
  orientation : Quaterniond K
  imu_position : Fin 3 → K
  imu_orientation : Quaterniond K

/-- Modelled from the spec: the default-constructed `AugmentedState` that `MatchState`
returns when no clone matches; its declaration is not among the sources, the value is
the zero pose with identity orientations. -/
def AugmentedState.init : AugmentedState K :=
  { frame_id := 0, position := 0, orientation := ⟨1, 0, 0, 0⟩,
    imu_position := 0, imu_orientation := ⟨1, 0, 0, 0⟩ }

/-- One observation of a feature track: `frame_id` and `key_point.pt.(x, y)`. -/
structure FeatureTrack (K : Type) where
  frame_id : Nat
  x : K
  y : K

/-- The members of `MsckfUpdater` read by `TriangulateFeature`. -/
structure MsckfUpdater (K : Type) where
  m_aug_states : List (AugmentedState K)
  m_image_width : Nat
  m_image_height : Nat

/-- `MsckfUpdater::MatchState`: the first clone with the given `frame_id`, else the
default-constructed record. -/
def MsckfUpdater.MatchState (u : MsckfUpdater K) (frame_id : Nat) : AugmentedState K :=
  match u.m_aug_states.find? (fun aug_state => aug_state.frame_id == frame_id) with
  | some aug_state => aug_state
  | none => AugmentedState.init

/-- Eigen `A.colPivHouseholderQr().solve(b)` in exact arithmetic for an invertible `A`:
the unique solution of `A x = b`.  (For a singular `A` Eigen returns a least-squares
solution, which is not modelled.) -/
def colPivHouseholderQrSolve (A : Matrix (Fin 3) (Fin 3) K) (b : Fin 3 → K) : Fin 3 → K :=
  inverse A *ᵥ b

/-- The body of the loop of `MsckfUpdater::TriangulateFeature` for one observation. -/
def MsckfUpdater.triangulateStep (u : MsckfUpdater K) (sqrt : K → K)
    (rotation_g_to_c0 : Matrix (Fin 3) (Fin 3) K) (position_c0_in_g : Fin 3 → K)
    (Ab : Matrix (Fin 3) (Fin 3) K × (Fin 3 → K)) (ft : FeatureTrack K) :
    Matrix (Fin 3) (Fin 3) K × (Fin 3 → K) :=
  let aug_state_i := u.MatchState ft.frame_id
  let rotation_ci_to_g := aug_state_i.orientation.toRotationMatrix
  let position_ci_in_g := aug_state_i.position
  let rotation_ci_to_c0 := rotation_ci_to_g * rotation_g_to_c0
  let position_ci_in_c0 := rotation_g_to_c0 *ᵥ (position_ci_in_g - position_c0_in_g)
  let b_i : Fin 3 → K :=
    ![2 * ft.x / (u.m_image_width : K) - 1, 2 * ft.y / (u.m_image_height : K) - 1, 1]
  let b_i := rotation_ci_to_c0 *ᵥ b_i
  let b_i : Fin 3 → K := fun k => b_i k / norm3 sqrt b_i
  let b_skew := SkewSymmetric b_i
  let Ai := b_skewᵀ * b_skew
  (Ab.1 + Ai, Ab.2 + Ai *ᵥ position_ci_in_c0)

/-- The accumulation loop of `MsckfUpdater::TriangulateFeature`: the matrix `A` and the
vector `b` after all observations of the track, for the anchor clone `aug_state_0`. -/
def MsckfUpdater.triangulateSystem (u : MsckfUpdater K) (sqrt : K → K)
    (aug_state_0 : AugmentedState K) (feature_track : List (FeatureTrack K)) :
    Matrix (Fin 3) (Fin 3) K × (Fin 3 → K) :=
  let rotation_c0_to_g := aug_state_0.orientation.toRotationMatrix
  let rotation_g_to_c0 := rotation_c0_to_gᵀ
  let position_c0_in_g := aug_state_0.position
  feature_track.foldl (u.triangulateStep sqrt rotation_g_to_c0 position_c0_in_g) (0, 0)

/-- `MsckfUpdater::TriangulateFeature`.  The source reads `feature_track[0]` first, which
has no defined value for an empty track (`none`). -/
def MsckfUpdater.TriangulateFeature (u : MsckfUpdater K) (sqrt : K → K)
    (feature_track : List (FeatureTrack K)) : Option (Fin 3 → K) :=
  match feature_track with
  | [] => none
  | ft0 :: _ =>
    let aug_state_0 := u.MatchState ft0.frame_id
    let rotation_c0_to_g := aug_state_0.orientation.toRotationMatrix
    let position_c0_in_g := aug_state_0.position
    let Ab := u.triangulateSystem sqrt aug_state_0 feature_track
    let position_f_in_c0 := colPivHouseholderQrSolve Ab.1 Ab.2
    some (rotation_c0_to_g *ᵥ position_f_in_c0 + position_c0_in_g)

/-! ## MsckfUpdater::UpdateEKF: the feature Jacobian -/

/-- The assignment `M(i, j) = v`. -/
def setCoeff {r c : Nat} (M : Matrix (Fin r) (Fin c) K) (i : Fin r) (j : Fin c) (v : K) :
    Matrix (Fin r) (Fin c) K :=
  fun a b => if a = i ∧ b = j then v else M a b

/-- The matrix `dzn_dPFC` of `MsckfUpdater::UpdateEKF` for the camera-frame point
`p_FinCi`, with the four assignments of the source in their order (the entry `(1, 1)` is
assigned twice). -/
def dzn_dPFC (p_FinCi : Fin 3 → K) : Matrix (Fin 2) (Fin 3) K :=
  let M : Matrix (Fin 2) (Fin 3) K := 0
  let M := setCoeff M 0 0 (1 / p_FinCi 2)
  let M := setCoeff M 1 1 (1 / p_FinCi 2)
  let M := setCoeff M 0 2 (-p_FinCi 0 / (p_FinCi 2 * p_FinCi 2))
  setCoeff M 1 1 (-p_FinCi 1 / (p_FinCi 2 * p_FinCi 2))

/-- The feature Jacobian `H_f` that `MsckfUpdater::UpdateEKF` hands to `ApplyLeftNullspace`
for a track of two observations: `Zero(2 * 2, 3)`, then for `i = 1` the block
`H_f.block(0, 0, 2, 3) = dz_dPFG * dPFG_dLambda` with `dz_dPFG = dzn_dPFC * dPFC_dPFG`.
The loop starts at `i = 1`, so the last two rows are never written. -/
def UpdateEKF_H_f (p_FinCi : Fin 3 → K) (dPFC_dPFG dPFG_dLambda : Matrix (Fin 3) (Fin 3) K) :
    Matrix (Fin 4) (Fin 3) K :=
  let H_f : Matrix (Fin 4) (Fin 3) K := 0
  let dz_dPFC := dzn_dPFC p_FinCi
  let dz_dPFG := dz_dPFC * dPFC_dPFG
  setBlock H_f 0 0 (dz_dPFG * dPFG_dLambda)

/-! ## Simulation driver -/

/-- The field of `IMU::Parameters` that the configuration check of `main` reads. -/
structure ImuParameters where
  use_for_prediction : Bool

/-- The exit code of `main` in `application/sim/simulation.cpp`, as a function of what the
command-line parser reports and of the IMU list of the configuration.  The loop over the
IMUs accumulates `using_any_imu_for_prediction`; the code after the check ends in
`return 0`.  Reading the YAML file and building the sensors and messages do not set the
exit code and are left out; a run that ends abnormally there (an exception of the YAML
reader, an unknown `truth_type`) returns no exit code from `main` and is not modelled. -/
def main (has_help has_config has_out_dir : Bool) (imus : List ImuParameters) : Int :=
  if has_help || (!has_config || !has_out_dir) then 0
  else
    let using_any_imu_for_prediction :=
      imus.foldl (fun using_any imu_params => using_any || imu_params.use_for_prediction) false
    if using_any_imu_for_prediction && decide (imus.length > 1) then -1
    else 0

/-! ## EKF state layout -/

/-- The flags of `ImuState` that fix its share of the state vector. -/
structure ImuState where
  is_extrinsic : Bool
  is_intrinsic : Bool

/-- The clone window of `CamState`, as the list of the `frame_id`s of its clones. -/
structure CamState where
  augmented_states : List Nat

/-- The sensors registered with the filter, in registration order, with their ids. -/
structure EKF where
  m_imu_states : List (Nat × ImuState)
  m_cam_states : List (Nat × CamState)

/-- Modelled from the spec: the size of the body block (`g_body_state_size`, indices
0..17); `ekf/constants.hpp` is not among the sources. -/
def g_body_state_size : Nat := 18

/-- Modelled from the spec: the share of one IMU, `6·is_extrinsic + 6·is_intrinsic`. -/
def ImuState.size (s : ImuState) : Nat :=
  (if s.is_extrinsic then 6 else 0) + (if s.is_intrinsic then 6 else 0)

/-- Modelled from the spec: the share of one camera, its extrinsics (6) and 12 per
clone of its window. -/
def CamState.size (s : CamState) : Nat :=
  6 + 12 * s.augmented_states.length

/-- Modelled from the spec: the filter before any registration (`ekf.cpp` is not among the
sources). -/
def EKF.init : EKF := { m_imu_states := [], m_cam_states := [] }

/-- Modelled from the spec: `EKF::RegisterIMU` appends the sensor, and leaves the state as
it is when the id is already registered (`ekf.cpp` is not among the sources). -/
def EKF.RegisterIMU (ekf : EKF) (imu_id : Nat) (imu_state : ImuState) : EKF :=
  if ekf.m_imu_states.any (fun e => e.1 == imu_id) then ekf
  else { ekf with m_imu_states := ekf.m_imu_states ++ [(imu_id, imu_state)] }

/-- Modelled from the spec: `EKF::RegisterCamera` appends the sensor, and leaves the state
as it is when the id is already registered (`ekf.cpp` is not among the sources). -/
def EKF.RegisterCamera (ekf : EKF) (cam_id : Nat) (cam_state : CamState) : EKF :=
  if ekf.m_cam_states.any (fun e => e.1 == cam_id) then ekf
  else { ekf with m_cam_states := ekf.m_cam_states ++ [(cam_id, cam_state)] }

/-- One registration call. -/
inductive Registration where
  | imu (imu_id : Nat) (imu_state : ImuState)
  | camera (cam_id : Nat) (cam_state : CamState)

/-- The filter after a sequence of registration calls. -/
def EKF.registerAll (regs : List Registration) : EKF :=
  regs.foldl
    (fun ekf reg =>
      match reg with
      | .imu imu_id imu_state => ekf.RegisterIMU imu_id imu_state
      | .camera cam_id cam_state => ekf.RegisterCamera cam_id cam_state)
    EKF.init

/-- The registrations of `TEST(test_EKF, get_counts)`: an intrinsic-only IMU with id 0 and
a camera with id 1 whose window holds the clones with `frame_id` 0 and 1. -/
def unitTestRegistrations : List Registration :=
  [Registration.imu 0 { is_extrinsic := false, is_intrinsic := true },
   Registration.camera 1 { augmented_states := [0, 1] }]

/-- Modelled from the spec: the offset loop over the IMUs in registration order, which
stops at the sensor asked for (offsets are prefix sums). -/
def imuOffsetLoop (state_start_index : Nat) : List (Nat × ImuState) → Nat → Nat
  | [], _ => state_start_index
  | (id, imu_state) :: rest, imu_id =>
    if id = imu_id then state_start_index
    else imuOffsetLoop (state_start_index + imu_state.size) rest imu_id

/-- Modelled from the spec: the offset loop over the cameras in registration order. -/
def camOffsetLoop (state_start_index : Nat) : List (Nat × CamState) → Nat → Nat
  | [], _ => state_start_index
  | (id, cam_state) :: rest, cam_id =>
    if id = cam_id then state_start_index
    else camOffsetLoop (state_start_index + cam_state.size) rest cam_id

/-- Modelled from the spec: the offset loop over the clones of one camera. -/
def augOffsetLoop (state_start_index : Nat) : List Nat → Nat → Nat
  | [], _ => state_start_index
  | id :: rest, frame_id =>
    if id = frame_id then state_start_index
    else augOffsetLoop (state_start_index + 12) rest frame_id

/-- Modelled from the spec: `EKF::GetImuStateStartIndex` (`ekf.cpp` is not among the
sources): the body block comes first, then the IMUs in registration order. -/
def EKF.GetImuStateStartIndex (ekf : EKF) (imu_id : Nat) : Nat :=
  imuOffsetLoop g_body_state_size ekf.m_imu_states imu_id

/-- Modelled from the spec: `EKF::GetCamStateStartIndex` (`ekf.cpp` is not among the
sources): the cameras follow the body block and all the IMU blocks. -/
def EKF.GetCamStateStartIndex (ekf : EKF) (cam_id : Nat) : Nat :=
  let state_start_index :=
    ekf.m_imu_states.foldl (fun index e => index + e.2.size) g_body_state_size
  camOffsetLoop state_start_index ekf.m_cam_states cam_id

/-- Modelled from the spec: `EKF::GetAugStateStartIndex` (`ekf.cpp` is not among the
sources): inside a camera block the extrinsics (6) come first, then the clones. -/
def EKF.GetAugStateStartIndex (ekf : EKF) (cam_id frame_id : Nat) : Nat :=
  match ekf.m_cam_states.find? (fun e => e.1 == cam_id) with
  | some e => augOffsetLoop (ekf.GetCamStateStartIndex cam_id + 6) e.2.augmented_states frame_id
  | none => ekf.GetCamStateStartIndex cam_id + 6

/-! ## SimFeatureTracker::generateMessages -/

/-- The fields of `cv::KeyPoint` that the simulated tracker sets and reads: the pixel
`pt` and `class_id` (`visibleKeypoints` stores the index of the feature point there, an
unsigned value). -/
structure KeyPoint (K : Type) where
  pt_x : K
  pt_y : K
  class_id : Nat

/-- The running map `std::map<unsigned int, std::vector<FeatureTrack>>`: the entries in
the order of their keys, each key with its vector of track points. -/
abbrev FeatureTrackMap (K : Type) := List (Nat × List (FeatureTrack K))

/-- The statement `featureTrackMap[class_id].push_back(featureTrack)`: the vector of an
existing key grows by one element, a new key is inserted at its place in the key order
with a vector of one element. -/
def FeatureTrackMap.push_back : FeatureTrackMap K → Nat → FeatureTrack K → FeatureTrackMap K
  | [], class_id, featureTrack => [(class_id, [featureTrack])]
  | (key, track) :: rest, class_id, featureTrack =>
    if class_id = key then (key, track ++ [featureTrack]) :: rest
    else if class_id < key then (class_id, [featureTrack]) :: (key, track) :: rest
    else (key, track) :: FeatureTrackMap.push_back rest class_id featureTrack

/-- The first loop of a frame in `SimFeatureTracker::generateMessages`: every visible
keypoint is appended to the track of its `class_id` as `FeatureTrack{frameID, keyPoint}`. -/
def appendKeyPoints (frameID : Nat) (keyPoints : List (KeyPoint K))
    (featureTrackMap : FeatureTrackMap K) : FeatureTrackMap K :=
  keyPoints.foldl
    (fun map keyPoint =>
      FeatureTrackMap.push_back map keyPoint.class_id ⟨frameID, keyPoint.pt_x, keyPoint.pt_y⟩)
    featureTrackMap

/-- The test `(featureTrack.back().frameID < frameID) || (featureTrack.size() >= 20)` of
the second loop.  The vectors of the map are never empty (`back()` of an empty vector has
no value; the test then only looks at the size). -/
def trackTerminated (frameID : Nat) (featureTrack : List (FeatureTrack K)) : Bool :=
  (match featureTrack.getLast? with
    | some back => decide (back.frame_id < frameID)
    | none => false) || decide (featureTrack.length ≥ 20)

/-- The second loop of a frame: the iterator walks the map in key order; an entry that
passes the test is pushed to `featureTracks` and erased, the others stay.  Returns
`featureTracks` and the map left. -/
def eraseTerminated (frameID : Nat) :
    FeatureTrackMap K → List (List (FeatureTrack K)) × FeatureTrackMap K
  | [] => ([], [])
  | (key, featureTrack) :: rest =>
    let r := eraseTerminated frameID rest
    if trackTerminated frameID featureTrack then (featureTrack :: r.1, r.2)
    else (r.1, (key, featureTrack) :: r.2)

/-- The fields of `SimFeatureTrackerMessage` that `generateMessages` fills
(`sensorType` is the constant `SensorType::Tracker`). -/
structure SimFeatureTrackerMessage (K : Type) where
  featureTracks : List (List (FeatureTrack K))
  time : K
  trackerID : Nat
  sensorID : Nat

/-- The loop of `SimFeatureTracker::generateMessages` after the frames
`0 .. frameCount - 1`: the running `featureTrackMap` and `trackerMessages`.
`visibleKeypoints` stands for the method of that name (truth engine and OpenCV
projection), `m_id` for the tracker id. -/
def generateLoop (visibleKeypoints : K → List (KeyPoint K)) (m_id : Nat)
    (messageTimes : List K) (sensorID : Nat) :
    Nat → FeatureTrackMap K × List (SimFeatureTrackerMessage K)
  | 0 => ([], [])
  | frameID + 1 =>
    let st := generateLoop visibleKeypoints m_id messageTimes sensorID frameID
    let keyPoints := visibleKeypoints (messageTimes.getD frameID 0)
    let r := eraseTerminated frameID (appendKeyPoints frameID keyPoints st.1)
    (r.2, st.2 ++ [{ featureTracks := r.1, time := messageTimes.getD frameID 0,
                     trackerID := m_id, sensorID := sensorID }])

/-- `SimFeatureTracker::generateMessages(messageTimes, sensorID)`. -/
def generateMessages (visibleKeypoints : K → List (KeyPoint K)) (m_id : Nat)
    (messageTimes : List K) (sensorID : Nat) : List (SimFeatureTrackerMessage K) :=
  (generateLoop visibleKeypoints m_id messageTimes sensorID messageTimes.length).2

/-! ## MessageCompare -/

/-- The fields of `SensorMessage` read by the simulation's sort and dispatch. -/
structure SensorMessage (K : Type) where
  m_sensor_id : Nat
  m_time : K

/-- `MessageCompare(a, b)` of `sensors/sensor.cpp`. -/
def MessageCompare (a b : SensorMessage K) : Bool :=
  decide (a.m_time < b.m_time)

/-! ## MathHelper -/

/-- The local `outMat` of `MathHelper::MinBoundDiagonal` after its loop. -/
def MinBoundDiagonal_outMat (inMat : Matrix (Fin 3) (Fin 3) K) (minBound : K) :
    Matrix (Fin 3) (Fin 3) K :=
  (List.finRange 3).foldl
    (fun outMat i => if outMat i i < minBound then setCoeff outMat i i minBound else outMat)
    inMat

/-- `MathHelper::MinBoundDiagonal(inMat, minBound)`.  The body builds `outMat` and ends
without a `return` statement: the call yields no defined value (`none`). -/
def MinBoundDiagonal (inMat : Matrix (Fin 3) (Fin 3) K) (minBound : K) :
    Option (Matrix (Fin 3) (Fin 3) K) :=
  let _outMat := MinBoundDiagonal_outMat inMat minBound
  none

/-- The locals `(inVec, outVec)` of `MathHelper::MinBoundVector` after its loop: `outVec`
is the copy taken before the loop, and the loop writes to `inVec`. -/
def MinBoundVector_locals {n : Nat} (inVec : Fin n → K) (minBound : K) :
    (Fin n → K) × (Fin n → K) :=
  let outVec := inVec
  let inVec := (List.finRange n).foldl
    (fun inVec i => if inVec i < minBound then Function.update inVec i minBound else inVec)
    inVec
  (inVec, outVec)

/-- `MathHelper::MinBoundVector(inVec, minBound)`.  The body ends without a `return`
statement: the call yields no defined value (`none`). -/
def MinBoundVector {n : Nat} (inVec : Fin n → K) (minBound : K) : Option (Fin n → K) :=
  let _locals := MinBoundVector_locals inVec minBound
  none

/-! ## TruthEngine::WriteTruthData -/

/-- One comma-separated field of a CSV line: a text or a number.  A line under
construction (a `std::stringstream`) is the list of its fields. -/
inductive CsvField (K : Type) where
  | text (s : String)
  | number (x : K)

/-- Modelled from the spec: `EnumerateHeader(name, size)` (`utility/string_helper.hpp`
declares it, the body is not among the sources): the "comma-separated, enumerated header
string", `size` fields `name_0, name_1, ...`, each after a comma. -/
def EnumerateHeader (name : String) (size : Nat) : List (CsvField K) :=
  (List.range size).map (fun i => CsvField.text (name ++ "_" ++ toString i))

/-- Modelled from the spec: `VectorToCommaString(vec)` (`utility/string_helper.hpp`
declares it, the body is not among the sources): the "comma-separated string" of the
entries of `vec`, one field per entry, each after a comma. -/
def VectorToCommaString {n : Nat} (vec : Fin n → K) : List (CsvField K) :=
  (List.ofFn vec).map CsvField.number

/-- Modelled from the spec: `QuaternionToCommaString(quat)` (not among the sources): the
four fields of `ang_pos[4]`, in the order `w, x, y, z`. -/
def QuaternionToCommaString (quat : Quaterniond K) : List (CsvField K) :=
  [CsvField.number quat.w, CsvField.number quat.x, CsvField.number quat.y,
   CsvField.number quat.z]

/-- The members and virtual getters of `TruthEngine` that `WriteTruthData` reads.  The
class declaration of this revision is not among the sources; the per-sensor containers
(`m_imu_pos`, ...) are modelled as lists indexed by the sensor id, a missing entry reads
as zero / identity. -/
structure TruthEngine (K : Type) where
  GetBodyPosition : K → Fin 3 → K
  GetBodyVelocity : K → Fin 3 → K
  GetBodyAcceleration : K → Fin 3 → K
  GetBodyAngularPosition : K → Quaterniond K
  GetBodyAngularRate : K → Fin 3 → K
  GetBodyAngularAcceleration : K → Fin 3 → K
  m_imu_pos : List (Fin 3 → K)
  m_imu_ang_pos : List (Quaterniond K)
  m_imu_acc_bias : List (Fin 3 → K)
  m_imu_gyro_bias : List (Fin 3 → K)
  m_cam_pos : List (Fin 3 → K)
  m_cam_ang_pos : List (Quaterniond K)

/-- `TruthEngine::GetImuPosition`. -/
def TruthEngine.GetImuPosition (te : TruthEngine K) (sensor_id : Nat) : Fin 3 → K :=
  te.m_imu_pos.getD sensor_id 0

/-- `TruthEngine::GetImuAngularPosition`. -/
def TruthEngine.GetImuAngularPosition (te : TruthEngine K) (sensor_id : Nat) : Quaterniond K :=
  te.m_imu_ang_pos.getD sensor_id ⟨1, 0, 0, 0⟩

/-- `TruthEngine::GetImuAccelerometerBias`. -/
def TruthEngine.GetImuAccelerometerBias (te : TruthEngine K) (sensor_id : Nat) : Fin 3 → K :=
  te.m_imu_acc_bias.getD sensor_id 0

/-- `TruthEngine::GetImuGyroscopeBias`. -/
def TruthEngine.GetImuGyroscopeBias (te : TruthEngine K) (sensor_id : Nat) : Fin 3 → K :=
  te.m_imu_gyro_bias.getD sensor_id 0

/-- `TruthEngine::GetCameraPosition`. -/
def TruthEngine.GetCameraPosition (te : TruthEngine K) (sensor_id : Nat) : Fin 3 → K :=
  te.m_cam_pos.getD sensor_id 0

/-- `TruthEngine::GetCameraAngularPosition`. -/
def TruthEngine.GetCameraAngularPosition (te : TruthEngine K) (sensor_id : Nat) :
    Quaterniond K :=
  te.m_cam_ang_pos.getD sensor_id ⟨1, 0, 0, 0⟩

/-- The stream `header` of `TruthEngine::WriteTruthData` at the call of `DefineHeader`. -/
def TruthEngine.WriteTruthData_header (te : TruthEngine K) : List (CsvField K) :=
  let header : List (CsvField K) := [CsvField.text "time"]
  let header := header ++ EnumerateHeader "body_pos" 3
  let header := header ++ EnumerateHeader "body_vel" 3
  let header := header ++ EnumerateHeader "body_acc" 3
  let header := header ++ EnumerateHeader "body_ang_pos" 4
  let header := header ++ EnumerateHeader "body_ang_vel" 3
  let header := header ++ EnumerateHeader "body_ang_acc" 3
  let header := (List.range te.m_imu_pos.length).foldl
    (fun header i =>
      let header := header ++ EnumerateHeader ("imu_pos_" ++ toString i) 3
      let header := header ++ EnumerateHeader ("imu_ang_pos_" ++ toString i) 4
      let header := header ++ EnumerateHeader ("imu_acc_bias_" ++ toString i) 3
      header ++ EnumerateHeader ("imu_gyr_bias_" ++ toString i) 3)
    header
  (List.range te.m_cam_pos.length).foldl
    (fun header i =>
      let header := header ++ EnumerateHeader ("cam_pos_" ++ toString i) 3
      header ++ EnumerateHeader ("cam_ang_pos_" ++ toString i) 4)
    header

/-- One pass of the measurement loop of `TruthEngine::WriteTruthData`: from the stream
`header` and the index `i` to the stream `header` after the pass and the line `msg` that
is logged.  The two inner loops write the sensor values to `header`, as in the source. -/
def TruthEngine.WriteTruthData_row (te : TruthEngine K) (body_data_rate : K)
    (header : List (CsvField K)) (i : Nat) : List (CsvField K) × List (CsvField K) :=
  let time := (i : K) / body_data_rate
  let msg : List (CsvField K) := [CsvField.number time]
  let msg := msg ++ VectorToCommaString (te.GetBodyPosition time)
  let msg := msg ++ VectorToCommaString (te.GetBodyVelocity time)
  let msg := msg ++ VectorToCommaString (te.GetBodyAcceleration time)
  let msg := msg ++ QuaternionToCommaString (te.GetBodyAngularPosition time)
  let msg := msg ++ VectorToCommaString (te.GetBodyAngularRate time)
  let msg := msg ++ VectorToCommaString (te.GetBodyAngularAcceleration time)
  let header := (List.range te.m_imu_pos.length).foldl
    (fun header i =>
      let header := header ++ VectorToCommaString (te.GetImuPosition i)
      let header := header ++ QuaternionToCommaString (te.GetImuAngularPosition i)
      let header := header ++ VectorToCommaString (te.GetImuAccelerometerBias i)
      header ++ VectorToCommaString (te.GetImuGyroscopeBias i))
    header
  let header := (List.range te.m_cam_pos.length).foldl
    (fun header i =>
      let header := header ++ VectorToCommaString (te.GetCameraPosition i)
      header ++ QuaternionToCommaString (te.GetCameraAngularPosition i))
    header
  (header, msg)

/-- The file `body_truth.csv` that `TruthEngine::WriteTruthData` writes: the header line
given to `DefineHeader` and the data lines given to `Log`, in order.  `floor` is
`std::floor`; the count `num_measurements` is an `unsigned int`. -/
def TruthEngine.WriteTruthData (te : TruthEngine K) (floor : K → Int)
    (body_data_rate max_time : K) : List (CsvField K) × List (List (CsvField K)) :=
  let header := te.WriteTruthData_header
  let num_measurements := (floor ((max_time + 1) * body_data_rate) % 4294967296).toNat
  let st := (List.range num_measurements).foldl
    (fun (st : List (CsvField K) × List (List (CsvField K))) i =>
      let r := te.WriteTruthData_row body_data_rate st.1 i
      (r.1, st.2 ++ [r.2]))
    (header, [])
  (header, st.2)

/-! ## EKF estimate and process model -/

/-- The estimate `BodyState` that `ImuUpdater::RefreshStates` reads from the filter
(`ekf/Types.hpp` is not among the sources; the fields are the ones read there). -/
structure BodyState (K : Type) where
  position : Fin 3 → K
  velocity : Fin 3 → K
  acceleration : Fin 3 → K
  orientation : Quaterniond K
  angularVelocity : Fin 3 → K
  angularAcceleration : Fin 3 → K

/-- The estimate part of `ImuState` that `ImuUpdater::RefreshStates` reads from the
filter: offsets and biases of one IMU. -/
structure ImuStateEstimate (K : Type) where
  position : Fin 3 → K
  orientation : Quaterniond K
  accBias : Fin 3 → K
  omgBias : Fin 3 → K

/-- The members of the filter (`m_state`, `m_cov`, `m_currentTime`, `m_processNoise` of
`ekf/EKF.hpp`) for a filter with one registered IMU that is extrinsic and intrinsic: the
body block (indices 0..17) and the IMU block (18..29).  `m_processNoise` holds the
spectral density of each state. -/
structure Estimator (K : Type) where
  m_bodyState : BodyState K
  m_imuState : ImuStateEstimate K
  m_cov : Matrix (Fin 30) (Fin 30) K
  m_currentTime : K
  m_processNoise : Fin 30 → K

/-- Eigen `Quaterniond::operator*`, the quaternion product. -/
def Quaterniond.mul (a b : Quaterniond K) : Quaterniond K :=
  ⟨a.w * b.w - a.x * b.x - a.y * b.y - a.z * b.z,
   a.w * b.x + a.x * b.w + a.y * b.z - a.z * b.y,
   a.w * b.y + a.y * b.w + a.z * b.x - a.x * b.z,
   a.w * b.z + a.z * b.w + a.x * b.y - a.y * b.x⟩

/-- Modelled from the spec: the state-transition matrix `F(Δt)` of §4.2 ("3×3 identity on
the diagonal, and 3×3·Δt coupling p←v, v←a, q←ω, ω←α ... everything else: identity").
`ekf.cpp` is not among the sources. -/
def GetStateTransition (dT : K) : Matrix (Fin 30) (Fin 30) K :=
  fun i j =>
    if i = j then 1
    else if j.val = i.val + 3 ∧ (i.val < 6 ∨ (9 ≤ i.val ∧ i.val < 15)) then dT
    else 0

/-- Modelled from the spec: `EKF::processModel(time)` of §4.2 (`ekf.cpp` is not among the
sources).  The mean moves by `F(Δt)` (position by velocity, velocity by acceleration,
orientation by angular velocity, angular velocity by angular acceleration; the sensor
states stay), the covariance becomes `F P Fᵀ + Q(Δt)` with `Q(Δt)` the diagonal matrix of
`|Δt|` times the spectral densities; for a negative `Δt` the mean stays and only
`|Δt|` times the process noise is added.  The current time is recorded. -/
def Estimator.processModel (exp : (Fin 3 → K) → Quaterniond K) (ekf : Estimator K)
    (time : K) : Estimator K :=
  let dT := time - ekf.m_currentTime
  let Q : Matrix (Fin 30) (Fin 30) K := Matrix.diagonal (fun i => |dT| * ekf.m_processNoise i)
  if dT < 0 then
    { ekf with m_cov := ekf.m_cov + Q, m_currentTime := time }
  else
    let F : Matrix (Fin 30) (Fin 30) K := GetStateTransition dT
    { ekf with
      m_bodyState :=
        { position := ekf.m_bodyState.position + dT • ekf.m_bodyState.velocity
          velocity := ekf.m_bodyState.velocity + dT • ekf.m_bodyState.acceleration
          acceleration := ekf.m_bodyState.acceleration
          orientation :=
            ekf.m_bodyState.orientation.mul (exp (dT • ekf.m_bodyState.angularVelocity))
          angularVelocity :=
            ekf.m_bodyState.angularVelocity + dT • ekf.m_bodyState.angularAcceleration
          angularAcceleration := ekf.m_bodyState.angularAcceleration }
      m_cov := F * ekf.m_cov * Fᵀ + Q
      m_currentTime := time }

/-- `ImuUpdater::RefreshStates`: the members of the updater are read from the filter. -/
def ImuUpdater.RefreshStates (ekf : Estimator K) : ImuUpdater K :=
  { m_bodyAcc := ekf.m_bodyState.acceleration
    m_bodyAngVel := ekf.m_bodyState.angularVelocity
    m_bodyAngAcc := ekf.m_bodyState.angularAcceleration
    m_posOffset := ekf.m_imuState.position
    m_angOffset := ekf.m_imuState.orientation
    m_accBias := ekf.m_imuState.accBias
    m_omgBias := ekf.m_imuState.omgBias }

/-! ## Jacobian blocks, the state size and the loop over the tracks -/

/-- Eigen `segment<3>(0)` of a 6-vector: its first three entries. -/
def head3 (z : Fin 6 → K) : Fin 3 → K :=
  fun i => z (Fin.castAdd 3 i)

/-- Modelled from the spec: `State::getStateSize` (`ekf/Types.hpp` and `ekf.cpp` are not
among the sources): `18 + Σ(6·is_extrinsic + 6·is_intrinsic) + Σ(6 + 12·|clone_window|)`
over the registered IMUs and cameras. -/
def EKF.GetStateSize (ekf : EKF) : Nat :=
  g_body_state_size + (ekf.m_imu_states.map (fun e => e.2.size)).sum +
    (ekf.m_cam_states.map (fun e => e.2.size)).sum

/-- The column indices of `H` that the two block assignments of `ImuUpdater::updateEKF`
write: `H.block<6, 18>(0, 0)` and `H.block(0, stateStartIndex, 6, 12)`. -/
def updateEKF_H_columns (stateStartIndex : Nat) : List Nat :=
  List.range 18 ++ List.range' stateStartIndex 12

/-- The filter, the vector `z_pred` and the matrix `subH` of `ImuUpdater::updateEKF(time,
...)` in the order of the source: `RefreshStates()` reads the members of the updater from
the filter, `m_ekf->processModel(time)` moves the filter, then `predictMeasurement()` and
`getMeasurementJacobian()` are evaluated on the members. -/
def ImuUpdater.updateEKF_prediction (exp : (Fin 3 → K) → Quaterniond K) (ekf : Estimator K)
    (time : K) : Estimator K × (Fin 6 → K) × Matrix (Fin 6) (Fin 30) K :=
  let u := ImuUpdater.RefreshStates ekf
  let ekf := ekf.processModel exp time
  let z_pred := u.predictMeasurement
  let subH := u.getMeasurementJacobian
  (ekf, z_pred, subH)

/-- The clone `m_aug_states[0]` whose poses `MsckfUpdater::UpdateEKF` reads as those of
the anchor ("Get calibration for our anchor camera", "Anchor pose orientation and
position"); an empty window has no element 0 (`none`). -/
def MsckfUpdater.UpdateEKF_anchor (u : MsckfUpdater K) : Option (AugmentedState K) :=
  u.m_aug_states.head?

/-- The vector `p_FinG` ("Feature in the global frame") that `MsckfUpdater::UpdateEKF`
forms from `p_FinA` with the poses of the clone `anchor`. -/
def UpdateEKF_p_FinG (anchor : AugmentedState K) (p_FinA : Fin 3 → K) : Fin 3 → K :=
  let R_CtoI := anchor.orientation.toRotationMatrix
  let p_IinC := anchor.position
  let R_GtoI := anchor.imu_orientation.toRotationMatrixᵀ
  let p_IinG := anchor.imu_position
  (R_GtoIᵀ * R_CtoI) *ᵥ (p_FinA - p_IinC) + p_IinG

/-- The vector `p_FinCi` of the loop over the observations `i = 1, ...` of
`MsckfUpdater::UpdateEKF`: the feature in the frame of the clone of the observation. -/
def MsckfUpdater.UpdateEKF_p_FinCi (u : MsckfUpdater K) (p_FinG : Fin 3 → K)
    (ft : FeatureTrack K) : Fin 3 → K :=
  let aug_state := u.MatchState ft.frame_id
  let R_ItoC := aug_state.orientation.toRotationMatrixᵀ
  let p_IinC := aug_state.position
  let R_GtoIi := aug_state.imu_orientation.toRotationMatrixᵀ
  let p_Ii_inG := aug_state.imu_position
  let p_FinIi := R_GtoIi *ᵥ (p_FinG - p_Ii_inG)
  R_ItoC *ᵥ p_FinIi + p_IinC

/-- What one pass of the loop over the tracks of `MsckfUpdater::UpdateEKF` computes for a
track that is not skipped: `p_FinA`, `p_FinG`, the points `p_FinCi` for `i = 1, ...`, and
the number `H_x.rows()` of rows appended to `Hx_big` and `res_big`
(`ct_meas += H_x.rows()`). -/
structure TrackUpdate (K : Type) where
  p_FinA : Fin 3 → K
  p_FinG : Fin 3 → K
  p_FinCi : List (Fin 3 → K)
  rows : Nat

/-- One pass of the loop `for (auto & feature_track : feature_tracks)` of
`MsckfUpdater::UpdateEKF`.  `some none`: the track is skipped by `continue` (the only
test is `p_FinA.norm() < 1e-3`) and nothing is appended.  `some (some r)`: `r.rows` rows
are appended; `H_x` and `res` have `2 * feature_track.size()` rows and after
`ApplyLeftNullspace` the block from row `H_f.cols() = 3` on is kept.  `none`: the source
reads a value that is not defined (an empty track, an empty clone window, or a block of
negative size for a track of one observation). -/
def MsckfUpdater.UpdateEKF_track (u : MsckfUpdater K) (sqrt : K → K)
    (feature_track : List (FeatureTrack K)) : Option (Option (TrackUpdate K)) :=
  match u.TriangulateFeature sqrt feature_track with
  | none => none
  | some p_FinA =>
    if norm3 sqrt p_FinA < 1e-3 then some none
    else
      match u.UpdateEKF_anchor with
      | none => none
      | some anchor =>
        let p_FinG := UpdateEKF_p_FinG anchor p_FinA
        let p_FinCi := (feature_track.drop 1).map (u.UpdateEKF_p_FinCi p_FinG)
        if 2 * feature_track.length < 3 then none
        else
          some (some { p_FinA := p_FinA, p_FinG := p_FinG, p_FinCi := p_FinCi,
                       rows := 2 * feature_track.length - 3 })

/-! ## MsckfUpdater::UpdateEKF: the stacked system -/

/-- The assignment `M.block(i0, j0, p, q) += B`. -/
def addBlock {r c p q : Nat} (M : Matrix (Fin r) (Fin c) K) (i0 j0 : Nat)
    (B : Matrix (Fin p) (Fin q) K) : Matrix (Fin r) (Fin c) K :=
  setBlock M i0 j0 (getBlock M i0 j0 p q + B)

/-- The assignment `v.block(i0, 0, p, 1) = w` on a column vector. -/
def setSegment {r p : Nat} (v : Fin r → K) (i0 : Nat) (w : Fin p → K) : Fin r → K :=
  fun i => if h : i0 ≤ i.val ∧ i.val < i0 + p then w ⟨i.val - i0, by omega⟩ else v i

/-- The read `v.block(i0, 0, p, 1)` of a column vector (entries outside `v` read as zero;
the source only reads blocks that lie inside). -/
def getSegment {r : Nat} (v : Fin r → K) (i0 p : Nat) : Fin p → K :=
  fun i => if h : i0 + i.val < r then v ⟨i0 + i.val, h⟩ else 0

/-- The matrix `H_anc` ("Jacobian for our anchor pose") of `MsckfUpdater::UpdateEKF` for
the clone `anchor`; both 3 x 3 blocks of the 3 x 6 matrix are assigned. -/
def UpdateEKF_H_anc (anchor : AugmentedState K) (p_FinA : Fin 3 → K) :
    Matrix (Fin 3) (Fin 6) K :=
  let R_CtoI := anchor.orientation.toRotationMatrix
  let p_IinC := anchor.position
  let R_GtoI := anchor.imu_orientation.toRotationMatrixᵀ
  let H_anc : Matrix (Fin 3) (Fin 6) K := 0
  let H_anc := setBlock H_anc 0 0 (-R_GtoIᵀ * SkewSymmetric (R_CtoI *ᵥ (p_FinA - p_IinC)))
  setBlock H_anc 0 3 (1 : Matrix (Fin 3) (Fin 3) K)

/-- The matrix `H_calib` ("calibration Jacobians (for anchor clone)") of
`MsckfUpdater::UpdateEKF`. -/
def UpdateEKF_H_calib (anchor : AugmentedState K) (p_FinA : Fin 3 → K) :
    Matrix (Fin 3) (Fin 6) K :=
  let R_CtoI := anchor.orientation.toRotationMatrix
  let p_IinC := anchor.position
  let R_GtoI := anchor.imu_orientation.toRotationMatrixᵀ
  let R_CtoG := R_GtoIᵀ * R_CtoI
  let H_calib : Matrix (Fin 3) (Fin 6) K := 0
  let H_calib := setBlock H_calib 0 0 (-R_CtoG * SkewSymmetric (p_FinA - p_IinC))
  setBlock H_calib 0 3 (-R_CtoG)

/-- The body of the loop `for (i = 1; i < feature_track.size(); ++i)` of
`MsckfUpdater::UpdateEKF` for the observation `ft = feature_track[i]`: the band of the rows
`2 (i - 1)`, `2 (i - 1) + 1` of `res`, `H_f` and `H_x` is written.  `cam_state_start` and
`GetAugStateStartIndex` are the values that the source reads from the filter
(`m_ekf->GetCamStateStartIndex(camera_id)`, `m_ekf->GetAugStateStartIndex(camera_id, ·)`);
the column offsets are differences of `unsigned int`, here of natural numbers: in the
layouts of the filter `cam_state_start + 6 ≤ augStateStart`, so no difference wraps. -/
def MsckfUpdater.UpdateEKF_observation (u : MsckfUpdater K) (cam_state_start : Nat)
    (GetAugStateStartIndex : Nat → Nat) (p_FinG : Fin 3 → K)
    (H_anc H_calib : Matrix (Fin 3) (Fin 6) K) (dPFG_dLambda : Matrix (Fin 3) (Fin 3) K)
    {r cx : Nat}
    (st : (Fin r → K) × Matrix (Fin r) (Fin 3) K × Matrix (Fin r) (Fin cx) K)
    (i : Nat) (ft : FeatureTrack K) :
    (Fin r → K) × Matrix (Fin r) (Fin 3) K × Matrix (Fin r) (Fin cx) K :=
  let aug_state := u.MatchState ft.frame_id
  let R_ItoC := aug_state.orientation.toRotationMatrixᵀ
  let p_IinC := aug_state.position
  let R_GtoIi := aug_state.imu_orientation.toRotationMatrixᵀ
  let p_Ii_inG := aug_state.imu_position
  let p_FinIi := R_GtoIi *ᵥ (p_FinG - p_Ii_inG)
  let p_FinCi := R_ItoC *ᵥ p_FinIi + p_IinC
  let uv_norm : Fin 2 → K := ![p_FinCi 0 / p_FinCi 2, p_FinCi 1 / p_FinCi 2]
  let uv_m : Fin 2 → K := ![ft.x, ft.y]
  let res := setSegment st.1 (2 * (i - 1)) (uv_m - uv_norm)
  let dzn_dPFC := dzn_dPFC p_FinCi
  let dPFC_dPFG := R_ItoC * R_GtoIi
  let dPFC_dClone : Matrix (Fin 3) (Fin 6) K := 0
  let dPFC_dClone := setBlock dPFC_dClone 0 0 (R_ItoC * SkewSymmetric p_FinIi)
  let dPFC_dClone := setBlock dPFC_dClone 0 3 (-dPFC_dPFG)
  let augStateStart := GetAugStateStartIndex ft.frame_id
  let dz_dPFC := dzn_dPFC
  let dz_dPFG := dz_dPFC * dPFC_dPFG
  let H_f := setBlock st.2.1 (2 * (i - 1)) 0 (dz_dPFG * dPFG_dLambda)
  let H_x := setBlock st.2.2 (2 * (i - 1)) 0 (dz_dPFC * dPFC_dClone)
  let H_x := addBlock H_x (2 * (i - 1)) (augStateStart - cam_state_start - 6) (dz_dPFG * H_anc)
  let H_x := addBlock H_x (2 * (i - 1)) (augStateStart - cam_state_start) (dz_dPFG * H_calib)
  let dPFC_dCalib : Matrix (Fin 3) (Fin 6) K := 0
  let dPFC_dCalib := setBlock dPFC_dCalib 0 0 (SkewSymmetric (p_FinCi - p_IinC))
  let dPFC_dCalib := setBlock dPFC_dCalib 0 3 (1 : Matrix (Fin 3) (Fin 3) K)
  let H_x := addBlock H_x (2 * (i - 1)) 0 (dz_dPFC * dPFC_dCalib)
  (res, H_f, H_x)

/-- The residual and the Jacobians `(res, H_f, H_x)` of one track in
`MsckfUpdater::UpdateEKF` before `ApplyLeftNullspace`: zero matrices with `rows` rows (the
source takes `rows = 2 * feature_track.size()`), then the loop over the observations
`i = 1, ...`. -/
def MsckfUpdater.UpdateEKF_jacobians (u : MsckfUpdater K) (cam_state_start : Nat)
    (GetAugStateStartIndex : Nat → Nat) (anchor : AugmentedState K) (p_FinA : Fin 3 → K)
    (rows aug_state_size : Nat) (feature_track : List (FeatureTrack K)) :
    (Fin rows → K) × Matrix (Fin rows) (Fin 3) K × Matrix (Fin rows) (Fin aug_state_size) K :=
  let p_FinG := UpdateEKF_p_FinG anchor p_FinA
  let R_CtoI := anchor.orientation.toRotationMatrix
  let R_GtoI := anchor.imu_orientation.toRotationMatrixᵀ
  let R_CtoG := R_GtoIᵀ * R_CtoI
  let H_anc := UpdateEKF_H_anc anchor p_FinA
  let H_calib := UpdateEKF_H_calib anchor p_FinA
  let dPFG_dLambda := R_CtoG
  ((feature_track.drop 1).enumFrom 1).foldl
    (fun st e =>
      u.UpdateEKF_observation cam_state_start GetAugStateStartIndex p_FinG H_anc H_calib
        dPFG_dLambda st e.1 e.2)
    (0, 0, 0)

/-- One pass of the loop `for (auto & feature_track : feature_tracks)` of
`MsckfUpdater::UpdateEKF` on `(Hx_big, res_big, ct_meas)`.  A track with
`p_FinA.norm() < 1e-3` is skipped by `continue`, the only test of the loop.  Otherwise
`res`, `H_f` and `H_x` are built, `ApplyLeftNullspace` is applied, the rows from
`H_f.cols() = 3` on are kept, written into `Hx_big` at `(ct_meas, cam_state_start)` and into
`res_big` at `ct_meas`, and `ct_meas` grows by the number of these rows.  `aug_state_size`
is `g_aug_state_size * augmented_states.size()` as read from the filter.  `none`: the
source reads a value that is not defined (an empty track, an empty clone window, or a block
of negative size for a track of one observation). -/
def MsckfUpdater.UpdateEKF_pass (u : MsckfUpdater K) (sqrt : K → K)
    (cam_state_start aug_state_size : Nat) (GetAugStateStartIndex : Nat → Nat)
    {max_meas_size state_size : Nat}
    (st : Matrix (Fin max_meas_size) (Fin state_size) K × (Fin max_meas_size → K) × Nat)
    (feature_track : List (FeatureTrack K)) :
    Option (Matrix (Fin max_meas_size) (Fin state_size) K × (Fin max_meas_size → K) × Nat) :=
  match u.TriangulateFeature sqrt feature_track with
  | none => none
  | some p_FinA =>
    if norm3 sqrt p_FinA < 1e-3 then some st
    else
      match u.UpdateEKF_anchor with
      | none => none
      | some anchor =>
        let J := u.UpdateEKF_jacobians cam_state_start GetAugStateStartIndex anchor p_FinA
          (2 * feature_track.length) aug_state_size feature_track
        let N := ApplyLeftNullspace sqrt J.2.1 J.2.2 J.1
        if 2 * feature_track.length < 3 then none
        else
          let H_x := getBlock N.2.1 3 0 (2 * feature_track.length - 3) aug_state_size
          let res := getSegment N.2.2 3 (2 * feature_track.length - 3)
          let Hx_big := setBlock st.1 st.2.2 cam_state_start H_x
          let res_big := setSegment st.2.1 st.2.2 res
          some (Hx_big, res_big, st.2.2 + (2 * feature_track.length - 3))

/-- The value `max_meas_size` of `MsckfUpdater::UpdateEKF`: `2 * feature_track.size()`
summed over all the tracks of the call. -/
def UpdateEKF_max_meas_size (feature_tracks : List (List (FeatureTrack K))) : Nat :=
  feature_tracks.foldl (fun max_meas_size feature_track =>
    max_meas_size + 2 * feature_track.length) 0

/-- The loop over the tracks of `MsckfUpdater::UpdateEKF`, started from
`Hx_big = Zero(max_meas_size, state_size)`, `res_big = Zero(max_meas_size)` and
`ct_meas = 0`. -/
def MsckfUpdater.UpdateEKF_loop (u : MsckfUpdater K) (sqrt : K → K)
    (cam_state_start aug_state_size : Nat) (GetAugStateStartIndex : Nat → Nat)
    (max_meas_size state_size : Nat) (feature_tracks : List (List (FeatureTrack K))) :
    Option (Matrix (Fin max_meas_size) (Fin state_size) K × (Fin max_meas_size → K) × Nat) :=
  feature_tracks.foldlM
    (u.UpdateEKF_pass sqrt cam_state_start aug_state_size GetAugStateStartIndex) (0, 0, 0)

/-- The system `(Hx_big, res_big, ct_meas)` that `MsckfUpdater::UpdateEKF` has built when
the loop over the tracks ends (source line 327), before `CompressMeasurements`. -/
def MsckfUpdater.UpdateEKF_stack (u : MsckfUpdater K) (sqrt : K → K)
    (cam_state_start aug_state_size : Nat) (GetAugStateStartIndex : Nat → Nat)
    (state_size : Nat) (feature_tracks : List (List (FeatureTrack K))) :
    Option (Matrix (Fin (UpdateEKF_max_meas_size feature_tracks)) (Fin state_size) K ×
      (Fin (UpdateEKF_max_meas_size feature_tracks) → K) × Nat) :=
  u.UpdateEKF_loop sqrt cam_state_start aug_state_size GetAugStateStartIndex
    (UpdateEKF_max_meas_size feature_tracks) state_size feature_tracks

/-! ## Concrete inputs -/

/-- The feature Jacobian of `UpdateEKF` for a track of two observations whose second clone
has the camera orientation `(w, x, y, z) = (4/5, 0, 0, 3/5)` (so `R_ItoC` is the transpose
of its rotation matrix), identity IMU and anchor orientations (`R_GtoIi = 1`,
`dPFG_dLambda = R_CtoG = 1`) and sees the feature at `p_FinCi = (0, -1, 1)`. -/
def leftNullspace_H_f : Matrix (Fin 4) (Fin 3) K :=
  UpdateEKF_H_f ![0, -1, 1]
    ((Quaterniond.toRotationMatrix ⟨4 / 5, 0, 0, 3 / 5⟩)ᵀ * (1 : Matrix (Fin 3) (Fin 3) K)) 1

/-- A 3 x 2 stacked Jacobian (more rows than columns): only `jacobian(1, 0)` is not zero. -/
def compress_jacobian : Matrix (Fin 3) (Fin 2) ℝ :=
  !![0, 0; 1, 0; 0, 0]

/-- A residual of length 3 for `compress_jacobian`. -/
def compress_residual : Fin 3 → ℝ :=
  ![0, 1, 0]

/-- Two clones of a 640 x 480 camera: frame 0 at the origin, turned by half a turn about
the axis `(3/5, 0, 4/5)`; frame 1 at `(24, 0, -18)`, turned by half a turn about the z axis.
Both rotation matrices are symmetric, so they read the same as camera-to-global and as
global-to-camera. -/
def triangulate_updater : MsckfUpdater K :=
  { m_aug_states :=
      [{ frame_id := 0, position := ![0, 0, 0], orientation := ⟨0, 3 / 5, 0, 4 / 5⟩,
         imu_position := 0, imu_orientation := ⟨1, 0, 0, 0⟩ },
       { frame_id := 1, position := ![24, 0, -18], orientation := ⟨0, 0, 0, 1⟩,
         imu_position := 0, imu_orientation := ⟨1, 0, 0, 0⟩ }],
    m_image_width := 640,
    m_image_height := 480 }

/-- A track of two observations, both at the image centre `(320, 240)`, that is with
bearing `(0, 0, 1)`. -/
def triangulate_track : List (FeatureTrack K) :=
  [{ frame_id := 0, x := 320, y := 240 }, { frame_id := 1, x := 320, y := 240 }]

/-- The feature point seen along both bearings: it is 25 in front of each clone. -/
def triangulate_point : Fin 3 → K := ![24, 0, 7]

/-- An IMU updater at rest: zero body state, no offsets, identity orientation, zero
biases (the member defaults of `ImuUpdater.hpp`). -/
def imu_updater_rest : ImuUpdater K :=
  { m_bodyAcc := ![0, 0, 0], m_bodyAngVel := ![0, 0, 0], m_bodyAngAcc := ![0, 0, 0],
    m_posOffset := ![0, 0, 0], m_angOffset := ⟨1, 0, 0, 0⟩,
    m_accBias := ![0, 0, 0], m_omgBias := ![0, 0, 0] }

/-- The measurement Jacobian `H` of the IMU at rest in a 30-dimensional state (body 18,
IMU 12 at index 18): identity blocks at the body acceleration (columns 6..8), the body
angular velocity (12..14) and the two biases (24..29). -/
def imu_rest_H : Matrix (Fin 6) (Fin 30) K :=
  fun i j =>
    if (i.val < 3 ∧ j.val = i.val + 6) ∨ (3 ≤ i.val ∧ j.val = i.val + 9) ∨
        j.val = i.val + 24 then 1
    else 0

/-- A 3 x 3 "covariance" that is not symmetric. -/
def asymmetric_cov : Matrix (Fin 3) (Fin 3) K :=
  !![1, 1, 0; 0, 1, 0; 0, 0, 1]

/-- The innovation covariance of the IMU at rest for `P = I`, the acceleration
covariance `asymmetric_cov` and the identity as angular-rate covariance. -/
def asymmetric_S : Matrix (Fin 6) (Fin 6) K :=
  fun i j => if i = j then 3 else if i = 0 ∧ j = 1 then 1 else 0

/-- The inverse of `asymmetric_S`. -/
def asymmetric_S_inv : Matrix (Fin 6) (Fin 6) K :=
  fun i j => if i = j then 1 / 3 else if i = 0 ∧ j = 1 then -1 / 9 else 0

/-- A symmetric positive-semidefinite 3 x 3 covariance that is singular (its first two
rows are equal) and whose diagonal entries are all 1. -/
def singular_cov : Matrix (Fin 3) (Fin 3) K :=
  !![1, 1, 0; 1, 1, 0; 0, 0, 1]

/-- A second singular positive-semidefinite covariance (its last two rows are equal). -/
def singular_cov_tail : Matrix (Fin 3) (Fin 3) K :=
  !![1, 0, 0; 0, 1, 1; 0, 1, 1]

/-- A camera that sees one feature (class id 0, at the pixel (320, 240)) at time 0 and
nothing at any other time. -/
def single_frame_keypoints : K → List (KeyPoint K) :=
  fun time => if time = 0 then [⟨320, 240, 0⟩] else []

/-- A truth engine at rest at the origin that knows one IMU and no camera. -/
def truth_engine_one_imu : TruthEngine K :=
  { GetBodyPosition := fun _ => 0
    GetBodyVelocity := fun _ => 0
    GetBodyAcceleration := fun _ => 0
    GetBodyAngularPosition := fun _ => ⟨1, 0, 0, 0⟩
    GetBodyAngularRate := fun _ => 0
    GetBodyAngularAcceleration := fun _ => 0
    m_imu_pos := [0]
    m_imu_ang_pos := [⟨1, 0, 0, 0⟩]
    m_imu_acc_bias := [0]
    m_imu_gyro_bias := [0]
    m_cam_pos := []
    m_cam_ang_pos := [] }

/-- An IMU mounted at the lever arm `(1, 0, 0)` with identity orientation, on a body at
rest. -/
def imu_updater_lever : ImuUpdater K :=
  { m_bodyAcc := 0, m_bodyAngVel := 0, m_bodyAngAcc := 0, m_posOffset := ![1, 0, 0],
    m_angOffset := ⟨1, 0, 0, 0⟩, m_accBias := 0, m_omgBias := 0 }

/-- An IMU at the body origin, mounted half a turn about the z axis
(`(w, x, y, z) = (0, 0, 0, 1)`), on a body that turns at the rate `(1, 0, 0)`. -/
def imu_updater_turned : ImuUpdater K :=
  { m_bodyAcc := 0, m_bodyAngVel := ![1, 0, 0], m_bodyAngAcc := 0, m_posOffset := 0,
    m_angOffset := ⟨0, 0, 0, 1⟩, m_accBias := 0, m_omgBias := 0 }

/-- A filter at time 0 whose body is at rest with the angular acceleration `(0, 0, 1)`;
one IMU without offsets and biases, zero covariance, no process noise. -/
def spinning_estimator : Estimator K :=
  { m_bodyState :=
      { position := 0, velocity := 0, acceleration := 0, orientation := ⟨1, 0, 0, 0⟩,
        angularVelocity := 0, angularAcceleration := ![0, 0, 1] }
    m_imuState := { position := 0, orientation := ⟨1, 0, 0, 0⟩, accBias := 0, omgBias := 0 }
    m_cov := 0
    m_currentTime := 0
    m_processNoise := 0 }

/-- A clone with `frame_id` 0: camera and body at the origin, identity orientations. -/
def clone_zero : AugmentedState K :=
  { frame_id := 0, position := ![0, 0, 0], orientation := ⟨1, 0, 0, 0⟩,
    imu_position := 0, imu_orientation := ⟨1, 0, 0, 0⟩ }

/-- A clone with `frame_id` 1 and position `(1, 0, 0)`, identity orientations. -/
def clone_one : AugmentedState K :=
  { frame_id := 1, position := ![1, 0, 0], orientation := ⟨1, 0, 0, 0⟩,
    imu_position := 0, imu_orientation := ⟨1, 0, 0, 0⟩ }

/-- A clone with `frame_id` 2 and position `(2, 0, 0)`, identity orientations. -/
def clone_two : AugmentedState K :=
  { frame_id := 2, position := ![2, 0, 0], orientation := ⟨1, 0, 0, 0⟩,
    imu_position := 0, imu_orientation := ⟨1, 0, 0, 0⟩ }

/-- A 640 x 480 camera whose window holds the clones of the frames 1 and 2. -/
def two_clone_updater : MsckfUpdater K :=
  { m_aug_states := [clone_one, clone_two], m_image_width := 640, m_image_height := 480 }

/-- A 640 x 480 camera whose window holds the clones of the frames 0, 1 and 2. -/
def three_clone_updater : MsckfUpdater K :=
  { m_aug_states := [clone_zero, clone_one, clone_two], m_image_width := 640,
    m_image_height := 480 }

/-- A track first seen in frame 1 at the image centre `(320, 240)` and then in frame 2 at
the pixel `(x, 240)`. -/
def two_view_track (x : K) : List (FeatureTrack K) :=
  [{ frame_id := 1, x := 320, y := 240 }, { frame_id := 2, x := x, y := 240 }]

/-- The clone of frame 1: camera position `(1, 0, 0)`, identity camera orientation, body at
the origin and turned about the z axis (`imu_orientation = (4/5, 0, 0, 3/5)`). -/
def clone_one_turned : AugmentedState K :=
  { frame_id := 1, position := ![1, 0, 0], orientation := ⟨1, 0, 0, 0⟩,
    imu_position := 0, imu_orientation := ⟨4 / 5, 0, 0, 3 / 5⟩ }

/-- The clone of frame 2: camera position `(2, 0, 0)`, body position `(2, 1, 0)`, identity
orientations. -/
def clone_two_moved : AugmentedState K :=
  { frame_id := 2, position := ![2, 0, 0], orientation := ⟨1, 0, 0, 0⟩,
    imu_position := ![2, 1, 0], imu_orientation := ⟨1, 0, 0, 0⟩ }

/-- A 640 x 480 camera whose window holds `clone_one_turned` and `clone_two_moved`. -/
def turned_clone_updater : MsckfUpdater K :=
  { m_aug_states := [clone_one_turned, clone_two_moved], m_image_width := 640,
    m_image_height := 480 }

/-- The start indices of the clones of the frames 1 and 2 in a state of one camera and no
IMU: the camera state starts at 18 and its clones at `18 + 6` and `18 + 6 + 12`. -/
def two_clone_GetAugStateStartIndex (frame_id : Nat) : Nat :=
  if frame_id = 1 then 24 else 36

/-- The clone of frame 1 with the camera at `(0, 0, -1)`, identity orientations. -/
def clone_one_below : AugmentedState K :=
  { frame_id := 1, position := ![0, 0, -1], orientation := ⟨1, 0, 0, 0⟩,
    imu_position := 0, imu_orientation := ⟨1, 0, 0, 0⟩ }

/-- The clone of frame 2 with the camera at `(-3/4, 0, -1)`, identity orientations. -/
def clone_two_below : AugmentedState K :=
  { frame_id := 2, position := ![-3 / 4, 0, -1], orientation := ⟨1, 0, 0, 0⟩,
    imu_position := 0, imu_orientation := ⟨1, 0, 0, 0⟩ }

/-- A 640 x 480 camera whose window holds `clone_one_below` and `clone_two_below`: the two
cameras look along the z axis from one unit below the origin of the global frame. -/
def below_clone_updater : MsckfUpdater K :=
  { m_aug_states := [clone_one_below, clone_two_below], m_image_width := 640,
    m_image_height := 480 }

/-! # Theorems -/

/-! ## Eigen helpers -/

theorem transformVector_eq_mulVec (q : Quaterniond K) (v : Fin 3 → K) :
    q.transformVector v = q.toRotationMatrix *ᵥ v := by
  funext i
  fin_cases i <;>
    simp [Quaterniond.transformVector, Quaterniond.toRotationMatrix, Quaterniond.vec, cross,
      Matrix.mulVec, Matrix.dotProduct, Fin.sum_univ_three, Matrix.vecHead, Matrix.vecTail] <;>
    ring

theorem determinant_eq_det {n : Nat} (S : Matrix (Fin n) (Fin n) ℝ) :
    determinant S = S.det :=
  rfl

theorem inverse_eq_inv {n : Nat} (S : Matrix (Fin n) (Fin n) K) : inverse S = S⁻¹ := by
  simp [inverse, determinant, Matrix.inv_def, Ring.inverse_eq_inv']

theorem inverse_mulVec_eq {n : Nat} (A : Matrix (Fin n) (Fin n) K) (x b : Fin n → K)
    (hdet : A.det ≠ 0) (h : A *ᵥ x = b) : inverse A *ᵥ b = x := by
  rw [← h, Matrix.mulVec_mulVec, inverse_eq_inv,
    Matrix.nonsing_inv_mul _ (isUnit_iff_ne_zero.mpr hdet), Matrix.one_mulVec]

/-! ## Givens loops -/

theorem makeGivens_zero (sqrt : K → K) : makeGivens sqrt 0 0 = { c := 1, s := 0 } := by
  simp [makeGivens]

theorem makeGivens_self_of_pos (x : ℝ) (hx : 0 < x) :
    makeGivens Real.sqrt x x = { c := 1 / Real.sqrt 2, s := -1 / Real.sqrt 2 } := by
  have h2 : (1 : ℝ) + 1 = 2 := by norm_num
  unfold makeGivens
  rw [if_neg hx.ne', if_neg hx.ne', if_neg (lt_irrefl _)]
  simp only [div_self hx.ne', mul_one, h2, if_neg (not_lt.mpr hx.le)]
  congr 1
  ring

theorem makeGivens_self_of_neg (x : ℝ) (hx : x < 0) :
    makeGivens Real.sqrt x x = { c := -1 / Real.sqrt 2, s := 1 / Real.sqrt 2 } := by
  have h2 : (1 : ℝ) + 1 = 2 := by norm_num
  unfold makeGivens
  rw [if_neg hx.ne, if_neg hx.ne, if_neg (lt_irrefl _)]
  simp only [div_self hx.ne, mul_one, h2, if_pos hx]
  congr 1 <;> ring

theorem blockApplyOnTheLeft_identity {r c : Nat} (M : Matrix (Fin r) (Fin c) K) (m n : Nat) :
    blockApplyOnTheLeft M m n (JacobiRotation.adjoint { c := 1, s := 0 }) = M := by
  unfold blockApplyOnTheLeft
  split_ifs with h
  · ext i k
    simp only [applyOnTheLeft, JacobiRotation.adjoint]
    split_ifs with h1 h2 h3
    · subst h2; simp
    · subst h3; simp
    · rfl
    · rfl
  · rfl

theorem vecApplyOnTheLeft_identity {r : Nat} (v : Fin r → K) (m : Nat) :
    vecApplyOnTheLeft v m (JacobiRotation.adjoint { c := 1, s := 0 }) = v := by
  funext i
  simp [vecApplyOnTheLeft, blockApplyOnTheLeft_identity]

theorem leftNullspaceStep_of_pivot_zero {r cf cx : Nat} (sqrt : K → K) (n m : Nat)
    (st : Matrix (Fin r) (Fin cf) K × Matrix (Fin r) (Fin cx) K × (Fin r → K))
    (h : coeff st.1 m n = 0) : leftNullspaceStep sqrt n st m = st := by
  simp only [leftNullspaceStep, h, makeGivens_zero, blockApplyOnTheLeft_identity,
    vecApplyOnTheLeft_identity]

theorem blockApplyOnTheLeft_zero {r c : Nat} (m n : Nat) (j : JacobiRotation K) :
    blockApplyOnTheLeft (0 : Matrix (Fin r) (Fin c) K) m n j = 0 := by
  unfold blockApplyOnTheLeft
  split_ifs with h
  · ext i k
    simp only [applyOnTheLeft]
    split_ifs <;> simp
  · rfl

theorem vecApplyOnTheLeft_zero {r : Nat} (m : Nat) (j : JacobiRotation K) :
    vecApplyOnTheLeft (0 : Fin r → K) m j = 0 := by
  funext i
  have h : (Matrix.col (Fin 1) (0 : Fin r → K)) = 0 := by
    ext a b
    simp
  simp [vecApplyOnTheLeft, h, blockApplyOnTheLeft_zero]

theorem blockApplyOnTheLeft_of_row_ne {r c : Nat} (M : Matrix (Fin r) (Fin c) K) (m n : Nat)
    (j : JacobiRotation K) (i : Fin r) (k : Fin c) (h1 : i.val ≠ m) (h2 : i.val ≠ m + 1) :
    blockApplyOnTheLeft M m n j i k = M i k := by
  unfold blockApplyOnTheLeft
  by_cases h : m + 1 < r
  · have e1 : i ≠ ⟨m, Nat.lt_of_succ_lt h⟩ := fun e => h1 (congrArg Fin.val e)
    have e2 : i ≠ ⟨m + 1, h⟩ := fun e => h2 (congrArg Fin.val e)
    simp only [dif_pos h, applyOnTheLeft, if_neg e1, if_neg e2, ite_self]
  · simp only [dif_neg h]

theorem blockApplyOnTheLeft_of_col_lt {r c : Nat} (M : Matrix (Fin r) (Fin c) K) (m n : Nat)
    (j : JacobiRotation K) (i : Fin r) (k : Fin c) (hk : k.val < n) :
    blockApplyOnTheLeft M m n j i k = M i k := by
  unfold blockApplyOnTheLeft
  by_cases h : m + 1 < r
  · simp only [dif_pos h, if_neg (not_le.mpr hk)]
  · simp only [dif_neg h]

theorem blockApplyOnTheLeft_row_succ {r c : Nat} (M : Matrix (Fin r) (Fin c) K) (m n : Nat)
    (j : JacobiRotation K) (h : m + 1 < r) (k : Fin c) (hk : n ≤ k.val) :
    blockApplyOnTheLeft M m n j ⟨m + 1, h⟩ k =
      -j.s * M ⟨m, Nat.lt_of_succ_lt h⟩ k + j.c * M ⟨m + 1, h⟩ k := by
  unfold blockApplyOnTheLeft
  have e : (⟨m + 1, h⟩ : Fin r) ≠ ⟨m, Nat.lt_of_succ_lt h⟩ := by
    intro e
    have := congrArg Fin.val e
    simp at this
  simp only [dif_pos h, if_pos hk, applyOnTheLeft, if_neg e, if_true]

theorem makeGivens_self_adjoint_s (p : ℝ) :
    -(makeGivens Real.sqrt p p).adjoint.s * p = -|p| / Real.sqrt 2 := by
  rcases lt_trichotomy p 0 with hp | hp | hp
  · rw [makeGivens_self_of_neg p hp, abs_of_neg hp]
    simp only [JacobiRotation.adjoint]
    ring
  · subst hp
    simp
  · rw [makeGivens_self_of_pos p hp, abs_of_pos hp]
    simp only [JacobiRotation.adjoint]
    ring

theorem leftNullspaceStep_of_row_ne {r cf cx : Nat} (sqrt : K → K) (n m : Nat)
    (st : Matrix (Fin r) (Fin cf) K × Matrix (Fin r) (Fin cx) K × (Fin r → K))
    (i : Fin r) (k : Fin cf) (h1 : i.val ≠ m) (h2 : i.val ≠ m + 1) :
    (leftNullspaceStep sqrt n st m).1 i k = st.1 i k :=
  blockApplyOnTheLeft_of_row_ne _ _ _ _ _ _ h1 h2

theorem leftNullspaceStep_of_col_lt {r cf cx : Nat} (sqrt : K → K) (n m : Nat)
    (st : Matrix (Fin r) (Fin cf) K × Matrix (Fin r) (Fin cx) K × (Fin r → K))
    (i : Fin r) (k : Fin cf) (hk : k.val < n) :
    (leftNullspaceStep sqrt n st m).1 i k = st.1 i k :=
  blockApplyOnTheLeft_of_col_lt _ _ _ _ _ _ hk

theorem leftNullspaceStep_row_succ {r cf cx : Nat} (sqrt : K → K) (n m : Nat)
    (st : Matrix (Fin r) (Fin cf) K × Matrix (Fin r) (Fin cx) K × (Fin r → K))
    (h : m + 1 < r) (k : Fin cf) (hk : n ≤ k.val) :
    (leftNullspaceStep sqrt n st m).1 ⟨m + 1, h⟩ k =
      -(makeGivens sqrt (coeff st.1 m n) (coeff st.1 m n)).adjoint.s *
          st.1 ⟨m, Nat.lt_of_succ_lt h⟩ k +
        (makeGivens sqrt (coeff st.1 m n) (coeff st.1 m n)).adjoint.c * st.1 ⟨m + 1, h⟩ k :=
  blockApplyOnTheLeft_row_succ _ _ _ _ h k hk

theorem leftNullspace_last_row_entry {cx : Nat} (H_f : Matrix (Fin 4) (Fin 3) ℝ)
    (H_x : Matrix (Fin 4) (Fin cx) ℝ) (res : Fin 4 → ℝ)
    (h2 : ∀ k, H_f 2 k = 0) (h3 : ∀ k, H_f 3 k = 0) (h10 : H_f 1 0 ≠ 0) :
    (ApplyLeftNullspace Real.sqrt H_f H_x res).1 3 1 = -|H_f 1 1| / 2 := by
  have hpos : (0 : ℝ) < Real.sqrt 2 := Real.sqrt_pos.mpr (by norm_num)
  have h02 : leftNullspaceStep Real.sqrt 0 (H_f, H_x, res) 2 = (H_f, H_x, res) :=
    leftNullspaceStep_of_pivot_zero _ _ _ _ (by simp [coeff, h2])
  simp only [ApplyLeftNullspace, rowsDown, List.range, List.range.loop, List.range',
    List.reverse_cons, List.reverse_nil, List.nil_append, List.cons_append,
    List.foldl_cons, List.foldl_nil, Nat.reduceSub, Nat.reduceAdd, h02]
  -- the state after the steps (0,1) and (0,0)
  generalize hS2 : leftNullspaceStep Real.sqrt 0 (H_f, H_x, res) 1 = S2
  generalize hS3 : leftNullspaceStep Real.sqrt 0 S2 0 = S3
  generalize hS4 : leftNullspaceStep Real.sqrt 1 S3 2 = S4
  generalize hS5 : leftNullspaceStep Real.sqrt 1 S4 1 = S5
  -- row 2 after the step (0,1): the pivot is `H_f(1,0)`, not zero
  have hrow2 : S2.1 2 1 = H_f 1 1 / Real.sqrt 2 ∨ S2.1 2 1 = -(H_f 1 1 / Real.sqrt 2) := by
    have e := leftNullspaceStep_row_succ Real.sqrt 0 1 (H_f, H_x, res) (by norm_num) 1
      (Nat.zero_le _)
    rw [hS2] at e
    have hc : coeff H_f 1 0 = H_f 1 0 := by simp [coeff]
    have e2 : S2.1 2 1 =
        -(makeGivens Real.sqrt (H_f 1 0) (H_f 1 0)).adjoint.s * H_f 1 1 +
          (makeGivens Real.sqrt (H_f 1 0) (H_f 1 0)).adjoint.c * H_f 2 1 := by
      rw [← hc]
      exact e
    rw [h2 1, mul_zero, add_zero] at e2
    rcases lt_or_gt_of_ne h10 with hneg | hp
    · left
      rw [e2, makeGivens_self_of_neg _ hneg]
      simp only [JacobiRotation.adjoint]
      ring
    · right
      rw [e2, makeGivens_self_of_pos _ hp]
      simp only [JacobiRotation.adjoint]
      ring
  have hrow3 : S2.1 3 1 = 0 := by
    rw [← hS2, leftNullspaceStep_of_row_ne _ _ _ _ _ _ (by decide) (by decide)]
    exact h3 1
  -- the step (0,0) leaves rows 2 and 3 alone
  have h32 : S3.1 2 1 = S2.1 2 1 := by
    rw [← hS3]
    exact leftNullspaceStep_of_row_ne _ _ _ _ _ _ (by decide) (by decide)
  have h33 : S3.1 3 1 = 0 := by
    rw [← hS3, leftNullspaceStep_of_row_ne _ _ _ _ _ _ (by decide) (by decide)]
    exact hrow3
  -- the step (1,2) rotates rows 2 and 3 with the pivot `S3(2,1)`
  have h43 : S4.1 3 1 = -|S3.1 2 1| / Real.sqrt 2 := by
    have e := leftNullspaceStep_row_succ Real.sqrt 1 2 S3 (by norm_num) 1 (le_refl _)
    rw [hS4] at e
    have hc : coeff S3.1 2 1 = S3.1 2 1 := by simp [coeff]
    have e2 : S4.1 3 1 =
        -(makeGivens Real.sqrt (S3.1 2 1) (S3.1 2 1)).adjoint.s * S3.1 2 1 +
          (makeGivens Real.sqrt (S3.1 2 1) (S3.1 2 1)).adjoint.c * S3.1 3 1 := by
      rw [← hc]
      exact e
    rw [e2, h33, mul_zero, add_zero, makeGivens_self_adjoint_s]
  -- the steps (1,1) and (2,2) leave `H_f(3,1)` alone
  rw [leftNullspaceStep_of_col_lt _ _ _ _ _ _ (by decide), ← hS5,
    leftNullspaceStep_of_row_ne _ _ _ _ _ _ (by decide) (by decide), h43, h32]
  have habs : |S2.1 2 1| = |H_f 1 1| / Real.sqrt 2 := by
    rcases hrow2 with h | h
    · rw [h, abs_div, abs_of_pos hpos]
    · rw [h, abs_neg, abs_div, abs_of_pos hpos]
  rw [habs]
  field_simp

theorem leftNullspace_H_f_eq :
    (leftNullspace_H_f : Matrix (Fin 4) (Fin 3) ℝ) =
      !![7 / 25, 24 / 25, 0; -(24 / 25), 7 / 25, 0; 0, 0, 0; 0, 0, 0] := by
  ext i j
  fin_cases i <;> fin_cases j <;>
    simp [leftNullspace_H_f, UpdateEKF_H_f, dzn_dPFC, setCoeff, setBlock,
      Quaterniond.toRotationMatrix, Matrix.mul_apply, Fin.sum_univ_three,
      Matrix.vecHead, Matrix.vecTail, Fin.coe_ofNat_eq_mod] <;>
    norm_num

/-- C1 (the code at a failing input): for the 4 x 3 feature Jacobian `leftNullspace_H_f`
that `UpdateEKF` builds for a track of `n = 2` observations (rows `(7/25, 24/25, 0)`,
`(-24/25, 7/25, 0)`, `0`, `0`), `MsckfUpdater::ApplyLeftNullspace` ends with
`H_f(3, 1) = -7/50`: row 3 (the bottom `2n - 3 = 1` row) is not zero. -/
theorem ApplyLeftNullspace_bottom_row_not_zero :
    (ApplyLeftNullspace Real.sqrt (leftNullspace_H_f : Matrix (Fin 4) (Fin 3) ℝ)
        (0 : Matrix (Fin 4) (Fin 1) ℝ) 0).1 3 1 = -(7 / 50) := by
  have h := leftNullspace_last_row_entry (leftNullspace_H_f : Matrix (Fin 4) (Fin 3) ℝ)
    (0 : Matrix (Fin 4) (Fin 1) ℝ) 0
    (by
      intro k
      rw [leftNullspace_H_f_eq]
      fin_cases k <;> simp [Matrix.vecHead, Matrix.vecTail])
    (by
      intro k
      rw [leftNullspace_H_f_eq]
      fin_cases k <;> simp [Matrix.vecHead, Matrix.vecTail])
    (by rw [leftNullspace_H_f_eq]; norm_num)
  rw [h, leftNullspace_H_f_eq]
  norm_num [abs_of_pos]

/-- C4 (the code at a failing input): for the 3 x 2 Jacobian `compress_jacobian`,
`MsckfUpdater::CompressMeasurements` returns a Jacobian with entry `(2, 0) = -1/√2`, below
the diagonal and not zero. -/
theorem CompressMeasurements_not_upper_triangular :
    (CompressMeasurements Real.sqrt compress_jacobian compress_residual).1 2 0 =
        -(1 / Real.sqrt 2) ∧
      (CompressMeasurements Real.sqrt compress_jacobian compress_residual).1 2 0 ≠ 0 := by
  have h : (CompressMeasurements Real.sqrt compress_jacobian compress_residual).1 2 0 =
      -(1 / Real.sqrt 2) := by
    simp [CompressMeasurements, rowsDown, List.range, List.range.loop, List.range',
      compressStep, makeGivens, coeff, compress_jacobian, blockApplyOnTheLeft,
      applyOnTheLeft, JacobiRotation.adjoint, vecApplyOnTheLeft]
    norm_num
    ring
  refine ⟨h, ?_⟩
  rw [h]
  have h2 : (0 : ℝ) < Real.sqrt 2 := Real.sqrt_pos.mpr (by norm_num)
  simp [h2.ne']

/-- C5 (the code at a failing input): for `compress_jacobian` (3 x 2) and
`compress_residual`, the compressed and truncated system `(H', r')` of
`MsckfUpdater::UpdateEKF` has `(H'ᵀ H')(0, 0) = 1/2` while `(Hᵀ H)(0, 0) = 1`. -/
theorem compressedSystem_loses_information :
    (compressedSystem Real.sqrt compress_jacobian compress_residual).map
        (fun sys => (sys.1ᵀ * sys.1) 0 0) = some (1 / 2) ∧
      (compress_jacobianᵀ * compress_jacobian) 0 0 = 1 := by
  constructor
  · have hmin : min 3 2 ≠ 1 := by decide
    simp only [compressedSystem, if_neg hmin, Option.map_some', Matrix.mul_apply,
      Matrix.transpose_apply, Option.some.injEq]
    show (∑ x : Fin 2, _) = _
    simp [Fin.sum_univ_succ, CompressMeasurements, rowsDown, List.range, List.range.loop,
      List.range', compressStep, makeGivens, coeff, compress_jacobian, blockApplyOnTheLeft,
      applyOnTheLeft, JacobiRotation.adjoint, vecApplyOnTheLeft]
    norm_num
    rw [div_mul_div_comm, Real.mul_self_sqrt (by norm_num)]
    norm_num
  · simp [Matrix.mul_apply, Fin.sum_univ_succ, compress_jacobian]

/-! ## MsckfUpdater::TriangulateFeature -/

theorem triangulate_MatchState_zero :
    (triangulate_updater : MsckfUpdater ℝ).MatchState 0 =
      { frame_id := 0, position := ![0, 0, 0], orientation := ⟨0, 3 / 5, 0, 4 / 5⟩,
        imu_position := 0, imu_orientation := ⟨1, 0, 0, 0⟩ } := by
  simp [MsckfUpdater.MatchState, triangulate_updater]

theorem triangulate_MatchState_one :
    (triangulate_updater : MsckfUpdater ℝ).MatchState 1 =
      { frame_id := 1, position := ![24, 0, -18], orientation := ⟨0, 0, 0, 1⟩,
        imu_position := 0, imu_orientation := ⟨1, 0, 0, 0⟩ } := by
  simp [MsckfUpdater.MatchState, triangulate_updater]

theorem triangulate_system_value :
    (triangulate_updater : MsckfUpdater ℝ).triangulateSystem Real.sqrt
        ((triangulate_updater : MsckfUpdater ℝ).MatchState 0) triangulate_track =
      (!![674 / 625, 0, 168 / 625; 0, 2, 0; 168 / 625, 0, 576 / 625],
       ![1848 / 625, 0, 6336 / 625]) := by
  simp only [MsckfUpdater.triangulateSystem, triangulate_track, List.foldl_cons, List.foldl_nil,
    MsckfUpdater.triangulateStep, triangulate_MatchState_zero, triangulate_MatchState_one]
  have hR0 : (⟨0, 3 / 5, 0, 4 / 5⟩ : Quaterniond ℝ).toRotationMatrix =
      !![-7 / 25, 0, 24 / 25; 0, -1, 0; 24 / 25, 0, 7 / 25] := by
    simp only [Quaterniond.toRotationMatrix]
    norm_num
  have hR1 : (⟨0, 0, 0, 1⟩ : Quaterniond ℝ).toRotationMatrix =
      !![-1, 0, 0; 0, -1, 0; 0, 0, 1] := by
    simp only [Quaterniond.toRotationMatrix]
    norm_num
  have hb : (![2 * 320 / ((triangulate_updater : MsckfUpdater ℝ).m_image_width : ℝ) - 1,
      2 * 240 / ((triangulate_updater : MsckfUpdater ℝ).m_image_height : ℝ) - 1, 1] :
        Fin 3 → ℝ) = ![0, 0, 1] := by
    simp [triangulate_updater]
    norm_num
  rw [hR0, hR1, hb]
  have hb0 : (!![-7 / 25, 0, 24 / 25; 0, -1, 0; 24 / 25, 0, 7 / 25] *
      !![-7 / 25, 0, 24 / 25; 0, -1, 0; 24 / 25, 0, 7 / 25]ᵀ) *ᵥ ![0, 0, 1] =
        (![0, 0, 1] : Fin 3 → ℝ) := by
    funext i
    fin_cases i <;>
      simp [Matrix.mul_apply, Matrix.mulVec, Matrix.dotProduct, Fin.sum_univ_three,
        Matrix.transpose_apply, Matrix.vecHead, Matrix.vecTail] <;>
      norm_num
  have hb1 : (!![-1, 0, 0; 0, -1, 0; 0, 0, 1] *
      !![-7 / 25, 0, 24 / 25; 0, -1, 0; 24 / 25, 0, 7 / 25]ᵀ) *ᵥ ![0, 0, 1] =
        (![-24 / 25, 0, 7 / 25] : Fin 3 → ℝ) := by
    funext i
    fin_cases i <;>
      simp [Matrix.mul_apply, Matrix.mulVec, Matrix.dotProduct, Fin.sum_univ_three,
        Matrix.transpose_apply, Matrix.vecHead, Matrix.vecTail] <;>
      norm_num
  have hn0 : norm3 Real.sqrt (![0, 0, 1] : Fin 3 → ℝ) = 1 := by
    simp [norm3]
  have hn1 : norm3 Real.sqrt (![-24 / 25, 0, 7 / 25] : Fin 3 → ℝ) = 1 := by
    simp only [norm3]
    norm_num
  rw [hb0, hb1, hn0, hn1]
  refine Prod.ext ?_ ?_
  · ext i j
    fin_cases i <;> fin_cases j <;>
      simp [SkewSymmetric, CrossProductMatrix, Matrix.mul_apply, Fin.sum_univ_three,
        Matrix.transpose_apply, Matrix.vecHead, Matrix.vecTail] <;>
      norm_num
  · funext i
    fin_cases i <;>
      simp [SkewSymmetric, CrossProductMatrix, Matrix.mul_apply, Matrix.mulVec,
        Matrix.dotProduct, Fin.sum_univ_three, Matrix.transpose_apply, Matrix.vecHead,
        Matrix.vecTail] <;>
      norm_num

theorem triangulate_bearing (ft : FeatureTrack ℝ) (hft : ft ∈ triangulate_track) :
    (![2 * ft.x / ((triangulate_updater : MsckfUpdater ℝ).m_image_width : ℝ) - 1,
        2 * ft.y / ((triangulate_updater : MsckfUpdater ℝ).m_image_height : ℝ) - 1, 1] :
          Fin 3 → ℝ) =
      (1 / 25 : ℝ) •
        (((triangulate_updater : MsckfUpdater ℝ).MatchState
            ft.frame_id).orientation.toRotationMatrixᵀ *ᵥ
          (triangulate_point -
            ((triangulate_updater : MsckfUpdater ℝ).MatchState ft.frame_id).position)) := by
  simp only [triangulate_track, List.mem_cons, List.mem_singleton, List.not_mem_nil,
    or_false] at hft
  rcases hft with rfl | rfl
  · rw [triangulate_MatchState_zero]
    funext i
    fin_cases i <;>
      simp [Quaterniond.toRotationMatrix, triangulate_point, triangulate_updater,
        Matrix.mulVec, Matrix.dotProduct, Fin.sum_univ_three, Matrix.transpose_apply,
        Matrix.vecHead, Matrix.vecTail] <;>
      norm_num
  · rw [triangulate_MatchState_one]
    funext i
    fin_cases i <;>
      simp [Quaterniond.toRotationMatrix, triangulate_point, triangulate_updater,
        Matrix.mulVec, Matrix.dotProduct, Fin.sum_univ_three, Matrix.transpose_apply,
        Matrix.vecHead, Matrix.vecTail] <;>
      norm_num

/-- C3 (the code at a failing input): for the two clones of `triangulate_updater` (unit
orientations), the track `triangulate_track` and the point `p = (24, 0, 7)`, every
`frame_id` of the track matches a clone, each bearing is `1/25` times `p` expressed in the
frame of its clone, and the accumulated matrix `A` has determinant `1152/625`; yet
`MsckfUpdater::TriangulateFeature` returns `(264/25, 0, 77/25)`, which is not `p`. -/
theorem TriangulateFeature_not_the_point :
    (∀ a ∈ (triangulate_updater : MsckfUpdater ℝ).m_aug_states,
        a.orientation.w ^ 2 + a.orientation.x ^ 2 + a.orientation.y ^ 2 +
          a.orientation.z ^ 2 = 1) ∧
    (∀ ft ∈ (triangulate_track : List (FeatureTrack ℝ)),
        ∃ a ∈ (triangulate_updater : MsckfUpdater ℝ).m_aug_states,
          a.frame_id = ft.frame_id ∧
          (![2 * ft.x / ((triangulate_updater : MsckfUpdater ℝ).m_image_width : ℝ) - 1,
              2 * ft.y / ((triangulate_updater : MsckfUpdater ℝ).m_image_height : ℝ) - 1, 1] :
                Fin 3 → ℝ) =
            (1 / 25 : ℝ) •
              (((triangulate_updater : MsckfUpdater ℝ).MatchState
                  ft.frame_id).orientation.toRotationMatrixᵀ *ᵥ
                (triangulate_point -
                  ((triangulate_updater : MsckfUpdater ℝ).MatchState ft.frame_id).position))) ∧
      ((triangulate_updater : MsckfUpdater ℝ).triangulateSystem Real.sqrt
          ((triangulate_updater : MsckfUpdater ℝ).MatchState 0) triangulate_track).1.det =
        1152 / 625 ∧
      (triangulate_updater : MsckfUpdater ℝ).TriangulateFeature Real.sqrt triangulate_track =
        some ![264 / 25, 0, 77 / 25] ∧
      (![264 / 25, 0, 77 / 25] : Fin 3 → ℝ) ≠ triangulate_point := by
  refine ⟨?_, ?_, ?_, ?_, ?_⟩
  · intro a ha
    simp only [triangulate_updater, List.mem_cons, List.mem_singleton, List.not_mem_nil,
      or_false] at ha
    rcases ha with rfl | rfl <;> norm_num
  · intro ft hft
    refine ⟨(triangulate_updater : MsckfUpdater ℝ).MatchState ft.frame_id, ?_, ?_,
      triangulate_bearing ft hft⟩
    · simp only [triangulate_track, List.mem_cons, List.mem_singleton, List.not_mem_nil,
        or_false] at hft
      rcases hft with rfl | rfl
      · rw [triangulate_MatchState_zero]; simp [triangulate_updater]
      · rw [triangulate_MatchState_one]; simp [triangulate_updater]
    · simp only [triangulate_track, List.mem_cons, List.mem_singleton, List.not_mem_nil,
        or_false] at hft
      rcases hft with rfl | rfl
      · rw [triangulate_MatchState_zero]
      · rw [triangulate_MatchState_one]
  · rw [triangulate_system_value, Matrix.det_fin_three]
    simp
    norm_num
  · have h0 : (triangulate_track : List (FeatureTrack ℝ)) =
        { frame_id := 0, x := 320, y := 240 } :: [{ frame_id := 1, x := 320, y := 240 }] := rfl
    have hsys := triangulate_system_value
    rw [h0] at hsys ⊢
    simp only [MsckfUpdater.TriangulateFeature, hsys]
    rw [triangulate_MatchState_zero]
    simp only [colPivHouseholderQrSolve, Option.some.injEq]
    have hdet : (!![674 / 625, 0, 168 / 625; 0, 2, 0; 168 / 625, 0, 576 / 625] :
        Matrix (Fin 3) (Fin 3) ℝ).det ≠ 0 := by
      rw [Matrix.det_fin_three]
      simp
      norm_num
    have hx : (!![674 / 625, 0, 168 / 625; 0, 2, 0; 168 / 625, 0, 576 / 625] :
        Matrix (Fin 3) (Fin 3) ℝ) *ᵥ ![0, 0, 11] = ![1848 / 625, 0, 6336 / 625] := by
      funext i
      fin_cases i <;>
        simp [Matrix.mulVec, Matrix.dotProduct, Fin.sum_univ_three, Matrix.vecHead,
          Matrix.vecTail] <;>
        norm_num
    rw [inverse_mulVec_eq _ _ _ hdet hx]
    funext i
    fin_cases i <;>
      simp [Quaterniond.toRotationMatrix, Matrix.mulVec, Matrix.dotProduct,
        Fin.sum_univ_three, Matrix.vecHead, Matrix.vecTail] <;>
      norm_num
  · intro h
    have := congrFun h 0
    simp [triangulate_point] at this
    norm_num at this

/-! ## ImuUpdater::predictMeasurement -/

/-- C2: for every body state, IMU offsets and biases, `ImuUpdater::predictMeasurement`
returns the 6-vector whose first three entries are
`R(q_i) (a + α × p_i + ω × (ω × p_i)) + b_a` and whose last three entries are
`R(q_i) ω + b_ω`, where `R(q_i)` is the rotation matrix of the orientation offset; no
gravity term appears. -/
theorem predictMeasurement_spec (u : ImuUpdater K) (i : Fin 3) :
    u.predictMeasurement (Fin.castAdd 3 i) =
        (u.m_angOffset.toRotationMatrix *ᵥ
            (u.m_bodyAcc + cross u.m_bodyAngAcc u.m_posOffset +
              cross u.m_bodyAngVel (cross u.m_bodyAngVel u.m_posOffset)) + u.m_accBias) i ∧
      u.predictMeasurement (Fin.natAdd 3 i) =
        (u.m_angOffset.toRotationMatrix *ᵥ u.m_bodyAngVel + u.m_omgBias) i := by
  rw [← transformVector_eq_mulVec, ← transformVector_eq_mulVec]
  fin_cases i <;> exact ⟨rfl, rfl⟩

/-! ## ImuUpdater::updateEKF -/

theorem minBoundDiagonal_eq_add (A : Matrix (Fin 3) (Fin 3) ℝ) (b : ℝ) :
    minBoundDiagonal A b =
      A + Matrix.diagonal (fun i => if A i i < b then b - A i i else 0) := by
  ext i j
  by_cases hij : i = j
  · subst hij
    by_cases h : A i i < b <;> simp [minBoundDiagonal, h]
  · simp [minBoundDiagonal, hij, Matrix.diagonal_apply_ne _ hij]

theorem minBoundDiagonal_isSymm (A : Matrix (Fin 3) (Fin 3) ℝ) (b : ℝ) (hA : A.IsSymm) :
    (minBoundDiagonal A b).IsSymm := by
  rw [minBoundDiagonal_eq_add]
  exact hA.add (Matrix.isSymm_diagonal _)

theorem minBoundDiagonal_posSemidef (A : Matrix (Fin 3) (Fin 3) ℝ) (b : ℝ)
    (hA : A.PosSemidef) : (minBoundDiagonal A b).PosSemidef := by
  rw [minBoundDiagonal_eq_add]
  refine hA.add (Matrix.PosSemidef.diagonal ?_)
  intro i
  by_cases h : A i i < b
  · simp [h]; linarith
  · simp [h]

theorem updateEKF_R_eq_fromBlocks (acc omg : Matrix (Fin 3) (Fin 3) ℝ) :
    updateEKF_R acc omg =
      (Matrix.fromBlocks (minBoundDiagonal acc 1e-3) 0 0 (minBoundDiagonal omg 1e-2)).submatrix
        (finSumFinEquiv : Fin 3 ⊕ Fin 3 ≃ Fin (3 + 3)).symm
        (finSumFinEquiv : Fin 3 ⊕ Fin 3 ≃ Fin (3 + 3)).symm := by
  ext i j
  fin_cases i <;> fin_cases j <;> rfl

theorem fromBlocks_diag_quadratic (A B : Matrix (Fin 3) (Fin 3) ℝ) (x : Fin 3 ⊕ Fin 3 → ℝ) :
    Matrix.dotProduct (star x) (Matrix.fromBlocks A 0 0 B *ᵥ x) =
      Matrix.dotProduct (star (x ∘ Sum.inl)) (A *ᵥ (x ∘ Sum.inl)) +
        Matrix.dotProduct (star (x ∘ Sum.inr)) (B *ᵥ (x ∘ Sum.inr)) := by
  rw [Matrix.fromBlocks_mulVec]
  simp [Matrix.dotProduct, Fintype.sum_sum_type]

theorem fromBlocks_diag_posSemidef (A B : Matrix (Fin 3) (Fin 3) ℝ)
    (hA : A.PosSemidef) (hB : B.PosSemidef) : (Matrix.fromBlocks A 0 0 B).PosSemidef := by
  refine ⟨Matrix.IsHermitian.fromBlocks hA.1 (by simp) hB.1, fun x => ?_⟩
  rw [fromBlocks_diag_quadratic]
  exact add_nonneg (hA.2 _) (hB.2 _)

theorem fromBlocks_diag_posDef (A B : Matrix (Fin 3) (Fin 3) ℝ)
    (hA : A.PosDef) (hB : B.PosDef) : (Matrix.fromBlocks A 0 0 B).PosDef := by
  refine ⟨Matrix.IsHermitian.fromBlocks hA.1 (by simp) hB.1, fun x hx => ?_⟩
  rw [fromBlocks_diag_quadratic]
  by_cases h1 : x ∘ Sum.inl = 0
  · have h2 : x ∘ Sum.inr ≠ 0 := by
      intro h2
      apply hx
      funext i
      cases i with
      | inl i => exact congrFun h1 i
      | inr i => exact congrFun h2 i
    exact add_pos_of_nonneg_of_pos (hA.posSemidef.2 _) (hB.2 _ h2)
  · exact add_pos_of_pos_of_nonneg (hA.2 _ h1) (hB.posSemidef.2 _)

theorem posDef_submatrix_equiv {m n : Type} [Fintype m] [Fintype n]
    (M : Matrix n n ℝ) (hM : M.PosDef) (e : m ≃ n) : (M.submatrix e e).PosDef := by
  refine ⟨hM.1.submatrix e, fun x hx => ?_⟩
  have hx2 : x ∘ e.symm ≠ 0 := by
    intro h
    apply hx
    funext i
    have := congrFun h (e i)
    simpa using this
  have := hM.2 _ hx2
  rw [Matrix.submatrix_mulVec_equiv]
  rw [show star x = (star (x ∘ e.symm)) ∘ e from by funext i; simp]
  rw [← Matrix.dotProduct_comp_equiv_symm]
  simpa [Function.comp_def] using this

theorem updateEKF_R_posSemidef (acc omg : Matrix (Fin 3) (Fin 3) ℝ)
    (hacc : acc.PosSemidef) (homg : omg.PosSemidef) : (updateEKF_R acc omg).PosSemidef := by
  rw [updateEKF_R_eq_fromBlocks]
  exact (fromBlocks_diag_posSemidef _ _ (minBoundDiagonal_posSemidef _ _ hacc)
    (minBoundDiagonal_posSemidef _ _ homg)).submatrix _

theorem updateEKF_R_posDef (acc omg : Matrix (Fin 3) (Fin 3) ℝ)
    (hacc : (minBoundDiagonal acc 1e-3).PosDef) (homg : (minBoundDiagonal omg 1e-2).PosDef) :
    (updateEKF_R acc omg).PosDef := by
  rw [updateEKF_R_eq_fromBlocks]
  exact posDef_submatrix_equiv _ (fromBlocks_diag_posDef _ _ hacc homg) _

theorem updateEKF_R_isSymm (acc omg : Matrix (Fin 3) (Fin 3) ℝ)
    (hacc : acc.IsSymm) (homg : omg.IsSymm) : (updateEKF_R acc omg).IsSymm := by
  rw [updateEKF_R_eq_fromBlocks]
  exact (Matrix.IsSymm.fromBlocks (minBoundDiagonal_isSymm _ _ hacc) (by simp)
    (minBoundDiagonal_isSymm _ _ homg)).submatrix _

theorem updateEKF_S_isSymm (u : ImuUpdater ℝ) {n : Nat} (start : Nat)
    (P : Matrix (Fin n) (Fin n) ℝ) (acc omg : Matrix (Fin 3) (Fin 3) ℝ)
    (hP : P.IsSymm) (hacc : acc.IsSymm) (homg : omg.IsSymm) :
    (u.updateEKF_S start P acc omg).IsSymm := by
  unfold ImuUpdater.updateEKF_S
  refine Matrix.IsSymm.add ?_ (updateEKF_R_isSymm acc omg hacc homg)
  unfold Matrix.IsSymm
  simp [Matrix.transpose_mul, hP.eq, Matrix.mul_assoc]

theorem updateEKF_S_posDef (u : ImuUpdater ℝ) {n : Nat} (start : Nat)
    (P : Matrix (Fin n) (Fin n) ℝ) (acc omg : Matrix (Fin 3) (Fin 3) ℝ)
    (hP : P.PosSemidef) (hacc : (minBoundDiagonal acc 1e-3).PosDef)
    (homg : (minBoundDiagonal omg 1e-2).PosDef) :
    (u.updateEKF_S start P acc omg).PosDef := by
  unfold ImuUpdater.updateEKF_S
  refine Matrix.PosDef.posSemidef_add ?_ (updateEKF_R_posDef acc omg hacc homg)
  have h := hP.mul_mul_conjTranspose_same (u.updateEKF_H n start)
  simpa [Matrix.conjTranspose_eq_transpose_of_trivial] using h

theorem updateEKF_eq_some (u : ImuUpdater ℝ) {n : Nat} (start : Nat)
    (P : Matrix (Fin n) (Fin n) ℝ) (acc omg : Matrix (Fin 3) (Fin 3) ℝ)
    (hS : (u.updateEKF_S start P acc omg).det ≠ 0) :
    u.updateEKF start P acc omg =
      some ((1 - P * (u.updateEKF_H n start)ᵀ * (u.updateEKF_S start P acc omg)⁻¹ *
        u.updateEKF_H n start) * P) := by
  unfold ImuUpdater.updateEKF
  simp only []
  rw [determinant_eq_det, if_neg hS, inverse_eq_inv]

/-- C6, with symmetric measurement covariances: for every symmetric predicted covariance
`P` and every IMU measurement whose acceleration and angular-rate covariances are symmetric
and whose innovation covariance `S` is invertible, `ImuUpdater::updateEKF` stores a
covariance `(I - K H) P` that is symmetric. -/
theorem updateEKF_cov_isSymm (u : ImuUpdater ℝ) {n : Nat} (start : Nat)
    (P : Matrix (Fin n) (Fin n) ℝ) (acc omg : Matrix (Fin 3) (Fin 3) ℝ)
    (hP : P.IsSymm) (hacc : acc.IsSymm) (homg : omg.IsSymm)
    (hS : (u.updateEKF_S start P acc omg).det ≠ 0) :
    ∃ P', u.updateEKF start P acc omg = some P' ∧ P'.IsSymm := by
  refine ⟨_, updateEKF_eq_some u start P acc omg hS, ?_⟩
  have hSs := updateEKF_S_isSymm u start P acc omg hP hacc homg
  unfold Matrix.IsSymm
  rw [Matrix.sub_mul, Matrix.one_mul, Matrix.transpose_sub]
  simp only [Matrix.transpose_mul, Matrix.transpose_transpose, Matrix.transpose_nonsing_inv,
    hP.eq, hSs.eq, Matrix.mul_assoc]

theorem updateEKF_joseph (u : ImuUpdater ℝ) {n : Nat} (start : Nat)
    (P : Matrix (Fin n) (Fin n) ℝ) (acc omg : Matrix (Fin 3) (Fin 3) ℝ)
    (hS : (u.updateEKF_S start P acc omg).det ≠ 0) :
    (1 - P * (u.updateEKF_H n start)ᵀ * (u.updateEKF_S start P acc omg)⁻¹ *
        u.updateEKF_H n start) * P =
      (1 - P * (u.updateEKF_H n start)ᵀ * (u.updateEKF_S start P acc omg)⁻¹ *
          u.updateEKF_H n start) * P *
        (1 - P * (u.updateEKF_H n start)ᵀ * (u.updateEKF_S start P acc omg)⁻¹ *
          u.updateEKF_H n start)ᵀ +
      P * (u.updateEKF_H n start)ᵀ * (u.updateEKF_S start P acc omg)⁻¹ *
        updateEKF_R acc omg *
        (P * (u.updateEKF_H n start)ᵀ * (u.updateEKF_S start P acc omg)⁻¹)ᵀ := by
  set H := u.updateEKF_H n start with hH
  set S := u.updateEKF_S start P acc omg with hSdef
  set Kg := P * Hᵀ * S⁻¹ with hK
  have hKS : Kg * S = P * Hᵀ := by
    rw [hK, Matrix.mul_assoc, Matrix.nonsing_inv_mul _ (isUnit_iff_ne_zero.mpr hS),
      Matrix.mul_one]
  have hR : updateEKF_R acc omg = S - H * P * Hᵀ := by
    rw [hSdef]
    unfold ImuUpdater.updateEKF_S
    simp [← hH]
  rw [hR, Matrix.transpose_sub, Matrix.transpose_one, Matrix.mul_sub, Matrix.mul_one,
    Matrix.mul_sub, Matrix.sub_mul, hKS, Matrix.transpose_mul]
  simp only [Matrix.sub_mul, Matrix.one_mul, Matrix.mul_assoc]
  abel

/-- C7, for an invertible innovation covariance: for every symmetric positive-semidefinite
predicted covariance `P` and symmetric positive-semidefinite acceleration and angular-rate
covariances such that `S` is invertible, `ImuUpdater::updateEKF` stores a covariance
`(I - K H) P` that is positive semidefinite. -/
theorem updateEKF_cov_posSemidef (u : ImuUpdater ℝ) {n : Nat} (start : Nat)
    (P : Matrix (Fin n) (Fin n) ℝ) (acc omg : Matrix (Fin 3) (Fin 3) ℝ)
    (hP : P.PosSemidef) (hacc : acc.PosSemidef) (homg : omg.PosSemidef)
    (hS : (u.updateEKF_S start P acc omg).det ≠ 0) :
    ∃ P', u.updateEKF start P acc omg = some P' ∧ P'.PosSemidef := by
  refine ⟨_, updateEKF_eq_some u start P acc omg hS, ?_⟩
  rw [updateEKF_joseph u start P acc omg hS]
  have h1 := hP.mul_mul_conjTranspose_same
    (1 - P * (u.updateEKF_H n start)ᵀ * (u.updateEKF_S start P acc omg)⁻¹ *
      u.updateEKF_H n start)
  have h2 := (updateEKF_R_posSemidef acc omg hacc homg).mul_mul_conjTranspose_same
    (P * (u.updateEKF_H n start)ᵀ * (u.updateEKF_S start P acc omg)⁻¹)
  rw [Matrix.conjTranspose_eq_transpose_of_trivial] at h1 h2
  exact h1.add h2

theorem imu_rest_jacobian :
    (imu_updater_rest : ImuUpdater ℝ).getMeasurementJacobian =
      setBlock (setBlock (setBlock (setBlock (setBlock (setBlock (setBlock (setBlock (setBlock
        (0 : Matrix (Fin 6) (Fin 30) ℝ) 0 6 (1 : Matrix (Fin 3) (Fin 3) ℝ))
        0 12 (0 : Matrix (Fin 3) (Fin 3) ℝ)) 0 15 (0 : Matrix (Fin 3) (Fin 3) ℝ))
        0 18 (0 : Matrix (Fin 3) (Fin 3) ℝ)) 0 21 (0 : Matrix (Fin 3) (Fin 3) ℝ))
        3 12 (1 : Matrix (Fin 3) (Fin 3) ℝ)) 3 21 (0 : Matrix (Fin 3) (Fin 3) ℝ))
        0 24 (1 : Matrix (Fin 3) (Fin 3) ℝ)) 3 27 (1 : Matrix (Fin 3) (Fin 3) ℝ) := by
  have hRq : (⟨1, 0, 0, 0⟩ : Quaterniond ℝ).toRotationMatrix = 1 := by
    ext i j
    fin_cases i <;> fin_cases j <;>
      simp [Quaterniond.toRotationMatrix, Matrix.vecHead, Matrix.vecTail]
  have hSk : SkewSymmetric (![0, 0, 0] : Fin 3 → ℝ) = 0 := by
    ext i j
    fin_cases i <;> fin_cases j <;>
      simp [SkewSymmetric, CrossProductMatrix, Matrix.vecHead, Matrix.vecTail]
  have hcr : cross (![0, 0, 0] : Fin 3 → ℝ) ![0, 0, 0] = ![0, 0, 0] := by
    simp [cross]
  have hz : (![0, 0, 0] : Fin 3 → ℝ) + ![0, 0, 0] = ![0, 0, 0] := by simp
  have ht1 : (!![(![0, 0, 0] : Fin 3 → ℝ) 1 * ![0, 0, 0] 1 + 1 * ![0, 0, 0] 2 * ![0, 0, 0] 2,
      ![0, 0, 0] 1 * ![0, 0, 0] 0 - 2 * ![0, 0, 0] 0 * ![0, 0, 0] 1,
      ![0, 0, 0] 2 * ![0, 0, 0] 0 - 2 * ![0, 0, 0] 0 * ![0, 0, 0] 2;
      ![0, 0, 0] 0 * ![0, 0, 0] 1 - 2 * ![0, 0, 0] 1 * ![0, 0, 0] 0,
      ![0, 0, 0] 0 * ![0, 0, 0] 0 + 1 * ![0, 0, 0] 2 * ![0, 0, 0] 2,
      ![0, 0, 0] 2 * ![0, 0, 0] 1 - 2 * ![0, 0, 0] 1 * ![0, 0, 0] 2;
      ![0, 0, 0] 0 * ![0, 0, 0] 2 - 2 * ![0, 0, 0] 2 * ![0, 0, 0] 0,
      ![0, 0, 0] 1 * ![0, 0, 0] 2 - 2 * ![0, 0, 0] 2 * ![0, 0, 0] 1,
      ![0, 0, 0] 0 * ![0, 0, 0] 0 + 1 * ![0, 0, 0] 1 * ![0, 0, 0] 1] :
        Matrix (Fin 3) (Fin 3) ℝ) = 0 := by
    ext i j
    fin_cases i <;> fin_cases j <;> simp [Matrix.vecHead, Matrix.vecTail]
  have ht2 : (!![-((![0, 0, 0] : Fin 3 → ℝ) 1 * ![0, 0, 0] 1) - ![0, 0, 0] 2 * ![0, 0, 0] 2,
      ![0, 0, 0] 0 * ![0, 0, 0] 1, ![0, 0, 0] 0 * ![0, 0, 0] 2;
      ![0, 0, 0] 0 * ![0, 0, 0] 1, -(![0, 0, 0] 0 * ![0, 0, 0] 0) - ![0, 0, 0] 2 * ![0, 0, 0] 2,
      ![0, 0, 0] 1 * ![0, 0, 0] 2;
      ![0, 0, 0] 0 * ![0, 0, 0] 2, ![0, 0, 0] 1 * ![0, 0, 0] 2,
      -(![0, 0, 0] 0 * ![0, 0, 0] 0) - ![0, 0, 0] 1 * ![0, 0, 0] 1] :
        Matrix (Fin 3) (Fin 3) ℝ) = 0 := by
    ext i j
    fin_cases i <;> fin_cases j <;> simp [Matrix.vecHead, Matrix.vecTail]
  simp only [ImuUpdater.getMeasurementJacobian, imu_updater_rest,
    hRq, hSk, hcr, hz, ht1, ht2, Matrix.mul_zero, neg_zero, Matrix.one_mul, add_zero]

set_option maxHeartbeats 4000000 in
theorem imu_rest_H_apply (i : Fin 6) (j : Fin 30) :
    (imu_updater_rest : ImuUpdater ℝ).updateEKF_H 30 18 i j = imu_rest_H i j := by
  simp only [ImuUpdater.updateEKF_H, imu_rest_jacobian]
  fin_cases i <;> fin_cases j <;>
    simp [setBlock, getBlock, coeff, imu_rest_H, Matrix.one_apply]

theorem imu_rest_H_eq :
    (imu_updater_rest : ImuUpdater ℝ).updateEKF_H 30 18 = imu_rest_H := by
  ext i j
  exact imu_rest_H_apply i j

theorem imu_rest_H_row (i : Fin 6) (j : Fin 30) :
    (imu_rest_H : Matrix (Fin 6) (Fin 30) ℝ) i j =
      (if j = ⟨i.val + (if i.val < 3 then 6 else 9), by split_ifs <;> omega⟩ then 1 else 0) +
        (if j = ⟨i.val + 24, by omega⟩ then 1 else 0) := by
  obtain ⟨i, hi⟩ := i
  obtain ⟨j, hj⟩ := j
  simp only [imu_rest_H, Fin.mk.injEq]
  by_cases h3 : i < 3
  · simp only [h3, if_true, true_and]
    by_cases h1 : j = i + 6
    · have h2 : ¬ j = i + 24 := by omega
      simp [h1]
    · by_cases h2 : j = i + 24
      · simp [h2]
      · have : ¬ (3 ≤ i ∧ j = i + 9) := by omega
        simp [h1, h2, this]
  · simp only [h3, if_false, false_and, false_or]
    have h3' : 3 ≤ i := by omega
    by_cases h1 : j = i + 9
    · have h2 : ¬ j = i + 24 := by omega
      simp [h1, h3']
    · by_cases h2 : j = i + 24
      · simp [h2]
      · simp [h1, h2]

theorem imu_rest_H_mul_transpose :
    (imu_rest_H : Matrix (Fin 6) (Fin 30) ℝ) * (imu_rest_H : Matrix (Fin 6) (Fin 30) ℝ)ᵀ =
      (Matrix.diagonal (fun _ => 2) : Matrix (Fin 6) (Fin 6) ℝ) := by
  ext i k
  rw [Matrix.mul_apply]
  simp only [Matrix.transpose_apply]
  have h : ∀ j, (imu_rest_H : Matrix (Fin 6) (Fin 30) ℝ) i j * imu_rest_H k j =
      (if j = ⟨i.val + (if i.val < 3 then 6 else 9), by split_ifs <;> omega⟩ then
          (imu_rest_H : Matrix (Fin 6) (Fin 30) ℝ) k j else 0) +
        (if j = ⟨i.val + 24, by omega⟩ then
          (imu_rest_H : Matrix (Fin 6) (Fin 30) ℝ) k j else 0) := by
    intro j
    rw [imu_rest_H_row i j, add_mul, ite_mul, ite_mul, one_mul, zero_mul]
  simp only [h, Finset.sum_add_distrib, Finset.sum_ite_eq', Finset.mem_univ, if_true]
  fin_cases i <;> fin_cases k <;> simp [imu_rest_H, Matrix.diagonal] <;> norm_num
theorem minBoundDiagonal_asymmetric_cov :
    minBoundDiagonal (asymmetric_cov : Matrix (Fin 3) (Fin 3) ℝ) 1e-3 = asymmetric_cov := by
  ext i j
  fin_cases i <;> fin_cases j <;>
    simp [minBoundDiagonal, asymmetric_cov, Matrix.vecHead, Matrix.vecTail] <;>
    norm_num

theorem minBoundDiagonal_one :
    minBoundDiagonal (1 : Matrix (Fin 3) (Fin 3) ℝ) 1e-2 = 1 := by
  ext i j
  fin_cases i <;> fin_cases j <;> simp [minBoundDiagonal] <;> norm_num

set_option maxHeartbeats 1000000 in
theorem asymmetric_R_eq :
    updateEKF_R (asymmetric_cov : Matrix (Fin 3) (Fin 3) ℝ) 1 =
      fun i j => if i = j then 1 else if i = 0 ∧ j = 1 then 1 else 0 := by
  unfold updateEKF_R
  simp only [minBoundDiagonal_asymmetric_cov, minBoundDiagonal_one]
  ext i j
  fin_cases i <;> fin_cases j <;>
    simp [setBlock, asymmetric_cov, Matrix.one_apply, Matrix.vecHead, Matrix.vecTail]

set_option maxHeartbeats 1000000 in
theorem asymmetric_S_eq :
    (imu_updater_rest : ImuUpdater ℝ).updateEKF_S 18 (1 : Matrix (Fin 30) (Fin 30) ℝ)
      asymmetric_cov 1 = asymmetric_S := by
  unfold ImuUpdater.updateEKF_S
  simp only [imu_rest_H_eq, Matrix.mul_one, imu_rest_H_mul_transpose, asymmetric_R_eq]
  ext i j
  fin_cases i <;> fin_cases j <;>
    simp [asymmetric_S, Matrix.diagonal] <;>
    norm_num

set_option maxHeartbeats 1000000 in
theorem asymmetric_S_mul_inv :
    (asymmetric_S : Matrix (Fin 6) (Fin 6) ℝ) * asymmetric_S_inv = 1 := by
  ext i j
  fin_cases i <;> fin_cases j <;>
    simp [Matrix.mul_apply, Fin.sum_univ_six, asymmetric_S, asymmetric_S_inv,
      Matrix.one_apply] <;>
    norm_num

/-- C6 fails when a measurement covariance is not symmetric: with the IMU at rest in a
30-dimensional state, `P = I` (symmetric), the acceleration covariance
`[[1, 1, 0], [0, 1, 0], [0, 0, 1]]` and the identity as angular-rate covariance, the
covariance `P'` stored by `ImuUpdater::updateEKF` has `P'(6, 7) = 1/9` and
`P'(7, 6) = 0`. -/
theorem updateEKF_cov_not_isSymm :
    (1 : Matrix (Fin 30) (Fin 30) ℝ).IsSymm ∧
      ∃ P', (imu_updater_rest : ImuUpdater ℝ).updateEKF 18 (1 : Matrix (Fin 30) (Fin 30) ℝ)
          asymmetric_cov 1 = some P' ∧ P' 6 7 = 1 / 9 ∧ P' 7 6 = 0 ∧ ¬ P'.IsSymm := by
  have hdet : ((imu_updater_rest : ImuUpdater ℝ).updateEKF_S 18
      (1 : Matrix (Fin 30) (Fin 30) ℝ) asymmetric_cov 1).det ≠ 0 := by
    rw [asymmetric_S_eq]
    exact (Matrix.isUnit_det_of_right_inverse asymmetric_S_mul_inv).ne_zero
  have h67 : (((1 : Matrix (Fin 30) (Fin 30) ℝ) -
      (1 : Matrix (Fin 30) (Fin 30) ℝ) * (imu_rest_H : Matrix (Fin 6) (Fin 30) ℝ)ᵀ *
        (asymmetric_S_inv : Matrix (Fin 6) (Fin 6) ℝ) *
        (imu_rest_H : Matrix (Fin 6) (Fin 30) ℝ)) * (1 : Matrix (Fin 30) (Fin 30) ℝ)) 6 7 = 1 / 9 := by
    simp [Matrix.mul_apply, Matrix.sub_apply, Fin.sum_univ_six, imu_rest_H,
      asymmetric_S_inv, Matrix.one_apply, Fin.coe_ofNat_eq_mod]
    norm_num
  have h76 : (((1 : Matrix (Fin 30) (Fin 30) ℝ) -
      (1 : Matrix (Fin 30) (Fin 30) ℝ) * (imu_rest_H : Matrix (Fin 6) (Fin 30) ℝ)ᵀ *
        (asymmetric_S_inv : Matrix (Fin 6) (Fin 6) ℝ) *
        (imu_rest_H : Matrix (Fin 6) (Fin 30) ℝ)) * (1 : Matrix (Fin 30) (Fin 30) ℝ)) 7 6 = 0 := by
    simp [Matrix.mul_apply, Matrix.sub_apply, Fin.sum_univ_six, imu_rest_H,
      asymmetric_S_inv, Matrix.one_apply, Fin.coe_ofNat_eq_mod]
  refine ⟨Matrix.isSymm_one, _, updateEKF_eq_some _ 18 _ _ _ hdet, ?_, ?_, ?_⟩
  · rw [asymmetric_S_eq, Matrix.inv_eq_right_inv asymmetric_S_mul_inv, imu_rest_H_eq]
    exact h67
  · rw [asymmetric_S_eq, Matrix.inv_eq_right_inv asymmetric_S_mul_inv, imu_rest_H_eq]
    exact h76
  · intro hsymm
    have h := hsymm.apply 6 7
    rw [asymmetric_S_eq, Matrix.inv_eq_right_inv asymmetric_S_mul_inv, imu_rest_H_eq] at h
    rw [h67, h76] at h
    norm_num at h

theorem singular_cov_posSemidef : (singular_cov : Matrix (Fin 3) (Fin 3) ℝ).PosSemidef := by
  have h : (singular_cov : Matrix (Fin 3) (Fin 3) ℝ) =
      (!![1, 1, 0; 0, 0, 1] : Matrix (Fin 2) (Fin 3) ℝ)ᴴ *
        (!![1, 1, 0; 0, 0, 1] : Matrix (Fin 2) (Fin 3) ℝ) := by
    ext i j
    fin_cases i <;> fin_cases j <;>
      simp [singular_cov, Matrix.mul_apply, Fin.sum_univ_two, Matrix.vecHead, Matrix.vecTail]
  rw [h]
  exact Matrix.posSemidef_conjTranspose_mul_self _

theorem singular_cov_tail_posSemidef :
    (singular_cov_tail : Matrix (Fin 3) (Fin 3) ℝ).PosSemidef := by
  have h : (singular_cov_tail : Matrix (Fin 3) (Fin 3) ℝ) =
      (!![1, 0, 0; 0, 1, 1] : Matrix (Fin 2) (Fin 3) ℝ)ᴴ *
        (!![1, 0, 0; 0, 1, 1] : Matrix (Fin 2) (Fin 3) ℝ) := by
    ext i j
    fin_cases i <;> fin_cases j <;>
      simp [singular_cov_tail, Matrix.mul_apply, Fin.sum_univ_two, Matrix.vecHead,
        Matrix.vecTail]
  rw [h]
  exact Matrix.posSemidef_conjTranspose_mul_self _

theorem updateEKF_S_zero_cov (u : ImuUpdater ℝ) (n start : Nat)
    (acc omg : Matrix (Fin 3) (Fin 3) ℝ) :
    u.updateEKF_S start (0 : Matrix (Fin n) (Fin n) ℝ) acc omg = updateEKF_R acc omg := by
  simp [ImuUpdater.updateEKF_S]

theorem updateEKF_R_singular_cov_det :
    (updateEKF_R (singular_cov : Matrix (Fin 3) (Fin 3) ℝ) 1).det = 0 := by
  refine Matrix.det_zero_of_row_eq (show (0 : Fin 6) ≠ 1 by decide) ?_
  funext k
  fin_cases k <;>
    simp [updateEKF_R, setBlock, minBoundDiagonal, singular_cov, Matrix.vecHead,
      Matrix.vecTail] <;>
    norm_num

theorem updateEKF_R_singular_cov_tail_det :
    (updateEKF_R (1 : Matrix (Fin 3) (Fin 3) ℝ) singular_cov_tail).det = 0 := by
  refine Matrix.det_zero_of_row_eq (show (4 : Fin 6) ≠ 5 by decide) ?_
  funext k
  fin_cases k <;>
    simp [updateEKF_R, setBlock, minBoundDiagonal, singular_cov_tail, Matrix.vecHead,
      Matrix.vecTail, Fin.coe_ofNat_eq_mod] <;>
    norm_num

theorem minBoundDiagonal_zero_posDef (b : ℝ) (hb : 0 < b) :
    (minBoundDiagonal (0 : Matrix (Fin 3) (Fin 3) ℝ) b).PosDef := by
  have h : minBoundDiagonal (0 : Matrix (Fin 3) (Fin 3) ℝ) b = Matrix.diagonal (fun _ => b) := by
    rw [minBoundDiagonal_eq_add]
    simp [hb]
  rw [h]
  exact Matrix.PosDef.diagonal (fun _ => hb)

theorem minBoundDiagonal_posDef_of_posDef (A : Matrix (Fin 3) (Fin 3) ℝ) (b : ℝ)
    (hA : A.PosDef) : (minBoundDiagonal A b).PosDef := by
  rw [minBoundDiagonal_eq_add]
  refine Matrix.PosDef.add_posSemidef hA (Matrix.PosSemidef.diagonal ?_)
  intro i
  by_cases h : A i i < b
  · simp [h]; linarith
  · simp [h]

theorem minBoundDiagonal_posDef_of_diagonal (d : Fin 3 → ℝ) (b : ℝ) (hb : 0 < b) :
    (minBoundDiagonal (Matrix.diagonal d) b).PosDef := by
  have h : minBoundDiagonal (Matrix.diagonal d) b =
      Matrix.diagonal (fun i => if d i < b then b else d i) := by
    ext i j
    by_cases hij : i = j
    · subst hij
      by_cases h : d i < b <;> simp [minBoundDiagonal, h]
    · simp [minBoundDiagonal, hij, Matrix.diagonal_apply_ne _ hij]
  rw [h]
  refine Matrix.PosDef.diagonal (fun i => ?_)
  by_cases h : d i < b
  · simp [h, hb]
  · simp only [h, if_false]
    linarith [not_lt.mp h]

/-- C7 fails when `S` is singular: with `P = 0`, the positive-semidefinite acceleration
covariance `[[1, 1, 0], [1, 1, 0], [0, 0, 1]]` and the identity as angular-rate covariance
(all positive semidefinite), `S` has no inverse and `ImuUpdater::updateEKF` stores no
defined covariance. -/
theorem updateEKF_cov_undefined :
    (0 : Matrix (Fin 30) (Fin 30) ℝ).PosSemidef ∧
      (singular_cov : Matrix (Fin 3) (Fin 3) ℝ).PosSemidef ∧
      (1 : Matrix (Fin 3) (Fin 3) ℝ).PosSemidef ∧
      (imu_updater_rest : ImuUpdater ℝ).updateEKF 18 (0 : Matrix (Fin 30) (Fin 30) ℝ)
        singular_cov 1 = none := by
  refine ⟨Matrix.PosSemidef.zero, singular_cov_posSemidef, Matrix.PosSemidef.one, ?_⟩
  unfold ImuUpdater.updateEKF
  simp only []
  rw [determinant_eq_det, updateEKF_S_zero_cov, if_pos updateEKF_R_singular_cov_det]

/-- C8 fails for a singular positive-semidefinite covariance: with `P = 0`, the identity as
acceleration covariance and the angular-rate covariance
`[[1, 0, 0], [0, 1, 1], [0, 1, 1]]` (all positive semidefinite, diagonals above the
bounds), the innovation covariance `S` has determinant zero. -/
theorem updateEKF_S_det_eq_zero :
    (0 : Matrix (Fin 30) (Fin 30) ℝ).PosSemidef ∧
      (1 : Matrix (Fin 3) (Fin 3) ℝ).PosSemidef ∧
      (singular_cov_tail : Matrix (Fin 3) (Fin 3) ℝ).PosSemidef ∧
      ((imu_updater_rest : ImuUpdater ℝ).updateEKF_S 18 (0 : Matrix (Fin 30) (Fin 30) ℝ)
        1 singular_cov_tail).det = 0 := by
  refine ⟨Matrix.PosSemidef.zero, Matrix.PosSemidef.one, singular_cov_tail_posSemidef, ?_⟩
  rw [updateEKF_S_zero_cov]
  exact updateEKF_R_singular_cov_tail_det

theorem posDef_det_ne_zero {n : Nat} (M : Matrix (Fin n) (Fin n) ℝ) (hM : M.PosDef) :
    M.det ≠ 0 :=
  hM.det_pos.ne'

/-- C8, for positive-definite bounded blocks: for every symmetric positive-semidefinite
covariance `P` and all acceleration and angular-rate covariances whose diagonally bounded
blocks (diagonal raised to at least 1e-3, respectively 1e-2) are positive definite, the
innovation covariance `S = H P Hᵀ + R` of `ImuUpdater::updateEKF` is invertible.  The
bounded block is positive definite for every diagonal input
(`minBoundDiagonal_posDef_of_diagonal`) and for every positive-definite input
(`minBoundDiagonal_posDef_of_posDef`). -/
theorem updateEKF_S_det_ne_zero (u : ImuUpdater ℝ) {n : Nat} (start : Nat)
    (P : Matrix (Fin n) (Fin n) ℝ) (acc omg : Matrix (Fin 3) (Fin 3) ℝ)
    (hP : P.PosSemidef) (hacc : (minBoundDiagonal acc 1e-3).PosDef)
    (homg : (minBoundDiagonal omg 1e-2).PosDef) :
    (u.updateEKF_S start P acc omg).det ≠ 0 :=
  posDef_det_ne_zero _ (updateEKF_S_posDef u start P acc omg hP hacc homg)

/-- C8 at the IMU at rest with `P = I` and zero measurement covariances: the bounded
blocks are `1e-3 I` and `1e-2 I` and `S` is invertible. -/
theorem updateEKF_S_det_ne_zero_witness :
    ((imu_updater_rest : ImuUpdater ℝ).updateEKF_S 18 (1 : Matrix (Fin 30) (Fin 30) ℝ)
      0 0).det ≠ 0 :=
  updateEKF_S_det_ne_zero imu_updater_rest 18 1 0 0 Matrix.PosSemidef.one
    (minBoundDiagonal_zero_posDef _ (by norm_num)) (minBoundDiagonal_zero_posDef _ (by norm_num))

/-- C6 at the IMU at rest with `P = I` and zero measurement covariances (as in the unit
test of the updater): a covariance is stored and it is symmetric. -/
theorem updateEKF_cov_isSymm_witness :
    ∃ P', (imu_updater_rest : ImuUpdater ℝ).updateEKF 18 (1 : Matrix (Fin 30) (Fin 30) ℝ)
      0 0 = some P' ∧ P'.IsSymm :=
  updateEKF_cov_isSymm imu_updater_rest 18 1 0 0 Matrix.isSymm_one
    Matrix.isSymm_zero Matrix.isSymm_zero
    (posDef_det_ne_zero _ (updateEKF_S_posDef _ 18 1 0 0 Matrix.PosSemidef.one
      (minBoundDiagonal_zero_posDef _ (by norm_num))
      (minBoundDiagonal_zero_posDef _ (by norm_num))))

/-- C7 at the IMU at rest with `P = I` and zero measurement covariances: a covariance is
stored and it is positive semidefinite. -/
theorem updateEKF_cov_posSemidef_witness :
    ∃ P', (imu_updater_rest : ImuUpdater ℝ).updateEKF 18 (1 : Matrix (Fin 30) (Fin 30) ℝ)
      0 0 = some P' ∧ P'.PosSemidef :=
  updateEKF_cov_posSemidef imu_updater_rest 18 1 0 0 Matrix.PosSemidef.one
    Matrix.PosSemidef.zero Matrix.PosSemidef.zero
    (posDef_det_ne_zero _ (updateEKF_S_posDef _ 18 1 0 0 Matrix.PosSemidef.one
      (minBoundDiagonal_zero_posDef _ (by norm_num))
      (minBoundDiagonal_zero_posDef _ (by norm_num))))

/-! ## Simulation driver -/

theorem foldl_or_use_for_prediction (imus : List ImuParameters) (b : Bool) :
    imus.foldl (fun using_any imu_params => using_any || imu_params.use_for_prediction) b =
      (b || imus.any (fun imu_params => imu_params.use_for_prediction)) := by
  induction imus generalizing b with
  | nil => simp
  | cons p rest ih => simp [List.foldl_cons, ih, Bool.or_assoc]

/-- C9: once the command line is accepted (no help flag, both positional arguments), the
simulation driver exits with -1 exactly when the IMU list has more than one IMU and at
least one of them sets `use_for_prediction`; in every other case this check is passed and
the exit code is 0. -/
theorem main_rejects_iff (imus : List ImuParameters) :
    (main false true true imus = -1 ↔
        (1 < imus.length ∧ ∃ imu_params ∈ imus, imu_params.use_for_prediction = true)) ∧
      (main false true true imus = -1 ∨ main false true true imus = 0) := by
  simp only [main, foldl_or_use_for_prediction]
  by_cases h1 : 1 < imus.length <;>
    by_cases h2 : imus.any (fun imu_params => imu_params.use_for_prediction) = true <;>
    simp_all

/-! ## EKF state layout -/

theorem imuOffsetLoop_eq (l : List (Nat × ImuState)) (start imu_id : Nat) :
    imuOffsetLoop start l imu_id =
      start + ((l.takeWhile (fun e => e.1 != imu_id)).map (fun e => e.2.size)).sum := by
  induction l generalizing start with
  | nil => simp [imuOffsetLoop]
  | cons e rest ih =>
    obtain ⟨id, st⟩ := e
    by_cases h : id = imu_id
    · simp [imuOffsetLoop, h]
    · simp [imuOffsetLoop, h, ih, List.takeWhile_cons, Nat.add_assoc]

theorem camOffsetLoop_eq (l : List (Nat × CamState)) (start cam_id : Nat) :
    camOffsetLoop start l cam_id =
      start + ((l.takeWhile (fun e => e.1 != cam_id)).map (fun e => e.2.size)).sum := by
  induction l generalizing start with
  | nil => simp [camOffsetLoop]
  | cons e rest ih =>
    obtain ⟨id, st⟩ := e
    by_cases h : id = cam_id
    · simp [camOffsetLoop, h]
    · simp [camOffsetLoop, h, ih, List.takeWhile_cons, Nat.add_assoc]

theorem augOffsetLoop_eq (l : List Nat) (start frame_id : Nat) :
    augOffsetLoop start l frame_id = start + 12 * l.indexOf frame_id := by
  induction l generalizing start with
  | nil => simp [augOffsetLoop]
  | cons id rest ih =>
    by_cases h : id = frame_id
    · simp [augOffsetLoop, h]
    · simp [augOffsetLoop, h, ih, List.indexOf_cons_ne _ h]
      omega

theorem foldl_imu_size (l : List (Nat × ImuState)) (start : Nat) :
    l.foldl (fun index e => index + e.2.size) start =
      start + (l.map (fun e => e.2.size)).sum := by
  induction l generalizing start with
  | nil => simp
  | cons e rest ih => simp [ih, Nat.add_assoc]

/-- C10: after every sequence of registrations, `GetImuStateStartIndex(id)` is 18 plus the
sizes `6·is_extrinsic + 6·is_intrinsic` of the IMUs registered before `id`;
`GetCamStateStartIndex(id)` is 18 plus the sizes of all IMUs plus the sizes
`6 + 12·(clone count)` of the cameras registered before `id`; and
`GetAugStateStartIndex(cam, frame)` is `GetCamStateStartIndex(cam) + 6 + 12·k` with `k`
the position of `frame` in the window of `cam`.  The unit test (one intrinsic-only IMU,
one camera with two clones) gives 18, 24, 30, 42. -/
theorem state_start_index_layout :
    (∀ (regs : List Registration) (id frame : Nat),
      (EKF.registerAll regs).GetImuStateStartIndex id =
          18 + (((EKF.registerAll regs).m_imu_states.takeWhile (fun e => e.1 != id)).map
            (fun e => (if e.2.is_extrinsic then 6 else 0) +
              (if e.2.is_intrinsic then 6 else 0))).sum ∧
        (EKF.registerAll regs).GetCamStateStartIndex id =
          18 + ((EKF.registerAll regs).m_imu_states.map (fun e => e.2.size)).sum +
            (((EKF.registerAll regs).m_cam_states.takeWhile (fun e => e.1 != id)).map
              (fun e => 6 + 12 * e.2.augmented_states.length)).sum ∧
        (EKF.registerAll regs).GetAugStateStartIndex id frame =
          (EKF.registerAll regs).GetCamStateStartIndex id + 6 + 12 *
            ((((EKF.registerAll regs).m_cam_states.find? (fun e => e.1 == id)).map
              (fun e => e.2.augmented_states)).getD []).indexOf frame) ∧
    ((EKF.registerAll unitTestRegistrations).GetImuStateStartIndex 0 = 18 ∧
      (EKF.registerAll unitTestRegistrations).GetCamStateStartIndex 1 = 24 ∧
      (EKF.registerAll unitTestRegistrations).GetAugStateStartIndex 1 0 = 30 ∧
      (EKF.registerAll unitTestRegistrations).GetAugStateStartIndex 1 1 = 42) := by
  refine ⟨?_, by decide⟩
  intro regs id frame
  refine ⟨?_, ?_, ?_⟩
  · simp only [EKF.GetImuStateStartIndex, imuOffsetLoop_eq, g_body_state_size]
    rfl
  · simp only [EKF.GetCamStateStartIndex, camOffsetLoop_eq, foldl_imu_size,
      g_body_state_size]
    rfl
  · simp only [EKF.GetAugStateStartIndex]
    cases h : (EKF.registerAll regs).m_cam_states.find? (fun e => e.1 == id) with
    | none => simp
    | some e => simp [augOffsetLoop_eq]

/-! ## SimFeatureTracker::generateMessages -/

omit [LinearOrderedField K] in
theorem push_back_mem (m : FeatureTrackMap K) (class_id : Nat) (ft : FeatureTrack K)
    (e : Nat × List (FeatureTrack K)) (he : e ∈ FeatureTrackMap.push_back m class_id ft) :
    e ∈ m ∨
      (e.1 = class_id ∧ (e.2 = [ft] ∨ ∃ v, (class_id, v) ∈ m ∧ e.2 = v ++ [ft])) := by
  induction m with
  | nil =>
    simp only [FeatureTrackMap.push_back, List.mem_singleton] at he
    subst he
    exact Or.inr ⟨rfl, Or.inl rfl⟩
  | cons hd rest ih =>
    obtain ⟨key, track⟩ := hd
    simp only [FeatureTrackMap.push_back] at he
    split_ifs at he with h1 h2
    · rcases List.mem_cons.mp he with h | h
      · subst h
        subst h1
        exact Or.inr ⟨rfl, Or.inr ⟨track, List.mem_cons_self _ _, rfl⟩⟩
      · exact Or.inl (List.mem_cons_of_mem _ h)
    · rcases List.mem_cons.mp he with h | h
      · subst h
        exact Or.inr ⟨rfl, Or.inl rfl⟩
      · exact Or.inl h
    · rcases List.mem_cons.mp he with h | h
      · subst h
        exact Or.inl (List.mem_cons_self _ _)
      · rcases ih h with h' | ⟨h3, h4⟩
        · exact Or.inl (List.mem_cons_of_mem _ h')
        · refine Or.inr ⟨h3, ?_⟩
          rcases h4 with h4 | ⟨v, hv, h5⟩
          · exact Or.inl h4
          · exact Or.inr ⟨v, List.mem_cons_of_mem _ hv, h5⟩

omit [LinearOrderedField K] in
theorem appendKeyPoints_cons (frameID : Nat) (kp : KeyPoint K) (kps : List (KeyPoint K))
    (m : FeatureTrackMap K) :
    appendKeyPoints frameID (kp :: kps) m =
      appendKeyPoints frameID kps
        (FeatureTrackMap.push_back m kp.class_id ⟨frameID, kp.pt_x, kp.pt_y⟩) :=
  rfl

omit [LinearOrderedField K] in
theorem appendKeyPoints_length (frameID : Nat) (keyPoints : List (KeyPoint K))
    (m : FeatureTrackMap K) (e : Nat × List (FeatureTrack K))
    (he : e ∈ appendKeyPoints frameID keyPoints m) :
    ∃ base : List (FeatureTrack K), (base = [] ∨ (e.1, base) ∈ m) ∧
      e.2.length ≤ base.length + (keyPoints.map KeyPoint.class_id).count e.1 := by
  induction keyPoints generalizing m with
  | nil => exact ⟨e.2, Or.inr he, by simp⟩
  | cons kp kps ih =>
    rw [appendKeyPoints_cons] at he
    obtain ⟨base, hbase, hlen⟩ := ih _ he
    rw [List.map_cons, List.count_cons]
    rcases hbase with hb | hb
    · exact ⟨[], Or.inl rfl, by subst hb; omega⟩
    · rcases push_back_mem _ _ _ _ hb with h | ⟨h1, h2⟩
      · exact ⟨base, Or.inr h, by omega⟩
      · have hid : (kp.class_id == e.1) = true := by
          simp only [beq_iff_eq]
          exact h1.symm
        rw [hid, if_pos rfl]
        rcases h2 with h2 | ⟨v, hv, h2⟩
        · simp only at h2
          subst h2
          refine ⟨[], Or.inl rfl, ?_⟩
          simp only [List.length_singleton, List.length_nil] at *
          omega
        · simp only at h1 h2
          subst h2
          refine ⟨v, Or.inr (h1 ▸ hv), ?_⟩
          simp only [List.length_append, List.length_singleton] at hlen
          omega

omit [LinearOrderedField K] in
theorem appendKeyPoints_ne_nil (frameID : Nat) (keyPoints : List (KeyPoint K))
    (m : FeatureTrackMap K) (hm : ∀ e ∈ m, e.2 ≠ [])
    (e : Nat × List (FeatureTrack K)) (he : e ∈ appendKeyPoints frameID keyPoints m) :
    e.2 ≠ [] := by
  induction keyPoints generalizing m with
  | nil => exact hm e he
  | cons kp kps ih =>
    rw [appendKeyPoints_cons] at he
    refine ih _ ?_ he
    intro e' he'
    rcases push_back_mem _ _ _ _ he' with h | ⟨_, h | ⟨v, _, h⟩⟩
    · exact hm e' h
    · rw [h]
      simp
    · rw [h]
      simp

omit [LinearOrderedField K] in
theorem mem_eraseTerminated_fst (frameID : Nat) (m : FeatureTrackMap K)
    (track : List (FeatureTrack K)) :
    track ∈ (eraseTerminated frameID m).1 ↔
      ∃ key, (key, track) ∈ m ∧ trackTerminated frameID track = true := by
  induction m with
  | nil => simp [eraseTerminated]
  | cons hd rest ih =>
    obtain ⟨key, v⟩ := hd
    simp only [eraseTerminated]
    split_ifs with h
    · simp only [List.mem_cons, ih, Prod.mk.injEq]
      constructor
      · rintro (h1 | ⟨k, hk, ht⟩)
        · exact ⟨key, Or.inl ⟨rfl, h1⟩, h1 ▸ h⟩
        · exact ⟨k, Or.inr hk, ht⟩
      · rintro ⟨k, (⟨_, h1⟩ | hk), ht⟩
        · exact Or.inl h1
        · exact Or.inr ⟨k, hk, ht⟩
    · simp only [List.mem_cons, ih, Prod.mk.injEq]
      constructor
      · rintro ⟨k, hk, ht⟩
        exact ⟨k, Or.inr hk, ht⟩
      · rintro ⟨k, (⟨_, h1⟩ | hk), ht⟩
        · exact absurd (h1 ▸ ht) h
        · exact ⟨k, hk, ht⟩

omit [LinearOrderedField K] in
theorem mem_eraseTerminated_snd (frameID : Nat) (m : FeatureTrackMap K)
    (e : Nat × List (FeatureTrack K)) :
    e ∈ (eraseTerminated frameID m).2 ↔ e ∈ m ∧ trackTerminated frameID e.2 = false := by
  induction m with
  | nil => simp [eraseTerminated]
  | cons hd rest ih =>
    obtain ⟨key, v⟩ := hd
    simp only [eraseTerminated]
    split_ifs with h
    · simp only [List.mem_cons, ih]
      constructor
      · rintro ⟨h1, h2⟩
        exact ⟨Or.inr h1, h2⟩
      · rintro ⟨h1 | h1, h2⟩
        · rw [h1] at h2
          simp only at h2
          rw [h] at h2
          exact absurd h2 (by simp)
        · exact ⟨h1, h2⟩
    · simp only [List.mem_cons, ih]
      constructor
      · rintro (h1 | ⟨h1, h2⟩)
        · refine ⟨Or.inl h1, ?_⟩
          rw [h1]
          simpa using h
        · exact ⟨Or.inr h1, h2⟩
      · rintro ⟨h1 | h1, h2⟩
        · exact Or.inl h1
        · exact Or.inr ⟨h1, h2⟩

theorem generateLoop_succ (vis : K → List (KeyPoint K)) (m_id : Nat) (times : List K)
    (sensorID frameID : Nat) :
    generateLoop vis m_id times sensorID (frameID + 1) =
      ((eraseTerminated frameID (appendKeyPoints frameID (vis (times.getD frameID 0))
          (generateLoop vis m_id times sensorID frameID).1)).2,
        (generateLoop vis m_id times sensorID frameID).2 ++
          [{ featureTracks := (eraseTerminated frameID (appendKeyPoints frameID
                (vis (times.getD frameID 0))
                (generateLoop vis m_id times sensorID frameID).1)).1,
             time := times.getD frameID 0, trackerID := m_id, sensorID := sensorID }]) :=
  rfl

theorem generateLoop_length (vis : K → List (KeyPoint K)) (m_id : Nat) (times : List K)
    (sensorID n : Nat) : (generateLoop vis m_id times sensorID n).2.length = n := by
  induction n with
  | zero => rfl
  | succ n ih => rw [generateLoop_succ, List.length_append, ih, List.length_singleton]

theorem generateLoop_getElem_eq (vis : K → List (KeyPoint K)) (m_id : Nat) (times : List K)
    (sensorID n f : Nat) (hf : f < n) :
    (generateLoop vis m_id times sensorID n).2[f]? =
      (generateLoop vis m_id times sensorID (f + 1)).2[f]? := by
  induction n with
  | zero => omega
  | succ n ih =>
    rcases Nat.lt_succ_iff_lt_or_eq.mp hf with h | h
    · rw [generateLoop_succ, List.getElem?_append_left (by rw [generateLoop_length]; exact h)]
      exact ih h
    · rw [h]

theorem generateLoop_nonempty (vis : K → List (KeyPoint K)) (m_id : Nat) (times : List K)
    (sensorID n : Nat) :
    (∀ e ∈ (generateLoop vis m_id times sensorID n).1, e.2 ≠ []) ∧
      ∀ msg ∈ (generateLoop vis m_id times sensorID n).2, ∀ track ∈ msg.featureTracks,
        track ≠ [] := by
  induction n with
  | zero => simp [generateLoop]
  | succ n ih =>
    rw [generateLoop_succ]
    constructor
    · intro e he
      rw [mem_eraseTerminated_snd] at he
      exact appendKeyPoints_ne_nil _ _ _ ih.1 e he.1
    · intro msg hmsg track htrack
      rcases List.mem_append.mp hmsg with h | h
      · exact ih.2 msg h track htrack
      · rw [List.mem_singleton] at h
        subst h
        rw [mem_eraseTerminated_fst] at htrack
        obtain ⟨key, hk, _⟩ := htrack
        exact appendKeyPoints_ne_nil _ _ _ ih.1 (key, track) hk

/-- C11 (as amended): every feature track in a message of
`SimFeatureTracker::generateMessages` has at least one point; the loop has no test against
`min_track_length`. -/
theorem generateMessages_track_length_pos (vis : K → List (KeyPoint K)) (m_id : Nat)
    (times : List K) (sensorID : Nat) :
    ∀ msg ∈ generateMessages vis m_id times sensorID, ∀ track ∈ msg.featureTracks,
      1 ≤ track.length := by
  intro msg hmsg track htrack
  have h := (generateLoop_nonempty vis m_id times sensorID times.length).2 msg hmsg track htrack
  exact List.length_pos.mpr h

/-- C11 (witness): for the camera that sees one feature at time 0 only and the frame times
`[0, 1]`, the track emitted at frame 1 has at least one point. -/
theorem generateMessages_track_length_pos_witness :
    1 ≤ ([(⟨0, 320, 240⟩ : FeatureTrack ℝ)]).length :=
  generateMessages_track_length_pos (single_frame_keypoints : ℝ → List (KeyPoint ℝ)) 0
    [0, 1] 0
    { featureTracks := [[⟨0, 320, 240⟩]], time := 1, trackerID := 0, sensorID := 0 }
    (by simp [generateMessages, generateLoop, appendKeyPoints, single_frame_keypoints,
      FeatureTrackMap.push_back, eraseTerminated, trackTerminated])
    [⟨0, 320, 240⟩] (by simp)

/-- C11 (the claim fails): for the camera that sees one feature at time 0 only and the
frame times `[0, 1]`, the message of frame 1 holds a track of one point, fewer than
`min_track_length = 2`. -/
theorem generateMessages_track_of_one_point :
    ∃ msg ∈ generateMessages (single_frame_keypoints : ℝ → List (KeyPoint ℝ)) 0 [0, 1] 0,
      ∃ track ∈ msg.featureTracks, track.length = 1 ∧ track.length < 2 := by
  refine ⟨{ featureTracks := [[⟨0, 320, 240⟩]], time := 1, trackerID := 0, sensorID := 0 },
    ?_, [⟨0, 320, 240⟩], by simp, rfl, by decide⟩
  simp [generateMessages, generateLoop, appendKeyPoints, single_frame_keypoints,
    FeatureTrackMap.push_back, eraseTerminated, trackTerminated]

omit [LinearOrderedField K] in
theorem trackTerminated_iff (frameID : Nat) (track : List (FeatureTrack K)) :
    trackTerminated frameID track = true ↔
      ((∃ back, track.getLast? = some back ∧ back.frame_id < frameID) ∨
        20 ≤ track.length) := by
  unfold trackTerminated
  cases h : track.getLast? with
  | none => simp
  | some back => simp

omit [LinearOrderedField K] in
theorem length_lt_of_not_terminated (frameID : Nat) (track : List (FeatureTrack K))
    (h : trackTerminated frameID track = false) : track.length < 20 := by
  by_contra hlen
  have := (trackTerminated_iff frameID track).mpr (Or.inr (not_lt.mp hlen))
  rw [h] at this
  exact absurd this (by simp)

theorem generateLoop_length_bound (vis : K → List (KeyPoint K)) (m_id : Nat) (times : List K)
    (sensorID : Nat)
    (hdistinct : ∀ f < times.length, ((vis (times.getD f 0)).map KeyPoint.class_id).Nodup)
    (n : Nat) (hn : n ≤ times.length) :
    (∀ e ∈ (generateLoop vis m_id times sensorID n).1, e.2.length < 20) ∧
      ∀ msg ∈ (generateLoop vis m_id times sensorID n).2, ∀ track ∈ msg.featureTracks,
        track.length ≤ 20 := by
  induction n with
  | zero => simp [generateLoop]
  | succ n ih =>
    have ih := ih (Nat.le_of_succ_le hn)
    have hrun : ∀ e ∈ appendKeyPoints n (vis (times.getD n 0))
        (generateLoop vis m_id times sensorID n).1, e.2.length ≤ 20 := by
      intro e he
      obtain ⟨base, hbase, hlen⟩ := appendKeyPoints_length _ _ _ e he
      have hcount := List.nodup_iff_count_le_one.mp (hdistinct n hn) e.1
      rcases hbase with hb | hb
      · subst hb
        simp only [List.length_nil] at hlen
        omega
      · have := ih.1 _ hb
        simp only at this
        omega
    rw [generateLoop_succ]
    constructor
    · intro e he
      rw [mem_eraseTerminated_snd] at he
      exact length_lt_of_not_terminated _ _ he.2
    · intro msg hmsg track htrack
      rcases List.mem_append.mp hmsg with h | h
      · exact ih.2 msg h track htrack
      · rw [List.mem_singleton] at h
        subst h
        rw [mem_eraseTerminated_fst] at htrack
        obtain ⟨key, hk, _⟩ := htrack
        exact hrun (key, track) hk

/-- C12: when the visible keypoints of every frame have pairwise distinct feature ids,
every feature track in a message of `SimFeatureTracker::generateMessages` has at most 20
points, and every track held in the running map after a frame has fewer than 20 points. -/
theorem generateMessages_track_length_le (vis : K → List (KeyPoint K)) (m_id : Nat)
    (times : List K) (sensorID : Nat)
    (hdistinct : ∀ f < times.length, ((vis (times.getD f 0)).map KeyPoint.class_id).Nodup) :
    (∀ msg ∈ generateMessages vis m_id times sensorID, ∀ track ∈ msg.featureTracks,
        track.length ≤ 20) ∧
      ∀ f < times.length, ∀ e ∈ (generateLoop vis m_id times sensorID (f + 1)).1,
        e.2.length < 20 :=
  ⟨(generateLoop_length_bound vis m_id times sensorID hdistinct times.length (le_refl _)).2,
    fun f hf => (generateLoop_length_bound vis m_id times sensorID hdistinct (f + 1) hf).1⟩

/-- C12 (witness): the camera that sees one feature at time 0 only, with the frame times
`[0, 1]`. -/
theorem generateMessages_track_length_le_witness :
    (∀ msg ∈ generateMessages (single_frame_keypoints : ℝ → List (KeyPoint ℝ)) 0 [0, 1] 0,
        ∀ track ∈ msg.featureTracks, track.length ≤ 20) ∧
      ∀ f < ([0, 1] : List ℝ).length,
        ∀ e ∈ (generateLoop (single_frame_keypoints : ℝ → List (KeyPoint ℝ)) 0 [0, 1] 0
          (f + 1)).1, e.2.length < 20 :=
  generateMessages_track_length_le single_frame_keypoints 0 [0, 1] 0
    (by
      intro f _
      unfold single_frame_keypoints
      split_ifs <;> simp)

/-- C13: at every frame `f`, with `running` the map after the keypoints of frame `f` were
appended, the message of frame `f` holds exactly the tracks of `running` whose last point
is from a frame before `f` or whose length has reached 20 (`size() >= 20`), and the map
after frame `f` holds exactly the other entries of `running`, unchanged. -/
theorem generateMessages_frame (vis : K → List (KeyPoint K)) (m_id : Nat)
    (times : List K) (sensorID f : Nat) (hf : f < times.length) :
    ∃ msg, (generateMessages vis m_id times sensorID)[f]? = some msg ∧
      (∀ track, track ∈ msg.featureTracks ↔
        ∃ id, (id, track) ∈ appendKeyPoints f (vis (times.getD f 0))
            (generateLoop vis m_id times sensorID f).1 ∧
          ((∃ back, track.getLast? = some back ∧ back.frame_id < f) ∨
            20 ≤ track.length)) ∧
      ∀ e, e ∈ (generateLoop vis m_id times sensorID (f + 1)).1 ↔
        e ∈ appendKeyPoints f (vis (times.getD f 0))
            (generateLoop vis m_id times sensorID f).1 ∧
          ¬((∃ back, e.2.getLast? = some back ∧ back.frame_id < f) ∨ 20 ≤ e.2.length) := by
  refine ⟨⟨(eraseTerminated f (appendKeyPoints f (vis (times.getD f 0))
      (generateLoop vis m_id times sensorID f).1)).1, times.getD f 0, m_id, sensorID⟩,
    ?_, ?_, ?_⟩
  · unfold generateMessages
    rw [generateLoop_getElem_eq vis m_id times sensorID times.length f hf, generateLoop_succ,
      List.getElem?_append_right (by rw [generateLoop_length]), generateLoop_length]
    simp
  · intro track
    simp only [mem_eraseTerminated_fst, trackTerminated_iff]
  · intro e
    rw [generateLoop_succ]
    simp only [mem_eraseTerminated_snd, ← trackTerminated_iff, Bool.not_eq_true]

/-- C13 (witness): frame 1 of the camera that sees one feature at time 0 only, with the
frame times `[0, 1]`. -/
theorem generateMessages_frame_witness :
    ∃ msg,
      (generateMessages (single_frame_keypoints : ℝ → List (KeyPoint ℝ)) 0 [0, 1] 0)[1]? =
        some msg ∧
      (∀ track, track ∈ msg.featureTracks ↔
        ∃ id, (id, track) ∈ appendKeyPoints 1
            (single_frame_keypoints (([0, 1] : List ℝ).getD 1 0))
            (generateLoop (single_frame_keypoints : ℝ → List (KeyPoint ℝ)) 0 [0, 1] 0 1).1 ∧
          ((∃ back, track.getLast? = some back ∧ back.frame_id < 1) ∨
            20 ≤ track.length)) ∧
      ∀ e, e ∈ (generateLoop (single_frame_keypoints : ℝ → List (KeyPoint ℝ)) 0 [0, 1] 0
          (1 + 1)).1 ↔
        e ∈ appendKeyPoints 1 (single_frame_keypoints (([0, 1] : List ℝ).getD 1 0))
            (generateLoop (single_frame_keypoints : ℝ → List (KeyPoint ℝ)) 0 [0, 1] 0 1).1 ∧
          ¬((∃ back, e.2.getLast? = some back ∧ back.frame_id < 1) ∨ 20 ≤ e.2.length) :=
  generateMessages_frame single_frame_keypoints 0 [0, 1] 0 1 (by simp)

/-! ## MessageCompare -/

/-- C14 (as amended): `MessageCompare(a, b)` is true exactly when the timestamp of `a` is
smaller; for equal timestamps it is false in both directions, whatever the sensor ids. -/
theorem MessageCompare_time_only (a b : SensorMessage K) :
    (MessageCompare a b = true ↔ a.m_time < b.m_time) ∧
      (a.m_time = b.m_time → MessageCompare a b = false ∧ MessageCompare b a = false) := by
  refine ⟨by simp [MessageCompare], fun h => ?_⟩
  simp [MessageCompare, h]

/-- C14 (witness): two messages at time 0 with the sensor ids 0 and 1. -/
theorem MessageCompare_time_only_witness :
    (MessageCompare (⟨0, 0⟩ : SensorMessage ℝ) ⟨1, 0⟩ = true ↔ (0 : ℝ) < 0) ∧
      ((0 : ℝ) = 0 → MessageCompare (⟨0, 0⟩ : SensorMessage ℝ) ⟨1, 0⟩ = false ∧
        MessageCompare (⟨1, 0⟩ : SensorMessage ℝ) ⟨0, 0⟩ = false) :=
  MessageCompare_time_only ⟨0, 0⟩ ⟨1, 0⟩

/-- C14 (the claim fails): for two messages at time 0 with the sensor ids 0 and 1,
`MessageCompare` does not put the smaller sensor id first: it is false. -/
theorem MessageCompare_ignores_sensor_id :
    (⟨0, 0⟩ : SensorMessage ℝ).m_time = (⟨1, 0⟩ : SensorMessage ℝ).m_time ∧
      (⟨0, 0⟩ : SensorMessage ℝ).m_sensor_id <
        (⟨1, 0⟩ : SensorMessage ℝ).m_sensor_id ∧
      MessageCompare (⟨0, 0⟩ : SensorMessage ℝ) ⟨1, 0⟩ = false := by
  simp [MessageCompare]

/-! ## MathHelper -/

/-- C18: `MathHelper::CrossProductMatrix(v) * w` is the cross product `v × w`, and the
matrix is skew-symmetric with zero diagonal. -/
theorem CrossProductMatrix_mulVec (v w : Fin 3 → K) :
    CrossProductMatrix v *ᵥ w = cross v w ∧
      (CrossProductMatrix v)ᵀ = -CrossProductMatrix v ∧
      ∀ i, CrossProductMatrix v i i = 0 := by
  refine ⟨?_, ?_, ?_⟩
  · funext i
    fin_cases i <;>
      simp [CrossProductMatrix, cross, Matrix.mulVec, Matrix.dotProduct, Fin.sum_univ_three,
        Matrix.vecHead, Matrix.vecTail] <;>
      ring
  · ext i j
    fin_cases i <;> fin_cases j <;>
      simp [CrossProductMatrix, Matrix.vecHead, Matrix.vecTail]
  · intro i
    fin_cases i <;> simp [CrossProductMatrix, Matrix.vecHead, Matrix.vecTail]

theorem MinBoundDiagonal_outMat_apply (inMat : Matrix (Fin 3) (Fin 3) K) (minBound : K)
    (i j : Fin 3) :
    MinBoundDiagonal_outMat inMat minBound i j =
      if i = j then max (inMat i i) minBound else inMat i j := by
  simp only [MinBoundDiagonal_outMat, List.finRange, List.ofFn, Fin.foldr, Fin.foldr.loop,
    List.foldl_cons, List.foldl_nil]
  fin_cases i <;> fin_cases j <;>
    simp [setCoeff, max_def] <;>
    split_ifs <;>
    first
    | rfl
    | (exfalso; linarith)
    | (simp_all [setCoeff]; done)
    | (simp_all [setCoeff]; linarith)

/-- C19 (the code at a failing input): for the zero matrix and the bound 1 the local
`outMat` of `MathHelper::MinBoundDiagonal` ends as the identity, the matrix the claim
describes, but the function body has no `return`: the call yields no defined value. -/
theorem MinBoundDiagonal_returns_nothing :
    MinBoundDiagonal (0 : Matrix (Fin 3) (Fin 3) ℝ) 1 = none ∧
      MinBoundDiagonal_outMat (0 : Matrix (Fin 3) (Fin 3) ℝ) 1 = 1 := by
  refine ⟨rfl, ?_⟩
  ext i j
  rw [MinBoundDiagonal_outMat_apply]
  by_cases h : i = j <;> simp [h, Matrix.one_apply]

theorem MinBoundVector_locals_snd {n : Nat} (inVec : Fin n → K) (minBound : K) :
    (MinBoundVector_locals inVec minBound).2 = inVec :=
  rfl

/-- C20 (the code at a failing input): for the vector `(0, 2)` and the bound 1 the loop of
`MathHelper::MinBoundVector` bounds the parameter `inVec` to `(1, 2)` and leaves the copy
`outVec` at `(0, 2)`, and the function body has no `return`: the call yields no defined
value. -/
theorem MinBoundVector_returns_nothing :
    MinBoundVector (![0, 2] : Fin 2 → ℝ) 1 = none ∧
      MinBoundVector_locals (![0, 2] : Fin 2 → ℝ) 1 = (![1, 2], ![0, 2]) := by
  refine ⟨rfl, ?_⟩
  simp only [MinBoundVector_locals, List.finRange, List.ofFn, Fin.foldr, Fin.foldr.loop,
    List.foldl_cons, List.foldl_nil]
  refine Prod.ext ?_ rfl
  funext i
  fin_cases i <;> simp [Function.update]

/-! ## MsckfUpdater::ApplyLeftNullspace: the rotations are orthogonal -/

theorem makeGivens_self_norm (p : ℝ) :
    (makeGivens Real.sqrt p p).c * (makeGivens Real.sqrt p p).c +
      (makeGivens Real.sqrt p p).s * (makeGivens Real.sqrt p p).s = 1 := by
  have hs : Real.sqrt 2 * Real.sqrt 2 = 2 := Real.mul_self_sqrt (by norm_num)
  have hne : Real.sqrt 2 ≠ 0 := (Real.sqrt_pos.mpr (by norm_num)).ne'
  rcases lt_trichotomy p 0 with hp | hp | hp
  · rw [makeGivens_self_of_neg p hp]
    field_simp
  · subst hp
    rw [makeGivens_zero]
    norm_num
  · rw [makeGivens_self_of_pos p hp]
    field_simp

/-- The matrix of the plane rotation that `blockApplyOnTheLeft _ m 0 j` applies: the
rotation applied to the identity. -/
theorem blockApplyOnTheLeft_eq_mul {r c : Nat} (M : Matrix (Fin r) (Fin c) K) (m : Nat)
    (j : JacobiRotation K) :
    blockApplyOnTheLeft M m 0 j =
      blockApplyOnTheLeft (1 : Matrix (Fin r) (Fin r) K) m 0 j * M := by
  unfold blockApplyOnTheLeft
  by_cases h : m + 1 < r
  · simp only [dif_pos h, Nat.zero_le, if_true]
    ext i k
    simp only [applyOnTheLeft, Matrix.mul_apply]
    split_ifs with h1 h2
    · simp [Matrix.one_apply, add_mul, Finset.sum_add_distrib, mul_assoc, ← Finset.mul_sum]
    · simp [Matrix.one_apply, add_mul, Finset.sum_add_distrib, mul_assoc, ← Finset.mul_sum]
    · simp [Matrix.one_apply]
  · simp only [dif_neg h, Matrix.one_mul]

theorem blockApplyOnTheLeft_adjoint_cancel {r c : Nat} (M : Matrix (Fin r) (Fin c) K)
    (m : Nat) (j : JacobiRotation K) (hj : j.c * j.c + j.s * j.s = 1) :
    blockApplyOnTheLeft (blockApplyOnTheLeft M m 0 j) m 0 j.adjoint = M := by
  unfold blockApplyOnTheLeft
  by_cases h : m + 1 < r
  · simp only [dif_pos h, Nat.zero_le, if_true]
    have hne : (⟨m + 1, h⟩ : Fin r) ≠ ⟨m, Nat.lt_of_succ_lt h⟩ := by
      intro e
      have := congrArg Fin.val e
      simp at this
    ext i k
    simp only [applyOnTheLeft, JacobiRotation.adjoint, if_true, if_neg hne]
    split_ifs with h1 h2
    · rw [h1]
      linear_combination (M ⟨m, Nat.lt_of_succ_lt h⟩ k) * hj
    · rw [h2]
      linear_combination (M ⟨m + 1, h⟩ k) * hj
    · rfl
  · simp only [dif_neg h]

theorem blockApplyOnTheLeft_one_transpose {r : Nat} (m : Nat) (j : JacobiRotation K) :
    (blockApplyOnTheLeft (1 : Matrix (Fin r) (Fin r) K) m 0 j)ᵀ =
      blockApplyOnTheLeft (1 : Matrix (Fin r) (Fin r) K) m 0 j.adjoint := by
  unfold blockApplyOnTheLeft
  by_cases h : m + 1 < r
  · simp only [dif_pos h, Nat.zero_le, if_true]
    have hne : (⟨m + 1, h⟩ : Fin r) ≠ ⟨m, Nat.lt_of_succ_lt h⟩ := by
      intro e
      have := congrArg Fin.val e
      simp at this
    ext i k
    simp only [Matrix.transpose_apply, applyOnTheLeft, JacobiRotation.adjoint,
      Matrix.one_apply]
    by_cases hi1 : i = ⟨m, Nat.lt_of_succ_lt h⟩ <;>
      by_cases hi2 : i = ⟨m + 1, h⟩ <;>
      by_cases hk1 : k = ⟨m, Nat.lt_of_succ_lt h⟩ <;>
      by_cases hk2 : k = ⟨m + 1, h⟩ <;>
      simp_all [hne, hne.symm, eq_comm]
  · simp only [dif_neg h, Matrix.transpose_one]

/-- A plane rotation with `c² + s² = 1` is an orthogonal matrix. -/
theorem blockApplyOnTheLeft_one_orthogonal {r : Nat} (m : Nat) (j : JacobiRotation K)
    (hj : j.c * j.c + j.s * j.s = 1) :
    (blockApplyOnTheLeft (1 : Matrix (Fin r) (Fin r) K) m 0 j.adjoint)ᵀ *
      blockApplyOnTheLeft (1 : Matrix (Fin r) (Fin r) K) m 0 j.adjoint = 1 := by
  have hadj : j.adjoint.adjoint = j := by
    simp [JacobiRotation.adjoint]
  have hj2 : j.adjoint.c * j.adjoint.c + j.adjoint.s * j.adjoint.s = 1 := by
    simp only [JacobiRotation.adjoint]
    linear_combination hj
  rw [blockApplyOnTheLeft_one_transpose, hadj, ← blockApplyOnTheLeft_eq_mul]
  have := blockApplyOnTheLeft_adjoint_cancel (1 : Matrix (Fin r) (Fin r) K) m j.adjoint hj2
  rw [hadj] at this
  exact this

theorem vecApplyOnTheLeft_eq_mulVec {r : Nat} (v : Fin r → K) (m : Nat)
    (j : JacobiRotation K) :
    vecApplyOnTheLeft v m j =
      blockApplyOnTheLeft (1 : Matrix (Fin r) (Fin r) K) m 0 j *ᵥ v := by
  funext i
  unfold vecApplyOnTheLeft
  rw [blockApplyOnTheLeft_eq_mul]
  simp [Matrix.mul_apply, Matrix.mulVec, Matrix.dotProduct]

theorem leftNullspaceStep_lockstep {r cf cx : Nat} (n m : Nat)
    (H_x : Matrix (Fin r) (Fin cx) ℝ) (res : Fin r → ℝ)
    (a : Matrix (Fin r) (Fin cf) ℝ × Matrix (Fin r) (Fin cx) ℝ × (Fin r → ℝ))
    (b : Matrix (Fin r) (Fin cf) ℝ × Matrix (Fin r) (Fin r) ℝ × (Fin r → ℝ))
    (h : a.1 = b.1 ∧ a.2.1 = b.2.1 * H_x ∧ a.2.2 = b.2.1 *ᵥ res ∧ b.2.1ᵀ * b.2.1 = 1) :
    (leftNullspaceStep Real.sqrt n a m).1 = (leftNullspaceStep Real.sqrt n b m).1 ∧
      (leftNullspaceStep Real.sqrt n a m).2.1 = (leftNullspaceStep Real.sqrt n b m).2.1 * H_x ∧
      (leftNullspaceStep Real.sqrt n a m).2.2 = (leftNullspaceStep Real.sqrt n b m).2.1 *ᵥ res ∧
      (leftNullspaceStep Real.sqrt n b m).2.1ᵀ * (leftNullspaceStep Real.sqrt n b m).2.1 = 1 := by
  obtain ⟨h1, h2, h3, h4⟩ := h
  simp only [leftNullspaceStep, h1]
  refine ⟨trivial, ?_, ?_, ?_⟩
  · rw [blockApplyOnTheLeft_eq_mul, h2, ← Matrix.mul_assoc, ← blockApplyOnTheLeft_eq_mul]
  · rw [vecApplyOnTheLeft_eq_mulVec, h3, Matrix.mulVec_mulVec, ← blockApplyOnTheLeft_eq_mul]
  · rw [blockApplyOnTheLeft_eq_mul b.2.1, Matrix.transpose_mul, Matrix.mul_assoc,
      ← Matrix.mul_assoc _ _ b.2.1,
      blockApplyOnTheLeft_one_orthogonal m _ (makeGivens_self_norm _), Matrix.one_mul, h4]

theorem foldl_lockstep {α β γ : Type} (R : α → β → Prop) (f : α → γ → α)
    (g : β → γ → β)
    (hstep : ∀ a b x, R a b → R (f a x) (g b x)) (l : List γ) (a : α) (b : β) (h : R a b) :
    R (l.foldl f a) (l.foldl g b) := by
  induction l generalizing a b with
  | nil => exact h
  | cons x rest ih => exact ih _ _ (hstep a b x h)

/-- C17: `MsckfUpdater::ApplyLeftNullspace` multiplies `H_x` and `res` by one orthogonal
matrix `Q`, fixed by `H_f` alone: `H_x' = Q H_x`, `res' = Q res` with `Qᵀ Q = 1`; so
`res'ᵀ res' = resᵀ res` and `H_x'ᵀ res' = H_xᵀ res`. -/
theorem ApplyLeftNullspace_orthogonal {r cf : Nat} (H_f : Matrix (Fin r) (Fin cf) ℝ) :
    ∃ Q : Matrix (Fin r) (Fin r) ℝ, Qᵀ * Q = 1 ∧
      ∀ (cx : Nat) (H_x : Matrix (Fin r) (Fin cx) ℝ) (res : Fin r → ℝ),
        (ApplyLeftNullspace Real.sqrt H_f H_x res).2.1 = Q * H_x ∧
        (ApplyLeftNullspace Real.sqrt H_f H_x res).2.2 = Q *ᵥ res ∧
        (ApplyLeftNullspace Real.sqrt H_f H_x res).2.2 ⬝ᵥ
            (ApplyLeftNullspace Real.sqrt H_f H_x res).2.2 = res ⬝ᵥ res ∧
        (ApplyLeftNullspace Real.sqrt H_f H_x res).2.1ᵀ *ᵥ
            (ApplyLeftNullspace Real.sqrt H_f H_x res).2.2 = H_xᵀ *ᵥ res := by
  have key : ∀ (cx : Nat) (H_x : Matrix (Fin r) (Fin cx) ℝ) (res : Fin r → ℝ),
      (ApplyLeftNullspace Real.sqrt H_f H_x res).1 =
          (ApplyLeftNullspace Real.sqrt H_f (1 : Matrix (Fin r) (Fin r) ℝ) 0).1 ∧
        (ApplyLeftNullspace Real.sqrt H_f H_x res).2.1 =
          (ApplyLeftNullspace Real.sqrt H_f (1 : Matrix (Fin r) (Fin r) ℝ) 0).2.1 * H_x ∧
        (ApplyLeftNullspace Real.sqrt H_f H_x res).2.2 =
          (ApplyLeftNullspace Real.sqrt H_f (1 : Matrix (Fin r) (Fin r) ℝ) 0).2.1 *ᵥ res ∧
        (ApplyLeftNullspace Real.sqrt H_f (1 : Matrix (Fin r) (Fin r) ℝ) 0).2.1ᵀ *
          (ApplyLeftNullspace Real.sqrt H_f (1 : Matrix (Fin r) (Fin r) ℝ) 0).2.1 = 1 := by
    intro cx H_x res
    unfold ApplyLeftNullspace
    refine foldl_lockstep
      (fun (a : Matrix (Fin r) (Fin cf) ℝ × Matrix (Fin r) (Fin cx) ℝ × (Fin r → ℝ))
        (b : Matrix (Fin r) (Fin cf) ℝ × Matrix (Fin r) (Fin r) ℝ × (Fin r → ℝ)) =>
        a.1 = b.1 ∧ a.2.1 = b.2.1 * H_x ∧ a.2.2 = b.2.1 *ᵥ res ∧ b.2.1ᵀ * b.2.1 = 1)
      _ _ ?_ _ _ _ ?_
    · intro a b n hab
      exact foldl_lockstep _ _ _
        (fun a b m hab => leftNullspaceStep_lockstep n m H_x res a b hab) _ a b hab
    · simp
  refine ⟨(ApplyLeftNullspace Real.sqrt H_f (1 : Matrix (Fin r) (Fin r) ℝ) 0).2.1,
    (key 0 0 0).2.2.2, ?_⟩
  intro cx H_x res
  obtain ⟨_, h2, h3, h4⟩ := key cx H_x res
  refine ⟨h2, h3, ?_, ?_⟩
  · rw [h3, Matrix.dotProduct_mulVec, Matrix.vecMul_mulVec, h4, Matrix.vecMul_one]
  · rw [h2, h3, Matrix.transpose_mul, Matrix.mulVec_mulVec, Matrix.mul_assoc, h4,
      Matrix.mul_one]

/-! ## TruthEngine::WriteTruthData -/

omit [LinearOrderedField K] in
theorem EnumerateHeader_length (name : String) (size : Nat) :
    (EnumerateHeader name size : List (CsvField K)).length = size := by
  simp [EnumerateHeader]

omit [LinearOrderedField K] in
theorem VectorToCommaString_length {n : Nat} (vec : Fin n → K) :
    (VectorToCommaString vec).length = n := by
  simp [VectorToCommaString]

omit [LinearOrderedField K] in
theorem foldl_append_length {α β : Type} (f : β → List α) (k : Nat)
    (hf : ∀ b, (f b).length = k) (l : List β) (init : List α) :
    (l.foldl (fun acc b => acc ++ f b) init).length = init.length + k * l.length := by
  induction l generalizing init with
  | nil => simp
  | cons b rest ih =>
    rw [List.foldl_cons, ih, List.length_append, hf, List.length_cons]
    ring

omit [LinearOrderedField K] in
theorem WriteTruthData_header_length (te : TruthEngine K) :
    te.WriteTruthData_header.length = 20 + 13 * te.m_imu_pos.length + 7 * te.m_cam_pos.length := by
  unfold TruthEngine.WriteTruthData_header
  simp only [List.append_assoc]
  rw [foldl_append_length _ 7 (by intro b; simp [EnumerateHeader_length]),
    foldl_append_length _ 13 (by intro b; simp [EnumerateHeader_length])]
  simp [EnumerateHeader_length]

theorem WriteTruthData_row_length (te : TruthEngine K) (body_data_rate : K)
    (header : List (CsvField K)) (i : Nat) :
    (te.WriteTruthData_row body_data_rate header i).2.length = 20 := by
  simp [TruthEngine.WriteTruthData_row, VectorToCommaString_length, QuaternionToCommaString]

theorem WriteTruthData_rows_length (te : TruthEngine K) (floor : K → Int)
    (body_data_rate max_time : K) :
    ∀ row ∈ (te.WriteTruthData floor body_data_rate max_time).2, row.length = 20 := by
  unfold TruthEngine.WriteTruthData
  simp only
  generalize (floor ((max_time + 1) * body_data_rate) % 4294967296).toNat = num
  induction num with
  | zero => simp
  | succ n ih =>
    intro row hrow
    rw [List.range_succ, List.foldl_append, List.foldl_cons, List.foldl_nil] at hrow
    rcases List.mem_append.mp hrow with h | h
    · exact ih row h
    · rw [List.mem_singleton] at h
      rw [h]
      exact WriteTruthData_row_length te body_data_rate _ n

/-- C15 (the code at a failing input): for a truth engine with one IMU and no camera, a
data rate of 1 and `max_time = 0`, `TruthEngine::WriteTruthData` defines a header of
`20 + 13 = 33` fields and logs one data row, which has 20 fields: the loops over the
sensors write their values to the stream `header`, not to `msg`. -/
theorem WriteTruthData_row_shorter_than_header :
    ((truth_engine_one_imu : TruthEngine ℝ).WriteTruthData (fun x => ⌊x⌋) 1 0).1.length =
        33 ∧
      ((truth_engine_one_imu : TruthEngine ℝ).WriteTruthData (fun x => ⌊x⌋) 1 0).2.map
        List.length = [20] := by
  constructor
  · exact WriteTruthData_header_length _
  · have hnum : (⌊((0 : ℝ) + 1) * 1⌋ % 4294967296).toNat = 1 := by
      norm_num
    unfold TruthEngine.WriteTruthData
    simp only [hnum, List.range_succ, List.range_zero, List.nil_append, List.foldl_cons,
      List.foldl_nil, List.map_cons, List.map_nil, WriteTruthData_row_length]

/-! ## ImuUpdater::getMeasurementJacobian -/

theorem getBlock_setBlock_same {r c p q : Nat} (M : Matrix (Fin r) (Fin c) K) (i0 j0 : Nat)
    (B : Matrix (Fin p) (Fin q) K) (hr : i0 + p ≤ r) (hc : j0 + q ≤ c) :
    getBlock (setBlock M i0 j0 B) i0 j0 p q = B := by
  ext i j
  have hi := i.isLt
  have hj := j.isLt
  have h1 : i0 + i.val < r ∧ j0 + j.val < c := ⟨by omega, by omega⟩
  simp only [getBlock, coeff, dif_pos h1, setBlock]
  rw [dif_pos ⟨⟨by omega, by omega⟩, ⟨by omega, by omega⟩⟩]
  congr 1 <;> ext <;> simp

theorem getBlock_setBlock_disjoint {r c p q p2 q2 : Nat} (M : Matrix (Fin r) (Fin c) K)
    (a b : Nat) (B : Matrix (Fin p2) (Fin q2) K) (i0 j0 : Nat)
    (h : i0 + p ≤ a ∨ a + p2 ≤ i0 ∨ j0 + q ≤ b ∨ b + q2 ≤ j0) :
    getBlock (setBlock M a b B) i0 j0 p q = getBlock M i0 j0 p q := by
  ext i j
  have hi := i.isLt
  have hj := j.isLt
  simp only [getBlock, coeff]
  by_cases h1 : i0 + i.val < r ∧ j0 + j.val < c
  · simp only [dif_pos h1, setBlock]
    rw [dif_neg]
    intro h2
    omega
  · simp only [dif_neg h1]

omit [LinearOrderedField K] in
theorem setBlock_apply_of_not_mem {r c p q : Nat} (M : Matrix (Fin r) (Fin c) K)
    (i0 j0 : Nat) (B : Matrix (Fin p) (Fin q) K) (i : Fin r) (j : Fin c)
    (h : ¬ ((i0 ≤ i.val ∧ i.val < i0 + p) ∧ (j0 ≤ j.val ∧ j.val < j0 + q))) :
    setBlock M i0 j0 B i j = M i j := by
  simp only [setBlock, dif_neg h]


theorem getMeasurementJacobian_blocks (u : ImuUpdater K) :
    getBlock u.getMeasurementJacobian 0 6 3 3 = u.m_angOffset.toRotationMatrix ∧
    getBlock u.getMeasurementJacobian 0 15 3 3 =
      u.m_angOffset.toRotationMatrix * SkewSymmetric u.m_posOffset ∧
    getBlock u.getMeasurementJacobian 0 21 3 3 =
      -(u.m_angOffset.toRotationMatrix * SkewSymmetric
        (u.m_bodyAcc + cross u.m_bodyAngAcc u.m_posOffset +
          cross u.m_bodyAngVel (cross u.m_bodyAngVel u.m_posOffset))) ∧
    getBlock u.getMeasurementJacobian 3 12 3 3 = u.m_angOffset.toRotationMatrix ∧
    getBlock u.getMeasurementJacobian 3 21 3 3 =
      -(u.m_angOffset.toRotationMatrix * SkewSymmetric u.m_bodyAngVel) ∧
    getBlock u.getMeasurementJacobian 0 24 3 3 = 1 ∧
    getBlock u.getMeasurementJacobian 3 27 3 3 = 1 := by
  simp only [ImuUpdater.getMeasurementJacobian]
  refine ⟨?_, ?_, ?_, ?_, ?_, ?_, ?_⟩ <;>
    simp (disch := omega) only [getBlock_setBlock_disjoint, getBlock_setBlock_same]


theorem getMeasurementJacobian_accel_blocks (u : ImuUpdater K) :
    getBlock u.getMeasurementJacobian 0 12 3 3 =
      u.m_angOffset.toRotationMatrix *
        !![u.m_posOffset 1 * u.m_bodyAngVel 1 + 1 * u.m_posOffset 2 * u.m_bodyAngVel 2,
           u.m_posOffset 1 * u.m_bodyAngVel 0 - 2 * u.m_posOffset 0 * u.m_bodyAngVel 1,
           u.m_posOffset 2 * u.m_bodyAngVel 0 - 2 * u.m_posOffset 0 * u.m_bodyAngVel 2;
           u.m_posOffset 0 * u.m_bodyAngVel 1 - 2 * u.m_posOffset 1 * u.m_bodyAngVel 0,
           u.m_posOffset 0 * u.m_bodyAngVel 0 + 1 * u.m_posOffset 2 * u.m_bodyAngVel 2,
           u.m_posOffset 2 * u.m_bodyAngVel 1 - 2 * u.m_posOffset 1 * u.m_bodyAngVel 2;
           u.m_posOffset 0 * u.m_bodyAngVel 2 - 2 * u.m_posOffset 2 * u.m_bodyAngVel 0,
           u.m_posOffset 1 * u.m_bodyAngVel 2 - 2 * u.m_posOffset 2 * u.m_bodyAngVel 1,
           u.m_posOffset 0 * u.m_bodyAngVel 0 + 1 * u.m_posOffset 1 * u.m_bodyAngVel 1] ∧
    getBlock u.getMeasurementJacobian 0 18 3 3 =
      u.m_angOffset.toRotationMatrix * SkewSymmetric u.m_bodyAngAcc +
        !![-(u.m_bodyAngVel 1 * u.m_bodyAngVel 1) - (u.m_bodyAngVel 2 * u.m_bodyAngVel 2),
           u.m_bodyAngVel 0 * u.m_bodyAngVel 1, u.m_bodyAngVel 0 * u.m_bodyAngVel 2;
           u.m_bodyAngVel 0 * u.m_bodyAngVel 1,
           -(u.m_bodyAngVel 0 * u.m_bodyAngVel 0) - (u.m_bodyAngVel 2 * u.m_bodyAngVel 2),
           u.m_bodyAngVel 1 * u.m_bodyAngVel 2;
           u.m_bodyAngVel 0 * u.m_bodyAngVel 2, u.m_bodyAngVel 1 * u.m_bodyAngVel 2,
           -(u.m_bodyAngVel 0 * u.m_bodyAngVel 0) - (u.m_bodyAngVel 1 * u.m_bodyAngVel 1)] := by
  simp only [ImuUpdater.getMeasurementJacobian]
  refine ⟨?_, ?_⟩ <;>
    simp (disch := omega) only [getBlock_setBlock_disjoint, getBlock_setBlock_same]

theorem getMeasurementJacobian_zero_outside (u : ImuUpdater K) (i : Fin 6) (j : Fin 30)
    (h : ¬ ((i.val < 3 ∧ 6 ≤ j.val ∧ j.val < 9) ∨ (i.val < 3 ∧ 12 ≤ j.val ∧ j.val < 27) ∨
      (3 ≤ i.val ∧ 12 ≤ j.val ∧ j.val < 15) ∨ (3 ≤ i.val ∧ 21 ≤ j.val ∧ j.val < 24) ∨
      (3 ≤ i.val ∧ 27 ≤ j.val))) :
    u.getMeasurementJacobian i j = 0 := by
  have hi := i.isLt
  have hj := j.isLt
  simp only [ImuUpdater.getMeasurementJacobian]
  simp (disch := omega) only [setBlock_apply_of_not_mem]
  rfl

theorem head3_predictMeasurement (u : ImuUpdater K) :
    head3 u.predictMeasurement =
      u.m_angOffset.toRotationMatrix *ᵥ
          (u.m_bodyAcc + cross u.m_bodyAngAcc u.m_posOffset +
            cross u.m_bodyAngVel (cross u.m_bodyAngVel u.m_posOffset)) + u.m_accBias := by
  rw [← transformVector_eq_mulVec]
  funext i
  fin_cases i <;> rfl

theorem head3_predictMeasurement_sub (u v : ImuUpdater K)
    (hq : v.m_angOffset = u.m_angOffset) (hb : v.m_accBias = u.m_accBias) :
    head3 v.predictMeasurement - head3 u.predictMeasurement =
      u.m_angOffset.toRotationMatrix *ᵥ
        ((v.m_bodyAcc + cross v.m_bodyAngAcc v.m_posOffset +
            cross v.m_bodyAngVel (cross v.m_bodyAngVel v.m_posOffset)) -
          (u.m_bodyAcc + cross u.m_bodyAngAcc u.m_posOffset +
            cross u.m_bodyAngVel (cross u.m_bodyAngVel u.m_posOffset))) := by
  rw [head3_predictMeasurement, head3_predictMeasurement, hq, hb, Matrix.mulVec_sub]
  abel

/-- C23: for every state of the updater and every `δ`, replacing the body angular velocity
`ω` by `ω + δ` changes the first three entries of `ImuUpdater::predictMeasurement` by
exactly `J_w δ + R(q_i) (δ × (δ × p_i))`, where `J_w` is the block that
`getMeasurementJacobian` writes at rows 0-2, columns 12-14: the block is the exact
derivative with respect to `ω`, the remainder is of second order in `δ`. -/
theorem predictMeasurement_angVel_increment (u : ImuUpdater K) (δ : Fin 3 → K) :
    head3 ({ u with m_bodyAngVel := u.m_bodyAngVel + δ }).predictMeasurement -
        head3 u.predictMeasurement =
      getBlock u.getMeasurementJacobian 0 12 3 3 *ᵥ δ +
        u.m_angOffset.toRotationMatrix *ᵥ cross δ (cross δ u.m_posOffset) := by
  rw [head3_predictMeasurement_sub u { u with m_bodyAngVel := u.m_bodyAngVel + δ } rfl rfl, (getMeasurementJacobian_accel_blocks u).1,
    ← Matrix.mulVec_mulVec, ← Matrix.mulVec_add]
  refine congrArg _ ?_
  funext i
  fin_cases i <;>
    simp only [cross, SkewSymmetric, CrossProductMatrix, Matrix.mulVec, Matrix.dotProduct,
      Matrix.mul_apply, Matrix.add_apply, Matrix.neg_apply, Fin.sum_univ_three,
      Matrix.cons_val_zero, Matrix.cons_val_one, Matrix.head_cons, Matrix.cons_val_two,
      Matrix.tail_cons, Pi.add_apply, Pi.sub_apply, Pi.neg_apply, Matrix.of_apply,
      Matrix.cons_val', Matrix.empty_val', Matrix.cons_val_fin_one, Fin.zero_eta, Fin.mk_one,
      Fin.reduceFinMk, Matrix.vecHead, Matrix.vecTail, Function.comp, Fin.succ_zero_eq_one,
      Fin.succ_one_eq_two] <;>
    ring

theorem predictMeasurement_angAcc_increment (u : ImuUpdater K) (δ : Fin 3 → K) :
    head3 ({ u with m_bodyAngAcc := u.m_bodyAngAcc + δ }).predictMeasurement -
        head3 u.predictMeasurement =
      -(getBlock u.getMeasurementJacobian 0 15 3 3 *ᵥ δ) := by
  rw [head3_predictMeasurement_sub u { u with m_bodyAngAcc := u.m_bodyAngAcc + δ } rfl rfl, (getMeasurementJacobian_blocks u).2.1,
    ← Matrix.mulVec_mulVec, ← Matrix.mulVec_neg]
  refine congrArg _ ?_
  funext i
  fin_cases i <;>
    simp only [cross, SkewSymmetric, CrossProductMatrix, Matrix.mulVec, Matrix.dotProduct,
      Matrix.mul_apply, Matrix.add_apply, Matrix.neg_apply, Fin.sum_univ_three,
      Matrix.cons_val_zero, Matrix.cons_val_one, Matrix.head_cons, Matrix.cons_val_two,
      Matrix.tail_cons, Pi.add_apply, Pi.sub_apply, Pi.neg_apply, Matrix.of_apply,
      Matrix.cons_val', Matrix.empty_val', Matrix.cons_val_fin_one, Fin.zero_eta, Fin.mk_one,
      Fin.reduceFinMk, Matrix.vecHead, Matrix.vecTail, Function.comp, Fin.succ_zero_eq_one,
      Fin.succ_one_eq_two] <;>
    ring

theorem predictMeasurement_posOffset_increment (u : ImuUpdater K) (δ : Fin 3 → K) :
    head3 ({ u with m_posOffset := u.m_posOffset + δ }).predictMeasurement -
        head3 u.predictMeasurement =
      u.m_angOffset.toRotationMatrix *ᵥ
        ((CrossProductMatrix u.m_bodyAngAcc +
          CrossProductMatrix u.m_bodyAngVel * CrossProductMatrix u.m_bodyAngVel) *ᵥ δ) := by
  rw [head3_predictMeasurement_sub u { u with m_posOffset := u.m_posOffset + δ } rfl rfl]
  refine congrArg _ ?_
  funext i
  fin_cases i <;>
    simp only [cross, SkewSymmetric, CrossProductMatrix, Matrix.mulVec, Matrix.dotProduct,
      Matrix.mul_apply, Matrix.add_apply, Matrix.neg_apply, Fin.sum_univ_three,
      Matrix.cons_val_zero, Matrix.cons_val_one, Matrix.head_cons, Matrix.cons_val_two,
      Matrix.tail_cons, Pi.add_apply, Pi.sub_apply, Pi.neg_apply, Matrix.of_apply,
      Matrix.cons_val', Matrix.empty_val', Matrix.cons_val_fin_one, Fin.zero_eta, Fin.mk_one,
      Fin.reduceFinMk, Matrix.vecHead, Matrix.vecTail, Function.comp, Fin.succ_zero_eq_one,
      Fin.succ_one_eq_two] <;>
    ring

/-- C21 (the code at a failing input): for an IMU at the lever arm `p_i = (1, 0, 0)` with
identity orientation offset on a body at rest, replacing the angular acceleration `α = 0`
by `α + δ` with `δ = (0, 1, 0)` changes the first three entries of
`ImuUpdater::predictMeasurement` by `(0, 0, -1)`, while the block that
`getMeasurementJacobian` writes at rows 0-2, columns 15-17 is `R(q_i) [p_i]×` and gives
`R(q_i) [p_i]× δ = (0, 0, 1)`: the block has the sign opposite to the change of the
prediction (which is `-(block) δ` for every state and every `δ`, see
`predictMeasurement_angAcc_increment`). -/
theorem angAcc_block_has_opposite_sign :
    head3 ({ (imu_updater_lever : ImuUpdater ℝ) with
        m_bodyAngAcc := (imu_updater_lever : ImuUpdater ℝ).m_bodyAngAcc + ![0, 1, 0] }
          ).predictMeasurement - head3 (imu_updater_lever : ImuUpdater ℝ).predictMeasurement =
      ![0, 0, -1] ∧
    getBlock (imu_updater_lever : ImuUpdater ℝ).getMeasurementJacobian 0 15 3 3 =
      (imu_updater_lever : ImuUpdater ℝ).m_angOffset.toRotationMatrix *
        CrossProductMatrix (imu_updater_lever : ImuUpdater ℝ).m_posOffset ∧
    ((imu_updater_lever : ImuUpdater ℝ).m_angOffset.toRotationMatrix *
        CrossProductMatrix (imu_updater_lever : ImuUpdater ℝ).m_posOffset) *ᵥ ![0, 1, 0] =
      ![0, 0, 1] ∧
    (![0, 0, -1] : Fin 3 → ℝ) ≠ ![0, 0, 1] := by
  have hblock : ((imu_updater_lever : ImuUpdater ℝ).m_angOffset.toRotationMatrix *
        CrossProductMatrix (imu_updater_lever : ImuUpdater ℝ).m_posOffset) *ᵥ ![0, 1, 0] =
      ![0, 0, 1] := by
    funext i
    fin_cases i <;>
      simp only [imu_updater_lever, Quaterniond.toRotationMatrix, CrossProductMatrix,
        Matrix.mulVec, Matrix.dotProduct,
        Matrix.mul_apply, Matrix.add_apply, Matrix.neg_apply, Fin.sum_univ_three,
        Matrix.cons_val_zero, Matrix.cons_val_one, Matrix.head_cons, Matrix.cons_val_two,
        Matrix.tail_cons, Pi.add_apply, Pi.sub_apply, Pi.neg_apply, Pi.zero_apply,
        Matrix.of_apply, Matrix.cons_val', Matrix.empty_val', Matrix.cons_val_fin_one,
        Fin.zero_eta, Fin.mk_one, Fin.reduceFinMk, Matrix.vecHead, Matrix.vecTail,
        Function.comp, Fin.succ_zero_eq_one, Fin.succ_one_eq_two] <;>
      norm_num
  refine ⟨?_, (getMeasurementJacobian_blocks _).2.1, hblock, ?_⟩
  · rw [predictMeasurement_angAcc_increment, (getMeasurementJacobian_blocks _).2.1]
    simp only [SkewSymmetric]
    rw [hblock]
    funext i
    fin_cases i <;> simp
  · intro h
    have := congrFun h 2
    simp at this
    norm_num at this

/-- C22 (the code at a failing input): for an IMU at the body origin that is mounted half
a turn about the z axis, on a body turning at the rate `ω = (1, 0, 0)` with `α = 0`,
replacing the position offset `p_i = 0` by `p_i + δ` with `δ = (0, 1, 0)` changes the first
three entries of `ImuUpdater::predictMeasurement` by `(0, 1, 0)`, while the block that
`getMeasurementJacobian` writes at rows 0-2, columns 18-20 is `R(q_i) [α]× + [ω]× [ω]×`
and gives `(R(q_i) [α]× + [ω]× [ω]×) δ = (0, -1, 0)`: the term `[ω]× [ω]×` is not rotated
by `R(q_i)` (the change of the prediction is `R(q_i) ([α]× + [ω]× [ω]×) δ` for every
state and every `δ`, see `predictMeasurement_posOffset_increment`). -/
theorem posOffset_block_not_rotated :
    head3 ({ (imu_updater_turned : ImuUpdater ℝ) with
        m_posOffset := (imu_updater_turned : ImuUpdater ℝ).m_posOffset + ![0, 1, 0] }
          ).predictMeasurement - head3 (imu_updater_turned : ImuUpdater ℝ).predictMeasurement =
      ![0, 1, 0] ∧
    getBlock (imu_updater_turned : ImuUpdater ℝ).getMeasurementJacobian 0 18 3 3 =
      (imu_updater_turned : ImuUpdater ℝ).m_angOffset.toRotationMatrix *
          CrossProductMatrix (imu_updater_turned : ImuUpdater ℝ).m_bodyAngAcc +
        CrossProductMatrix (imu_updater_turned : ImuUpdater ℝ).m_bodyAngVel *
          CrossProductMatrix (imu_updater_turned : ImuUpdater ℝ).m_bodyAngVel ∧
    ((imu_updater_turned : ImuUpdater ℝ).m_angOffset.toRotationMatrix *
          CrossProductMatrix (imu_updater_turned : ImuUpdater ℝ).m_bodyAngAcc +
        CrossProductMatrix (imu_updater_turned : ImuUpdater ℝ).m_bodyAngVel *
          CrossProductMatrix (imu_updater_turned : ImuUpdater ℝ).m_bodyAngVel) *ᵥ ![0, 1, 0] =
      ![0, -1, 0] ∧
    (![0, 1, 0] : Fin 3 → ℝ) ≠ ![0, -1, 0] := by
  refine ⟨?_, ?_, ?_, ?_⟩
  · rw [predictMeasurement_posOffset_increment]
    funext i
    fin_cases i <;>
      simp only [imu_updater_turned, Quaterniond.toRotationMatrix, CrossProductMatrix,
        Matrix.mulVec, Matrix.dotProduct,
        Matrix.mul_apply, Matrix.add_apply, Matrix.neg_apply, Fin.sum_univ_three,
        Matrix.cons_val_zero, Matrix.cons_val_one, Matrix.head_cons, Matrix.cons_val_two,
        Matrix.tail_cons, Pi.add_apply, Pi.sub_apply, Pi.neg_apply, Pi.zero_apply,
        Matrix.of_apply, Matrix.cons_val', Matrix.empty_val', Matrix.cons_val_fin_one,
        Fin.zero_eta, Fin.mk_one, Fin.reduceFinMk, Matrix.vecHead, Matrix.vecTail,
        Function.comp, Fin.succ_zero_eq_one, Fin.succ_one_eq_two] <;>
      norm_num
  · rw [(getMeasurementJacobian_accel_blocks _).2]
    refine congrArg _ ?_
    ext i j
    fin_cases i <;> fin_cases j <;>
      simp only [CrossProductMatrix,
        Matrix.mulVec, Matrix.dotProduct,
        Matrix.mul_apply, Matrix.add_apply, Matrix.neg_apply, Fin.sum_univ_three,
        Matrix.cons_val_zero, Matrix.cons_val_one, Matrix.head_cons, Matrix.cons_val_two,
        Matrix.tail_cons, Pi.add_apply, Pi.sub_apply, Pi.neg_apply, Pi.zero_apply,
        Matrix.of_apply, Matrix.cons_val', Matrix.empty_val', Matrix.cons_val_fin_one,
        Fin.zero_eta, Fin.mk_one, Fin.reduceFinMk, Matrix.vecHead, Matrix.vecTail,
        Function.comp, Fin.succ_zero_eq_one, Fin.succ_one_eq_two] <;>
      ring
  · funext i
    fin_cases i <;>
      simp only [imu_updater_turned, Quaterniond.toRotationMatrix, CrossProductMatrix,
        Matrix.mulVec, Matrix.dotProduct,
        Matrix.mul_apply, Matrix.add_apply, Matrix.neg_apply, Fin.sum_univ_three,
        Matrix.cons_val_zero, Matrix.cons_val_one, Matrix.head_cons, Matrix.cons_val_two,
        Matrix.tail_cons, Pi.add_apply, Pi.sub_apply, Pi.neg_apply, Pi.zero_apply,
        Matrix.of_apply, Matrix.cons_val', Matrix.empty_val', Matrix.cons_val_fin_one,
        Fin.zero_eta, Fin.mk_one, Fin.reduceFinMk, Matrix.vecHead, Matrix.vecTail,
        Function.comp, Fin.succ_zero_eq_one, Fin.succ_one_eq_two] <;>
      norm_num
  · intro h
    have := congrFun h 1
    simp at this
    norm_num at this

/-- C24: for every state of the updater `ImuUpdater::getMeasurementJacobian` returns a
6 x 30 matrix with these blocks: rows 0-2 x columns 6-8 and rows 3-5 x columns 12-14 are
`R(q_i)`; rows 0-2 x columns 21-23 are `-R(q_i) [a + α × p_i + ω × (ω × p_i)]×`; rows 3-5 x
columns 21-23 are `-R(q_i) [ω]×`; rows 0-2 x columns 24-26 and rows 3-5 x columns 27-29 are
the identity; and every entry that is not zero lies in one of these blocks or in the three
accelerometer blocks at rows 0-2, columns 12-20 (so the columns 0-5 and 9-11 are zero). -/
theorem getMeasurementJacobian_layout (u : ImuUpdater K) :
    getBlock u.getMeasurementJacobian 0 6 3 3 = u.m_angOffset.toRotationMatrix ∧
    getBlock u.getMeasurementJacobian 3 12 3 3 = u.m_angOffset.toRotationMatrix ∧
    getBlock u.getMeasurementJacobian 0 21 3 3 =
      -(u.m_angOffset.toRotationMatrix * CrossProductMatrix
        (u.m_bodyAcc + cross u.m_bodyAngAcc u.m_posOffset +
          cross u.m_bodyAngVel (cross u.m_bodyAngVel u.m_posOffset))) ∧
    getBlock u.getMeasurementJacobian 3 21 3 3 =
      -(u.m_angOffset.toRotationMatrix * CrossProductMatrix u.m_bodyAngVel) ∧
    getBlock u.getMeasurementJacobian 0 24 3 3 = 1 ∧
    getBlock u.getMeasurementJacobian 3 27 3 3 = 1 ∧
    ∀ (i : Fin 6) (j : Fin 30), u.getMeasurementJacobian i j ≠ 0 →
      (i.val < 3 ∧ 6 ≤ j.val ∧ j.val < 9) ∨ (3 ≤ i.val ∧ 12 ≤ j.val ∧ j.val < 15) ∨
      (i.val < 3 ∧ 21 ≤ j.val ∧ j.val < 24) ∨ (3 ≤ i.val ∧ 21 ≤ j.val ∧ j.val < 24) ∨
      (i.val < 3 ∧ 24 ≤ j.val ∧ j.val < 27) ∨ (3 ≤ i.val ∧ 27 ≤ j.val ∧ j.val < 30) ∨
      (i.val < 3 ∧ 12 ≤ j.val ∧ j.val < 21) := by
  obtain ⟨h1, -, h3, h4, h5, h6, h7⟩ := getMeasurementJacobian_blocks u
  refine ⟨h1, h4, h3, h5, h6, h7, ?_⟩
  intro i j hne
  by_contra hn
  refine hne (getMeasurementJacobian_zero_outside u i j ?_)
  have hi := i.isLt
  have hj := j.isLt
  omega

/-! ## ImuUpdater::updateEKF: the columns of H and the order of the calls -/

theorem imuOffsetLoop_add_size_le (l : List (Nat × ImuState)) (start imu_id : Nat)
    (e : Nat × ImuState) (h : l.find? (fun e => e.1 == imu_id) = some e) :
    imuOffsetLoop start l imu_id + e.2.size ≤ start + (l.map (fun e => e.2.size)).sum := by
  induction l generalizing start with
  | nil => simp at h
  | cons a rest ih =>
    obtain ⟨id, st⟩ := a
    by_cases hid : id = imu_id
    · subst hid
      simp at h
      subst h
      simp [imuOffsetLoop]
    · have h2 : rest.find? (fun e => e.1 == imu_id) = some e := by
        simpa [List.find?_cons, hid] using h
      have := ih (start + st.size) h2
      simp only [imuOffsetLoop, hid, if_false, List.map_cons, List.sum_cons]
      omega

theorem updateEKF_H_support (u : ImuUpdater K) (stateSize stateStartIndex : Nat)
    (i : Fin 6) (j : Fin stateSize) (h : u.updateEKF_H stateSize stateStartIndex i j ≠ 0) :
    j.val < 18 ∨ (stateStartIndex ≤ j.val ∧ j.val < stateStartIndex + 12) := by
  by_contra hn
  apply h
  have hi := i.isLt
  simp only [ImuUpdater.updateEKF_H]
  rw [setBlock_apply_of_not_mem _ _ _ _ _ _ (by omega),
    setBlock_apply_of_not_mem _ _ _ _ _ _ (by omega)]
  rfl

/-- C29 (amended): for every registered IMU that is both extrinsic and intrinsic (a slice
of 12 scalars), the 6 x stateSize matrix `H` assembled in `ImuUpdater::updateEKF` is
nonzero only in the body columns 0-17 and in the columns of the slice of that IMU, and
every column that the two block assignments write has an index below `stateSize`. -/
theorem updateEKF_H_columns_in_slice (u : ImuUpdater K) (ekf : EKF) (imu_id : Nat)
    (imu_state : ImuState)
    (hreg : ekf.m_imu_states.find? (fun e => e.1 == imu_id) = some (imu_id, imu_state))
    (hext : imu_state.is_extrinsic = true) (hint : imu_state.is_intrinsic = true) :
    (∀ (i : Fin 6) (j : Fin ekf.GetStateSize),
      u.updateEKF_H ekf.GetStateSize (ekf.GetImuStateStartIndex imu_id) i j ≠ 0 →
        j.val < g_body_state_size ∨
          (ekf.GetImuStateStartIndex imu_id ≤ j.val ∧
            j.val < ekf.GetImuStateStartIndex imu_id + imu_state.size)) ∧
    ∀ c ∈ updateEKF_H_columns (ekf.GetImuStateStartIndex imu_id), c < ekf.GetStateSize := by
  have hsize : imu_state.size = 12 := by simp [ImuState.size, hext, hint]
  have hle := imuOffsetLoop_add_size_le ekf.m_imu_states g_body_state_size imu_id _ hreg
  simp only [hsize] at hle
  refine ⟨?_, ?_⟩
  · intro i j h
    rw [hsize]
    exact updateEKF_H_support u _ _ i j h
  · intro c hc
    simp only [updateEKF_H_columns, List.mem_append, List.mem_range, List.mem_range'_1] at hc
    simp only [EKF.GetStateSize, EKF.GetImuStateStartIndex, g_body_state_size] at hc hle ⊢
    omega

theorem updateEKF_H_columns_in_slice_witness :
    (EKF.registerAll [Registration.imu 0 { is_extrinsic := true, is_intrinsic := true }]
        ).m_imu_states.find? (fun e => e.1 == 0) =
      some (0, { is_extrinsic := true, is_intrinsic := true }) ∧
    ((∀ (i : Fin 6) (j : Fin (EKF.registerAll
          [Registration.imu 0 { is_extrinsic := true, is_intrinsic := true }]).GetStateSize),
      (imu_updater_rest : ImuUpdater ℝ).updateEKF_H
          (EKF.registerAll
            [Registration.imu 0 { is_extrinsic := true, is_intrinsic := true }]).GetStateSize
          ((EKF.registerAll
            [Registration.imu 0 { is_extrinsic := true, is_intrinsic := true }]
            ).GetImuStateStartIndex 0) i j ≠ 0 →
        j.val < g_body_state_size ∨
          ((EKF.registerAll
              [Registration.imu 0 { is_extrinsic := true, is_intrinsic := true }]
              ).GetImuStateStartIndex 0 ≤ j.val ∧
            j.val < (EKF.registerAll
              [Registration.imu 0 { is_extrinsic := true, is_intrinsic := true }]
              ).GetImuStateStartIndex 0 +
                ImuState.size { is_extrinsic := true, is_intrinsic := true })) ∧
    ∀ c ∈ updateEKF_H_columns ((EKF.registerAll
        [Registration.imu 0 { is_extrinsic := true, is_intrinsic := true }]
        ).GetImuStateStartIndex 0),
      c < (EKF.registerAll
        [Registration.imu 0 { is_extrinsic := true, is_intrinsic := true }]).GetStateSize) :=
  ⟨rfl, updateEKF_H_columns_in_slice imu_updater_rest _ 0 _ rfl rfl rfl⟩

theorem getMeasurementJacobian_accBias_entry (u : ImuUpdater K) :
    u.getMeasurementJacobian 0 24 = 1 := by
  have h := congrFun (congrFun (getMeasurementJacobian_blocks u).2.2.2.2.2.1 0) 0
  simpa [getBlock, coeff] using h

/-- C29 (counterexample): with the registrations of the unit test (an intrinsic-only IMU
with id 0, slice 18..23 of 6 scalars, and a camera with id 1 whose slice starts at 24; state
size 54) the matrix `H` of `ImuUpdater::updateEKF` has the entry `1` at row 0, column 24,
a column of the camera; and when the intrinsic-only IMU is the only sensor (state size 24)
the block assignment `H.block(0, 18, 6, 12)` writes the column 29, which is not below the
state size. -/
theorem updateEKF_H_writes_past_slice :
    (EKF.registerAll unitTestRegistrations).m_imu_states.find? (fun e => e.1 == 0) =
      some (0, { is_extrinsic := false, is_intrinsic := true }) ∧
    (EKF.registerAll unitTestRegistrations).GetStateSize = 54 ∧
    (EKF.registerAll unitTestRegistrations).GetImuStateStartIndex 0 = 18 ∧
    ImuState.size { is_extrinsic := false, is_intrinsic := true } = 6 ∧
    (EKF.registerAll unitTestRegistrations).GetCamStateStartIndex 1 = 24 ∧
    (imu_updater_rest : ImuUpdater ℝ).updateEKF_H 54 18 0 24 = 1 ∧
    (EKF.registerAll
      [Registration.imu 0 { is_extrinsic := false, is_intrinsic := true }]).GetStateSize = 24 ∧
    29 ∈ updateEKF_H_columns ((EKF.registerAll
      [Registration.imu 0 { is_extrinsic := false, is_intrinsic := true }]
      ).GetImuStateStartIndex 0) := by
  refine ⟨rfl, by decide, by decide, by decide, by decide, ?_, by decide, by decide⟩
  have h := getMeasurementJacobian_accBias_entry (imu_updater_rest : ImuUpdater ℝ)
  simp only [ImuUpdater.updateEKF_H, setBlock, getBlock, coeff]
  rw [dif_pos (by decide)]
  simpa using h

theorem getMeasurementJacobian_gyro_angOffset_entry (u : ImuUpdater K) :
    u.getMeasurementJacobian 3 22 =
      (-(u.m_angOffset.toRotationMatrix * SkewSymmetric u.m_bodyAngVel)) 0 1 := by
  have h := congrFun (congrFun (getMeasurementJacobian_blocks u).2.2.2.2.1 0) 1
  simpa [getBlock, coeff] using h

/-- C30 (the code at a failing input): for a filter at time 0 whose body is at rest with the
angular acceleration `(0, 0, 1)`, `ImuUpdater::updateEKF(1, ...)` calls `RefreshStates()`
before `processModel(1)`: the filter after the prediction has the angular velocity
`(0, 0, 1)`, but `z_pred` is `predictMeasurement()` on the members read before the
prediction, with last entry `0` where the prediction at the state after `processModel` has
`1`, and `subH` has the entry `0` at row 3, column 22 where the Jacobian at the state after
`processModel` has `1`. -/
theorem updateEKF_predicts_from_stale_members (exp : (Fin 3 → ℝ) → Quaterniond ℝ) :
    (ImuUpdater.updateEKF_prediction exp spinning_estimator 1).1 =
      (spinning_estimator : Estimator ℝ).processModel exp 1 ∧
    ((spinning_estimator : Estimator ℝ).processModel exp 1).m_bodyState.angularVelocity =
      ![0, 0, 1] ∧
    (ImuUpdater.updateEKF_prediction exp spinning_estimator 1).2.1 =
      (ImuUpdater.RefreshStates (spinning_estimator : Estimator ℝ)).predictMeasurement ∧
    (ImuUpdater.updateEKF_prediction exp spinning_estimator 1).2.1 5 = 0 ∧
    (ImuUpdater.RefreshStates
      ((spinning_estimator : Estimator ℝ).processModel exp 1)).predictMeasurement 5 = 1 ∧
    (ImuUpdater.updateEKF_prediction exp spinning_estimator 1).2.2 3 22 = 0 ∧
    (ImuUpdater.RefreshStates
      ((spinning_estimator : Estimator ℝ).processModel exp 1)).getMeasurementJacobian 3 22 =
        1 := by
  have hstep : (spinning_estimator : Estimator ℝ).processModel exp 1 =
      { m_bodyState :=
          { position := 0, velocity := 0, acceleration := 0,
            orientation := (⟨1, 0, 0, 0⟩ : Quaterniond ℝ).mul (exp 0),
            angularVelocity := ![0, 0, 1], angularAcceleration := ![0, 0, 1] }
        m_imuState :=
          { position := 0, orientation := ⟨1, 0, 0, 0⟩, accBias := 0, omgBias := 0 }
        m_cov := 0
        m_currentTime := 1
        m_processNoise := 0 } := by
    simp only [Estimator.processModel, spinning_estimator]
    rw [if_neg (by norm_num)]
    simp
  refine ⟨rfl, by rw [hstep], rfl, ?_, ?_, ?_, ?_⟩
  · simp [ImuUpdater.updateEKF_prediction, ImuUpdater.RefreshStates, spinning_estimator,
      ImuUpdater.predictMeasurement, Quaterniond.transformVector, Quaterniond.vec, cross]
    rfl
  · rw [hstep]
    simp [ImuUpdater.RefreshStates, ImuUpdater.predictMeasurement,
      Quaterniond.transformVector, Quaterniond.vec, cross]
    rfl
  · simp only [ImuUpdater.updateEKF_prediction]
    rw [getMeasurementJacobian_gyro_angOffset_entry]
    simp [ImuUpdater.RefreshStates, spinning_estimator, Quaterniond.toRotationMatrix,
      SkewSymmetric, CrossProductMatrix, Matrix.mul_apply, Fin.sum_univ_three,
      Matrix.vecHead, Matrix.vecTail]
  · rw [hstep, getMeasurementJacobian_gyro_angOffset_entry]
    simp [ImuUpdater.RefreshStates, Quaterniond.toRotationMatrix,
      SkewSymmetric, CrossProductMatrix, Matrix.mul_apply, Fin.sum_univ_three,
      Matrix.vecHead, Matrix.vecTail]

/-! ## MsckfUpdater::UpdateEKF: the loop over the tracks -/

theorem toRotationMatrix_identity :
    (⟨1, 0, 0, 0⟩ : Quaterniond K).toRotationMatrix = 1 := by
  ext i j
  fin_cases i <;> fin_cases j <;>
    simp [Quaterniond.toRotationMatrix, Matrix.vecHead, Matrix.vecTail]

theorem two_view_system (u : MsckfUpdater ℝ) (x d : ℝ) (hx : x = 80 ∨ x = 560)
    (c1 : AugmentedState ℝ) (h1 : u.MatchState 1 = c1)
    (ho1 : c1.orientation = ⟨1, 0, 0, 0⟩) (ho2 : (u.MatchState 2).orientation = ⟨1, 0, 0, 0⟩)
    (hp : (u.MatchState 2).position - c1.position = ![d, 0, 0])
    (hw : u.m_image_width = 640) (hh : u.m_image_height = 480) :
    u.triangulateSystem Real.sqrt c1 (two_view_track x) =
      (!![41 / 25, 0, (320 - x) / 240 * (12 / 25); 0, 2, 0;
          (320 - x) / 240 * (12 / 25), 0, 9 / 25],
       ![d * (16 / 25), 0, d * ((320 - x) / 240 * (12 / 25))]) := by
  simp only [MsckfUpdater.triangulateSystem, two_view_track, List.foldl_cons, List.foldl_nil,
    MsckfUpdater.triangulateStep, h1, hw, hh, hp, sub_self]
  simp only [ho1, ho2, toRotationMatrix_identity, Matrix.transpose_one,
    Matrix.one_mul, Matrix.one_mulVec]
  have hb0 : (![2 * 320 / ((640 : ℕ) : ℝ) - 1, 2 * 240 / ((480 : ℕ) : ℝ) - 1, 1] :
      Fin 3 → ℝ) = ![0, 0, 1] := by
    norm_num
  have hn0 : norm3 Real.sqrt (![0, 0, 1] : Fin 3 → ℝ) = 1 := by
    simp [norm3]
  have hb1 : (![2 * x / ((640 : ℕ) : ℝ) - 1, 2 * 240 / ((480 : ℕ) : ℝ) - 1, 1] :
      Fin 3 → ℝ) = ![-((320 - x) / 240 * (3 / 4)), 0, 1] := by
    rcases hx with rfl | rfl <;> norm_num
  have hn1 : norm3 Real.sqrt (![-((320 - x) / 240 * (3 / 4)), 0, 1] : Fin 3 → ℝ) = 5 / 4 := by
    simp only [norm3]
    have h : (![-((320 - x) / 240 * (3 / 4)), 0, 1] : Fin 3 → ℝ) 0 *
        (![-((320 - x) / 240 * (3 / 4)), 0, 1] : Fin 3 → ℝ) 0 +
        (![-((320 - x) / 240 * (3 / 4)), 0, 1] : Fin 3 → ℝ) 1 *
        (![-((320 - x) / 240 * (3 / 4)), 0, 1] : Fin 3 → ℝ) 1 +
        (![-((320 - x) / 240 * (3 / 4)), 0, 1] : Fin 3 → ℝ) 2 *
        (![-((320 - x) / 240 * (3 / 4)), 0, 1] : Fin 3 → ℝ) 2 = (5 / 4) ^ 2 := by
      rcases hx with rfl | rfl <;> simp [Matrix.vecHead, Matrix.vecTail] <;> norm_num
    rw [h]
    exact Real.sqrt_sq (by norm_num)
  rw [hb0, hb1, hn0, hn1]
  refine Prod.ext ?_ ?_
  · ext i j
    rcases hx with rfl | rfl <;>
    fin_cases i <;> fin_cases j <;>
      simp only [SkewSymmetric, CrossProductMatrix, Prod.fst, Prod.snd,
        Matrix.mulVec, Matrix.dotProduct,
        Matrix.mul_apply, Matrix.add_apply, Matrix.neg_apply, Matrix.transpose_apply,
        Matrix.zero_apply, Fin.sum_univ_three,
        Matrix.cons_val_zero, Matrix.cons_val_one, Matrix.head_cons, Matrix.cons_val_two,
        Matrix.tail_cons, Pi.add_apply, Pi.sub_apply, Pi.neg_apply, Pi.zero_apply,
        Matrix.of_apply, Matrix.cons_val', Matrix.empty_val', Matrix.cons_val_fin_one,
        Fin.zero_eta, Fin.mk_one, Fin.reduceFinMk, Matrix.vecHead, Matrix.vecTail,
        Function.comp, Fin.succ_zero_eq_one, Fin.succ_one_eq_two] <;>
      norm_num
  · funext i
    rcases hx with rfl | rfl <;>
    fin_cases i <;>
      simp only [SkewSymmetric, CrossProductMatrix, Prod.fst, Prod.snd,
        Matrix.mulVec, Matrix.dotProduct,
        Matrix.mul_apply, Matrix.add_apply, Matrix.neg_apply, Matrix.transpose_apply,
        Matrix.zero_apply, Fin.sum_univ_three,
        Matrix.cons_val_zero, Matrix.cons_val_one, Matrix.head_cons, Matrix.cons_val_two,
        Matrix.tail_cons, Pi.add_apply, Pi.sub_apply, Pi.neg_apply, Pi.zero_apply,
        Matrix.of_apply, Matrix.cons_val', Matrix.empty_val', Matrix.cons_val_fin_one,
        Fin.zero_eta, Fin.mk_one, Fin.reduceFinMk, Matrix.vecHead, Matrix.vecTail,
        Function.comp, Fin.succ_zero_eq_one, Fin.succ_one_eq_two] <;>
      norm_num <;> ring

theorem two_view_triangulation_of_baseline (u : MsckfUpdater ℝ) (x d : ℝ)
    (hx : x = 80 ∨ x = 560)
    (ho1 : (u.MatchState 1).orientation = ⟨1, 0, 0, 0⟩)
    (ho2 : (u.MatchState 2).orientation = ⟨1, 0, 0, 0⟩)
    (hp : (u.MatchState 2).position - (u.MatchState 1).position = ![d, 0, 0])
    (hw : u.m_image_width = 640) (hh : u.m_image_height = 480) :
    u.TriangulateFeature Real.sqrt (two_view_track x) =
      some (![0, 0, d * ((320 - x) / 180)] + (u.MatchState 1).position) := by
  have h0 : (two_view_track x : List (FeatureTrack ℝ)) =
      { frame_id := 1, x := 320, y := 240 } :: [{ frame_id := 2, x := x, y := 240 }] := rfl
  have hsys := two_view_system u x d hx (u.MatchState 1) rfl ho1 ho2 hp hw hh
  rw [h0] at hsys ⊢
  simp only [MsckfUpdater.TriangulateFeature, hsys]
  simp only [colPivHouseholderQrSolve, Option.some.injEq]
  have hdet : (!![41 / 25, 0, (320 - x) / 240 * (12 / 25); 0, 2, 0;
      (320 - x) / 240 * (12 / 25), 0, 9 / 25] : Matrix (Fin 3) (Fin 3) ℝ).det ≠ 0 := by
    rw [Matrix.det_fin_three]
    rcases hx with rfl | rfl <;> simp <;> norm_num
  have hsol : (!![41 / 25, 0, (320 - x) / 240 * (12 / 25); 0, 2, 0;
      (320 - x) / 240 * (12 / 25), 0, 9 / 25] : Matrix (Fin 3) (Fin 3) ℝ) *ᵥ
        ![0, 0, d * ((320 - x) / 180)] =
      ![d * (16 / 25), 0, d * ((320 - x) / 240 * (12 / 25))] := by
    funext i
    rcases hx with rfl | rfl <;>
    fin_cases i <;>
      simp [Matrix.mulVec, Matrix.dotProduct, Fin.sum_univ_three, Matrix.vecHead,
        Matrix.vecTail] <;>
      ring
  rw [inverse_mulVec_eq _ _ _ hdet hsol]
  simp only [ho1, toRotationMatrix_identity, Matrix.one_mulVec]

theorem two_view_triangulation (u : MsckfUpdater ℝ) (x : ℝ) (hx : x = 80 ∨ x = 560)
    (h1 : u.MatchState 1 = clone_one) (h2 : u.MatchState 2 = clone_two)
    (hw : u.m_image_width = 640) (hh : u.m_image_height = 480) :
    u.TriangulateFeature Real.sqrt (two_view_track x) = some ![1, 0, (320 - x) / 180] := by
  rw [two_view_triangulation_of_baseline u x 1 hx (by rw [h1]; rfl) (by rw [h2]; rfl)
    (by
      rw [h1, h2]
      funext i
      fin_cases i <;> simp [clone_one, clone_two]
      norm_num)
    hw hh, h1]
  refine congrArg some ?_
  funext i
  fin_cases i <;> simp [clone_one]

theorem two_clone_MatchState :
    (two_clone_updater : MsckfUpdater ℝ).MatchState 1 = clone_one ∧
      (two_clone_updater : MsckfUpdater ℝ).MatchState 2 = clone_two := by
  constructor <;> simp [MsckfUpdater.MatchState, two_clone_updater, clone_one, clone_two]

theorem three_clone_MatchState :
    (three_clone_updater : MsckfUpdater ℝ).MatchState 1 = clone_one ∧
      (three_clone_updater : MsckfUpdater ℝ).MatchState 2 = clone_two := by
  constructor <;>
    simp [MsckfUpdater.MatchState, three_clone_updater, clone_zero, clone_one, clone_two]

theorem norm3_ge_of_sq_le (v : Fin 3 → ℝ) (c : ℝ)
    (h : c * c ≤ v 0 * v 0 + v 1 * v 1 + v 2 * v 2) : ¬ norm3 Real.sqrt v < c := by
  rw [not_lt, norm3]
  exact Real.le_sqrt_of_sq_le (by rw [sq]; exact h)

theorem UpdateEKF_p_FinG_identity (a : AugmentedState ℝ)
    (ho : a.orientation = ⟨1, 0, 0, 0⟩) (hi : a.imu_orientation = ⟨1, 0, 0, 0⟩)
    (p : Fin 3 → ℝ) : UpdateEKF_p_FinG a p = p - a.position + a.imu_position := by
  simp [UpdateEKF_p_FinG, ho, hi, toRotationMatrix_identity]

theorem UpdateEKF_p_FinCi_identity (u : MsckfUpdater ℝ) (ft : FeatureTrack ℝ)
    (ho : (u.MatchState ft.frame_id).orientation = ⟨1, 0, 0, 0⟩)
    (hi : (u.MatchState ft.frame_id).imu_orientation = ⟨1, 0, 0, 0⟩) (p : Fin 3 → ℝ) :
    u.UpdateEKF_p_FinCi p ft =
      p - (u.MatchState ft.frame_id).imu_position + (u.MatchState ft.frame_id).position := by
  simp [MsckfUpdater.UpdateEKF_p_FinCi, ho, hi, toRotationMatrix_identity]

theorem two_clone_track (x : ℝ) (hx : x = 80 ∨ x = 560) :
    (two_clone_updater : MsckfUpdater ℝ).UpdateEKF_track Real.sqrt (two_view_track x) =
      some (some { p_FinA := ![1, 0, (320 - x) / 180],
                   p_FinG := ![0, 0, (320 - x) / 180],
                   p_FinCi := [![2, 0, (320 - x) / 180]],
                   rows := 1 }) := by
  have hT := two_view_triangulation two_clone_updater x hx two_clone_MatchState.1
    two_clone_MatchState.2 rfl rfl
  have hnorm : ¬ norm3 Real.sqrt (![1, 0, (320 - x) / 180] : Fin 3 → ℝ) < 1e-3 := by
    apply norm3_ge_of_sq_le
    rcases hx with rfl | rfl <;> simp <;> norm_num
  simp only [MsckfUpdater.UpdateEKF_track, hT, if_neg hnorm]
  have ha : (two_clone_updater : MsckfUpdater ℝ).UpdateEKF_anchor = some clone_one := rfl
  simp only [ha]
  rw [if_neg (by simp [two_view_track])]
  have hG : UpdateEKF_p_FinG (clone_one : AugmentedState ℝ) ![1, 0, (320 - x) / 180] =
      ![0, 0, (320 - x) / 180] := by
    rw [UpdateEKF_p_FinG_identity _ rfl rfl]
    funext i
    fin_cases i <;> simp [clone_one]
  have hC : (two_clone_updater : MsckfUpdater ℝ).UpdateEKF_p_FinCi ![0, 0, (320 - x) / 180]
      { frame_id := 2, x := x, y := 240 } = ![2, 0, (320 - x) / 180] := by
    rw [UpdateEKF_p_FinCi_identity _ _ (by rw [two_clone_MatchState.2]; rfl)
      (by rw [two_clone_MatchState.2]; rfl), two_clone_MatchState.2]
    funext i
    fin_cases i <;> simp [clone_two]
  simp only [hG, two_view_track, List.drop_succ_cons, List.drop_zero, List.map_cons,
    List.map_nil, hC, List.length_cons, List.length_nil]

theorem dzn_dPFC_eq (p_FinCi : Fin 3 → K) :
    dzn_dPFC p_FinCi =
      !![1 / p_FinCi 2, 0, -p_FinCi 0 / (p_FinCi 2 * p_FinCi 2);
         0, -p_FinCi 1 / (p_FinCi 2 * p_FinCi 2), 0] := by
  ext i j
  fin_cases i <;> fin_cases j <;> simp [dzn_dPFC, setCoeff]

/-- C25 (the code at a failing input): for the camera-frame point `(x, y, z) = (1, 2, 2)` the
matrix `dzn_dPFC` of `MsckfUpdater::UpdateEKF` is `[[1/2, 0, -1/4], [0, -1/2, 0]]`: the
fourth assignment of the source writes `-y/z²` to the entry `(1, 1)` again, so that entry
is `-y/z² = -1/2` and not `1/z = 1/2`, and the entry `(1, 2)` stays `0` and is not
`-y/z² = -1/2` (`dzn_dPFC_eq` gives the matrix for every point). -/
theorem dzn_dPFC_second_row_overwritten :
    dzn_dPFC (![1, 2, 2] : Fin 3 → ℝ) = !![1 / 2, 0, -1 / 4; 0, -1 / 2, 0] ∧
    dzn_dPFC (![1, 2, 2] : Fin 3 → ℝ) 1 1 ≠ 1 / 2 ∧
    dzn_dPFC (![1, 2, 2] : Fin 3 → ℝ) 1 2 ≠ -2 / (2 * 2) := by
  rw [dzn_dPFC_eq]
  refine ⟨?_, ?_, ?_⟩
  · ext i j
    fin_cases i <;> fin_cases j <;> simp <;> norm_num
  · simp
    norm_num
  · simp
    norm_num

theorem three_clone_track :
    (three_clone_updater : MsckfUpdater ℝ).UpdateEKF_track Real.sqrt (two_view_track 80) =
      some (some { p_FinA := ![1, 0, 4 / 3],
                   p_FinG := UpdateEKF_p_FinG clone_zero ![1, 0, 4 / 3],
                   p_FinCi := [![3, 0, 4 / 3]],
                   rows := 1 }) := by
  have hT := two_view_triangulation three_clone_updater 80 (Or.inl rfl)
    three_clone_MatchState.1 three_clone_MatchState.2 rfl rfl
  have h43 : ((320 - 80) / 180 : ℝ) = 4 / 3 := by norm_num
  rw [h43] at hT
  have hnorm : ¬ norm3 Real.sqrt (![1, 0, 4 / 3] : Fin 3 → ℝ) < 1e-3 := by
    apply norm3_ge_of_sq_le
    simp
    norm_num
  simp only [MsckfUpdater.UpdateEKF_track, hT, if_neg hnorm]
  have ha : (three_clone_updater : MsckfUpdater ℝ).UpdateEKF_anchor = some clone_zero := rfl
  simp only [ha]
  rw [if_neg (by simp [two_view_track])]
  have hG : UpdateEKF_p_FinG (clone_zero : AugmentedState ℝ) ![1, 0, 4 / 3] =
      ![1, 0, 4 / 3] := by
    rw [UpdateEKF_p_FinG_identity _ rfl rfl]
    funext i
    fin_cases i <;> simp [clone_zero]
  have hC : (three_clone_updater : MsckfUpdater ℝ).UpdateEKF_p_FinCi ![1, 0, 4 / 3]
      { frame_id := 2, x := 80, y := 240 } = ![3, 0, 4 / 3] := by
    rw [UpdateEKF_p_FinCi_identity _ _ (by rw [three_clone_MatchState.2]; rfl)
      (by rw [three_clone_MatchState.2]; rfl), three_clone_MatchState.2]
    funext i
    fin_cases i <;> simp [clone_two] <;> norm_num
  simp only [hG, two_view_track, List.drop_succ_cons, List.drop_zero, List.map_cons,
    List.map_nil, hC, List.length_cons, List.length_nil]

/-- C26 (the code at a failing input): the clone window holds the clones of the frames 0, 1
and 2 (at `(0,0,0)`, `(1,0,0)`, `(2,0,0)`, identity orientations) and the track was first
seen in frame 1 (pixel `(320, 240)`) and then in frame 2 (pixel `(80, 240)`).
`MsckfUpdater::UpdateEKF` takes the poses of the anchor from `m_aug_states[0]`, the clone
of frame 0, while `TriangulateFeature` takes as anchor `MatchState(feature_track[0].frame_id)`,
the clone of frame 1, and returns `(1, 0, 4/3)`.  The track is accepted and its `p_FinG`
is formed with the clone of frame 0, `(1, 0, 4/3)`; with the clone of the first point of
the track it would be `(0, 0, 4/3)`. -/
theorem UpdateEKF_anchor_is_first_clone :
    (three_clone_updater : MsckfUpdater ℝ).UpdateEKF_anchor = some clone_zero ∧
    (clone_zero : AugmentedState ℝ).frame_id = 0 ∧
    ((two_view_track 80 : List (FeatureTrack ℝ)).map (fun ft => ft.frame_id)) = [1, 2] ∧
    (three_clone_updater : MsckfUpdater ℝ).MatchState 1 = clone_one ∧
    (three_clone_updater : MsckfUpdater ℝ).TriangulateFeature Real.sqrt (two_view_track 80) =
      some ![1, 0, 4 / 3] ∧
    (three_clone_updater : MsckfUpdater ℝ).UpdateEKF_track Real.sqrt (two_view_track 80) =
      some (some { p_FinA := ![1, 0, 4 / 3],
                   p_FinG := UpdateEKF_p_FinG clone_zero ![1, 0, 4 / 3],
                   p_FinCi := [![3, 0, 4 / 3]],
                   rows := 1 }) ∧
    UpdateEKF_p_FinG (clone_zero : AugmentedState ℝ) ![1, 0, 4 / 3] = ![1, 0, 4 / 3] ∧
    UpdateEKF_p_FinG (clone_one : AugmentedState ℝ) ![1, 0, 4 / 3] = ![0, 0, 4 / 3] := by
  refine ⟨rfl, rfl, rfl, three_clone_MatchState.1, ?_, three_clone_track, ?_, ?_⟩
  · have hT := two_view_triangulation three_clone_updater 80 (Or.inl rfl)
      three_clone_MatchState.1 three_clone_MatchState.2 rfl rfl
    have h43 : ((320 - 80) / 180 : ℝ) = 4 / 3 := by norm_num
    rw [h43] at hT
    exact hT
  · rw [UpdateEKF_p_FinG_identity _ rfl rfl]
    funext i
    fin_cases i <;> simp [clone_zero]
  · rw [UpdateEKF_p_FinG_identity _ rfl rfl]
    funext i
    fin_cases i <;> simp [clone_one]

/-- C27 (the code at a failing input): the clone window holds the clones of the frames 1
and 2 (at `(1,0,0)` and `(2,0,0)`, identity orientations) and the track has the pixels
`(320, 240)` in frame 1 and `(80, 240)` in frame 2.  `TriangulateFeature` returns the
global position `(1, 0, 4/3)` (the point `(0, 0, 4/3)` of the anchor frame, lifted with the
anchor pose), the track is accepted, and `MsckfUpdater::UpdateEKF` lifts the returned
vector once more: the `p_FinG` that it projects into the clones is `(0, 0, 4/3)`, not the
position `(1, 0, 4/3)` that `TriangulateFeature` returned. -/
theorem UpdateEKF_lifts_global_point_again :
    (two_clone_updater : MsckfUpdater ℝ).TriangulateFeature Real.sqrt (two_view_track 80) =
      some ![1, 0, 4 / 3] ∧
    (two_clone_updater : MsckfUpdater ℝ).UpdateEKF_track Real.sqrt (two_view_track 80) =
      some (some { p_FinA := ![1, 0, 4 / 3], p_FinG := ![0, 0, 4 / 3],
                   p_FinCi := [![2, 0, 4 / 3]], rows := 1 }) ∧
    (![0, 0, 4 / 3] : Fin 3 → ℝ) ≠ ![1, 0, 4 / 3] := by
  have h43 : ((320 - 80) / 180 : ℝ) = 4 / 3 := by norm_num
  have hT := two_view_triangulation two_clone_updater 80 (Or.inl rfl)
    two_clone_MatchState.1 two_clone_MatchState.2 rfl rfl
  have hU := two_clone_track 80 (Or.inl rfl)
  rw [h43] at hT hU
  refine ⟨hT, hU, ?_⟩
  intro h
  have := congrFun h 0
  simp at this

/-! ## MsckfUpdater::UpdateEKF: the stacked system -/

omit [LinearOrderedField K] in
theorem max_meas_size_foldl (l : List (List (FeatureTrack K))) (s : Nat) :
    l.foldl (fun max_meas_size feature_track => max_meas_size + 2 * feature_track.length) s =
      s + (l.map (fun feature_track => 2 * feature_track.length)).sum := by
  induction l generalizing s with
  | nil => simp
  | cons t rest ih => simp [ih, Nat.add_assoc]

omit [LinearOrderedField K] in
theorem UpdateEKF_max_meas_size_insert (before after : List (List (FeatureTrack K)))
    (feature_track : List (FeatureTrack K)) :
    UpdateEKF_max_meas_size (before ++ feature_track :: after) =
      UpdateEKF_max_meas_size (before ++ after) + 2 * feature_track.length := by
  simp only [UpdateEKF_max_meas_size, max_meas_size_foldl, List.map_append, List.map_cons,
    List.sum_append, List.sum_cons]
  omega

theorem UpdateEKF_pass_of_small_norm (u : MsckfUpdater K) (sqrt : K → K)
    (cam_state_start aug_state_size : Nat) (GetAugStateStartIndex : Nat → Nat)
    {max_meas_size state_size : Nat}
    (st : Matrix (Fin max_meas_size) (Fin state_size) K × (Fin max_meas_size → K) × Nat)
    (feature_track : List (FeatureTrack K)) (p_FinA : Fin 3 → K)
    (hT : u.TriangulateFeature sqrt feature_track = some p_FinA)
    (h : norm3 sqrt p_FinA < 1e-3) :
    u.UpdateEKF_pass sqrt cam_state_start aug_state_size GetAugStateStartIndex st
      feature_track = some st := by
  simp only [MsckfUpdater.UpdateEKF_pass, hT, if_pos h]

theorem UpdateEKF_loop_skip (u : MsckfUpdater K) (sqrt : K → K)
    (cam_state_start aug_state_size : Nat) (GetAugStateStartIndex : Nat → Nat)
    (max_meas_size state_size : Nat) (before after : List (List (FeatureTrack K)))
    (feature_track : List (FeatureTrack K)) (p_FinA : Fin 3 → K)
    (hT : u.TriangulateFeature sqrt feature_track = some p_FinA)
    (h : norm3 sqrt p_FinA < 1e-3) :
    u.UpdateEKF_loop sqrt cam_state_start aug_state_size GetAugStateStartIndex max_meas_size
        state_size (before ++ feature_track :: after) =
      u.UpdateEKF_loop sqrt cam_state_start aug_state_size GetAugStateStartIndex max_meas_size
        state_size (before ++ after) := by
  simp only [MsckfUpdater.UpdateEKF_loop, List.foldlM_append, List.foldlM_cons]
  congr 1
  funext st
  rw [UpdateEKF_pass_of_small_norm u sqrt _ _ _ st feature_track p_FinA hT h]
  rfl

omit [LinearOrderedField K] in
theorem setBlock_apply_of_row_not_mem {r c p q : Nat} (M : Matrix (Fin r) (Fin c) K)
    (i0 j0 : Nat) (B : Matrix (Fin p) (Fin q) K) (i : Fin r) (j : Fin c)
    (h : i.val < i0 ∨ i0 + p ≤ i.val) : setBlock M i0 j0 B i j = M i j := by
  apply setBlock_apply_of_not_mem
  omega

omit [LinearOrderedField K] in
theorem setSegment_apply_of_not_mem {r p : Nat} (v : Fin r → K) (i0 : Nat) (w : Fin p → K)
    (i : Fin r) (h : i.val < i0 ∨ i0 + p ≤ i.val) : setSegment v i0 w i = v i := by
  simp only [setSegment]
  rw [dif_neg]
  omega

/-- The record `UpdateEKF_track` of one pass of the loop over the tracks and the pass on
the buffers agree: both are undefined, or the track is skipped and the buffers are left
alone, or `ct_meas` grows by the recorded number of rows. -/
theorem UpdateEKF_track_pass (u : MsckfUpdater K) (sqrt : K → K)
    (cam_state_start aug_state_size : Nat) (GetAugStateStartIndex : Nat → Nat)
    {max_meas_size state_size : Nat}
    (st : Matrix (Fin max_meas_size) (Fin state_size) K × (Fin max_meas_size → K) × Nat)
    (feature_track : List (FeatureTrack K)) :
    (u.UpdateEKF_track sqrt feature_track = none ∧
      u.UpdateEKF_pass sqrt cam_state_start aug_state_size GetAugStateStartIndex st
        feature_track = none) ∨
    (u.UpdateEKF_track sqrt feature_track = some none ∧
      u.UpdateEKF_pass sqrt cam_state_start aug_state_size GetAugStateStartIndex st
        feature_track = some st) ∨
    ∃ r st', u.UpdateEKF_track sqrt feature_track = some (some r) ∧
      u.UpdateEKF_pass sqrt cam_state_start aug_state_size GetAugStateStartIndex st
        feature_track = some st' ∧ st'.2.2 = st.2.2 + r.rows := by
  simp only [MsckfUpdater.UpdateEKF_track, MsckfUpdater.UpdateEKF_pass]
  cases u.TriangulateFeature sqrt feature_track with
  | none => exact Or.inl ⟨rfl, rfl⟩
  | some p_FinA =>
    simp only []
    by_cases hn : norm3 sqrt p_FinA < 1e-3
    · simp only [if_pos hn]
      exact Or.inr (Or.inl ⟨trivial, trivial⟩)
    · simp only [if_neg hn]
      cases u.UpdateEKF_anchor with
      | none => exact Or.inl ⟨rfl, rfl⟩
      | some anchor =>
        simp only []
        by_cases hl : 2 * feature_track.length < 3
        · simp only [if_pos hl]
          exact Or.inl ⟨trivial, trivial⟩
        · simp only [if_neg hl]
          exact Or.inr (Or.inr ⟨_, _, rfl, rfl, rfl⟩)

theorem vecApplyOnTheLeft_of_row_ne {r : Nat} (v : Fin r → K) (m : Nat)
    (j : JacobiRotation K) (i : Fin r) (h1 : i.val ≠ m) (h2 : i.val ≠ m + 1) :
    vecApplyOnTheLeft v m j i = v i := by
  simp only [vecApplyOnTheLeft]
  rw [blockApplyOnTheLeft_of_row_ne _ _ _ _ _ _ h1 h2]
  rfl

theorem vecApplyOnTheLeft_row_succ {r : Nat} (v : Fin r → K) (m : Nat)
    (j : JacobiRotation K) (h : m + 1 < r) :
    vecApplyOnTheLeft v m j ⟨m + 1, h⟩ =
      -j.s * v ⟨m, Nat.lt_of_succ_lt h⟩ + j.c * v ⟨m + 1, h⟩ := by
  simp only [vecApplyOnTheLeft]
  rw [blockApplyOnTheLeft_row_succ _ _ _ _ h _ (Nat.zero_le _)]
  rfl

theorem blockApplyOnTheLeft_col_zero {r c : Nat} (M : Matrix (Fin r) (Fin c) K) (m n : Nat)
    (j : JacobiRotation K) (k : Fin c) (hk : ∀ i, M i k = 0) (i : Fin r) :
    blockApplyOnTheLeft M m n j i k = 0 := by
  unfold blockApplyOnTheLeft
  by_cases h : m + 1 < r
  · simp only [dif_pos h, applyOnTheLeft, hk]
    split_ifs <;> simp
  · simp only [dif_neg h, hk]

theorem blockApplyOnTheLeft_four_row_two {c : Nat} (M : Matrix (Fin 4) (Fin c) K) (n : Nat)
    (j : JacobiRotation K) (k : Fin c) (hk : n ≤ k.val) :
    blockApplyOnTheLeft M 1 n j 2 k = -j.s * M 1 k + j.c * M 2 k :=
  blockApplyOnTheLeft_row_succ M 1 n j (by norm_num) k hk

theorem blockApplyOnTheLeft_four_row_three {c : Nat} (M : Matrix (Fin 4) (Fin c) K) (n : Nat)
    (j : JacobiRotation K) (k : Fin c) (hk : n ≤ k.val) :
    blockApplyOnTheLeft M 2 n j 3 k = -j.s * M 2 k + j.c * M 3 k :=
  blockApplyOnTheLeft_row_succ M 2 n j (by norm_num) k hk

theorem vecApplyOnTheLeft_four_row_two (v : Fin 4 → K) (j : JacobiRotation K) :
    vecApplyOnTheLeft v 1 j 2 = -j.s * v 1 + j.c * v 2 :=
  vecApplyOnTheLeft_row_succ v 1 j (by norm_num)

theorem vecApplyOnTheLeft_four_row_three (v : Fin 4 → K) (j : JacobiRotation K) :
    vecApplyOnTheLeft v 2 j 3 = -j.s * v 2 + j.c * v 3 :=
  vecApplyOnTheLeft_row_succ v 2 j (by norm_num)

/-- The last row after `ApplyLeftNullspace` for a track of two observations (4 rows, of
which the loop over the observations writes the first two) whose feature Jacobian has a
zero third column and positive entries `H_f(1, 0)`, `H_f(1, 1)`: the rotations at `(1, 0)`
and `(2, 1)` are the only ones that reach row 3, and they leave `-1/2` times row 1 there. -/
theorem leftNullspace_last_row_of_H_x {cx : Nat} (H_f : Matrix (Fin 4) (Fin 3) ℝ)
    (H_x : Matrix (Fin 4) (Fin cx) ℝ) (res : Fin 4 → ℝ)
    (h2 : ∀ k, H_f 2 k = 0) (h3 : ∀ k, H_f 3 k = 0) (hc : ∀ i, H_f i 2 = 0)
    (h10 : 0 < H_f 1 0) (h11 : 0 < H_f 1 1)
    (hx2 : ∀ k, H_x 2 k = 0) (hx3 : ∀ k, H_x 3 k = 0) (hr2 : res 2 = 0) (hr3 : res 3 = 0) :
    (∀ k, (ApplyLeftNullspace Real.sqrt H_f H_x res).2.1 3 k = -(H_x 1 k / 2)) ∧
      (ApplyLeftNullspace Real.sqrt H_f H_x res).2.2 3 = -(res 1 / 2) := by
  have hpos : (0 : ℝ) < Real.sqrt 2 := Real.sqrt_pos.mpr (by norm_num)
  have hsq : Real.sqrt 2 * Real.sqrt 2 = 2 := Real.mul_self_sqrt (by norm_num)
  have h02 : leftNullspaceStep Real.sqrt 0 (H_f, H_x, res) 2 = (H_f, H_x, res) :=
    leftNullspaceStep_of_pivot_zero _ _ _ _ (by simp [coeff, h2])
  simp only [ApplyLeftNullspace, rowsDown, List.range, List.range.loop, List.range',
    List.reverse_cons, List.reverse_nil, List.nil_append, List.cons_append,
    List.foldl_cons, List.foldl_nil, Nat.reduceSub, Nat.reduceAdd, h02]
  generalize hS2 : leftNullspaceStep Real.sqrt 0 (H_f, H_x, res) 1 = S2
  generalize hS3 : leftNullspaceStep Real.sqrt 0 S2 0 = S3
  generalize hS4 : leftNullspaceStep Real.sqrt 1 S3 2 = S4
  generalize hS5 : leftNullspaceStep Real.sqrt 1 S4 1 = S5
  -- the step (1, 0): the pivot is positive
  have hg1 : makeGivens Real.sqrt (coeff H_f 1 0) (coeff H_f 1 0) =
      { c := 1 / Real.sqrt 2, s := -1 / Real.sqrt 2 } := by
    have hc1 : coeff H_f 1 0 = H_f 1 0 := by simp [coeff]
    rw [hc1]
    exact makeGivens_self_of_pos _ h10
  have hS2f : ∀ k, S2.1 2 k = -(H_f 1 k / Real.sqrt 2) := by
    intro k
    rw [← hS2]
    simp only [leftNullspaceStep, hg1]
    rw [blockApplyOnTheLeft_four_row_two _ 0 _ k (Nat.zero_le _), h2 k]
    simp only [JacobiRotation.adjoint]
    field_simp
  have hS2x : ∀ k, S2.2.1 2 k = -(H_x 1 k / Real.sqrt 2) := by
    intro k
    rw [← hS2]
    simp only [leftNullspaceStep, hg1]
    rw [blockApplyOnTheLeft_four_row_two _ 0 _ k (Nat.zero_le _), hx2 k]
    simp only [JacobiRotation.adjoint]
    field_simp
  have hS2r : S2.2.2 2 = -(res 1 / Real.sqrt 2) := by
    rw [← hS2]
    simp only [leftNullspaceStep, hg1]
    rw [vecApplyOnTheLeft_four_row_two, hr2]
    simp only [JacobiRotation.adjoint]
    field_simp
  have hS2f3 : ∀ k, S2.1 3 k = 0 := by
    intro k
    rw [← hS2, leftNullspaceStep_of_row_ne _ _ _ _ _ _ (by decide) (by decide)]
    exact h3 k
  have hS2x3 : ∀ k, S2.2.1 3 k = 0 := by
    intro k
    rw [← hS2]
    simp only [leftNullspaceStep]
    rw [blockApplyOnTheLeft_of_row_ne _ _ _ _ _ _ (by decide) (by decide)]
    exact hx3 k
  have hS2r3 : S2.2.2 3 = 0 := by
    rw [← hS2]
    simp only [leftNullspaceStep]
    rw [vecApplyOnTheLeft_of_row_ne _ _ _ _ (by decide) (by decide)]
    exact hr3
  -- the step (0, 0) leaves the rows 2 and 3 alone
  have hS3f : ∀ k, S3.1 2 k = S2.1 2 k := by
    intro k
    rw [← hS3]
    exact leftNullspaceStep_of_row_ne _ _ _ _ _ _ (by decide) (by decide)
  have hS3x : ∀ (i : Fin 4), 2 ≤ i.val → ∀ k, S3.2.1 i k = S2.2.1 i k := by
    intro i hi k
    rw [← hS3]
    simp only [leftNullspaceStep]
    exact blockApplyOnTheLeft_of_row_ne _ _ _ _ _ _ (by omega) (by omega)
  have hS3r : ∀ (i : Fin 4), 2 ≤ i.val → S3.2.2 i = S2.2.2 i := by
    intro i hi
    rw [← hS3]
    simp only [leftNullspaceStep]
    exact vecApplyOnTheLeft_of_row_ne _ _ _ _ (by omega) (by omega)
  -- the step (2, 1): the pivot is negative
  have hp2 : coeff S3.1 2 1 < 0 := by
    have hc1 : coeff S3.1 2 1 = S3.1 2 1 := by simp [coeff]
    rw [hc1, hS3f, hS2f]
    have : 0 < H_f 1 1 / Real.sqrt 2 := div_pos h11 hpos
    linarith
  have hg2 : makeGivens Real.sqrt (coeff S3.1 2 1) (coeff S3.1 2 1) =
      { c := -1 / Real.sqrt 2, s := 1 / Real.sqrt 2 } :=
    makeGivens_self_of_neg _ hp2
  have hS4x : ∀ k, S4.2.1 3 k = -(H_x 1 k / 2) := by
    intro k
    rw [← hS4]
    simp only [leftNullspaceStep, hg2]
    rw [blockApplyOnTheLeft_four_row_three _ 0 _ k (Nat.zero_le _),
      hS3x 3 (by decide) k, hS3x 2 (by decide) k, hS2x3 k, hS2x k]
    simp only [JacobiRotation.adjoint]
    field_simp
  have hS4r : S4.2.2 3 = -(res 1 / 2) := by
    rw [← hS4]
    simp only [leftNullspaceStep, hg2]
    rw [vecApplyOnTheLeft_four_row_three, hS3r 3 (by decide), hS3r 2 (by decide), hS2r3,
      hS2r]
    simp only [JacobiRotation.adjoint]
    field_simp
  -- the step (1, 1) leaves row 3 alone
  have hS5x : ∀ k, S5.2.1 3 k = S4.2.1 3 k := by
    intro k
    rw [← hS5]
    simp only [leftNullspaceStep]
    exact blockApplyOnTheLeft_of_row_ne _ _ _ _ _ _ (by decide) (by decide)
  have hS5r : S5.2.2 3 = S4.2.2 3 := by
    rw [← hS5]
    simp only [leftNullspaceStep]
    exact vecApplyOnTheLeft_of_row_ne _ _ _ _ (by decide) (by decide)
  -- the third column of `H_f` stays zero, so the step (2, 2) does nothing
  have hcol2 : ∀ i, S2.1 i 2 = 0 := by
    intro i
    rw [← hS2]
    simp only [leftNullspaceStep]
    exact blockApplyOnTheLeft_col_zero _ _ _ _ _ hc i
  have hcol3 : ∀ i, S3.1 i 2 = 0 := by
    intro i
    rw [← hS3]
    simp only [leftNullspaceStep]
    exact blockApplyOnTheLeft_col_zero _ _ _ _ _ hcol2 i
  have hcol4 : ∀ i, S4.1 i 2 = 0 := by
    intro i
    rw [← hS4]
    simp only [leftNullspaceStep]
    exact blockApplyOnTheLeft_col_zero _ _ _ _ _ hcol3 i
  have hcol5 : ∀ i, S5.1 i 2 = 0 := by
    intro i
    rw [← hS5]
    simp only [leftNullspaceStep]
    exact blockApplyOnTheLeft_col_zero _ _ _ _ _ hcol4 i
  have h22 : leftNullspaceStep Real.sqrt 2 S5 2 = S5 :=
    leftNullspaceStep_of_pivot_zero _ _ _ _ (by simp [coeff, hcol5])
  rw [h22]
  exact ⟨fun k => by rw [hS5x, hS4x], by rw [hS5r, hS4r]⟩

theorem compressStep_of_pivot_zero {r c : Nat} (sqrt : K → K) (n m : Nat)
    (st : Matrix (Fin r) (Fin c) K × (Fin r → K))
    (h : coeff st.1 m n = 0) : compressStep sqrt n st m = st := by
  simp only [compressStep, h, makeGivens_zero, blockApplyOnTheLeft_identity,
    vecApplyOnTheLeft_identity]

theorem blockApplyOnTheLeft_row_self {r c : Nat} (M : Matrix (Fin r) (Fin c) K) (m n : Nat)
    (j : JacobiRotation K) (h : m + 1 < r) (k : Fin c) (hk : n ≤ k.val) :
    blockApplyOnTheLeft M m n j ⟨m, Nat.lt_of_succ_lt h⟩ k =
      j.c * M ⟨m, Nat.lt_of_succ_lt h⟩ k + j.s * M ⟨m + 1, h⟩ k := by
  unfold blockApplyOnTheLeft
  simp only [dif_pos h, if_pos hk, applyOnTheLeft, if_true]

theorem vecApplyOnTheLeft_row_self {r : Nat} (v : Fin r → K) (m : Nat)
    (j : JacobiRotation K) (h : m + 1 < r) :
    vecApplyOnTheLeft v m j ⟨m, Nat.lt_of_succ_lt h⟩ =
      j.c * v ⟨m, Nat.lt_of_succ_lt h⟩ + j.s * v ⟨m + 1, h⟩ := by
  simp only [vecApplyOnTheLeft]
  rw [blockApplyOnTheLeft_row_self _ _ _ _ h _ (Nat.zero_le _)]
  rfl

/-- The rows that a skipped track of two observations leaves reserved change the system
that is handed to the Kalman update: the 2 x 2 system `[[0, 0], [1, 0]]` is kept as it is
(`CompressMeasurements` does nothing when `rows > cols` fails), and with four zero rows
below it `CompressMeasurements` rotates the rows 1 and 2, and the first
`min(rows, cols) = 2` rows that are kept have the Jacobian entry `(1, 0) = 1/√2` and the
residual entry `1/√2` in place of `1` and `1`. -/
theorem compressedSystem_of_reserved_rows :
    (compressedSystem Real.sqrt (!![0, 0; 1, 0] : Matrix (Fin 2) (Fin 2) ℝ) ![0, 1]).map
        (fun sys => (coeff sys.1 1 0, coeff (Matrix.col (Fin 1) sys.2) 1 0)) = some (1, 1) ∧
      (compressedSystem Real.sqrt
          (!![0, 0; 1, 0; 0, 0; 0, 0; 0, 0; 0, 0] : Matrix (Fin 6) (Fin 2) ℝ)
          ![0, 1, 0, 0, 0, 0]).map
        (fun sys => (coeff sys.1 1 0, coeff (Matrix.col (Fin 1) sys.2) 1 0)) =
          some (1 / Real.sqrt 2, 1 / Real.sqrt 2) := by
  constructor
  · have hmin : min 2 2 ≠ 1 := by decide
    simp only [compressedSystem, if_neg hmin, Option.map_some', Option.some.injEq]
    simp [coeff, CompressMeasurements]
  · have hmin : min 6 2 ≠ 1 := by decide
    have hA : ∀ (i : Fin 6) (k : Fin 2),
        (!![0, 0; 1, 0; 0, 0; 0, 0; 0, 0; 0, 0] : Matrix (Fin 6) (Fin 2) ℝ) i k =
          if i = 1 ∧ k = 0 then 1 else 0 := by
      intro i k
      fin_cases i <;> fin_cases k <;> rfl
    generalize hAdef : (!![0, 0; 1, 0; 0, 0; 0, 0; 0, 0; 0, 0] : Matrix (Fin 6) (Fin 2) ℝ) = A
      at hA
    have hres : ∀ i : Fin 6, (![0, 1, 0, 0, 0, 0] : Fin 6 → ℝ) i = if i = 1 then 1 else 0 := by
      intro i
      fin_cases i <;> rfl
    generalize (![0, 1, 0, 0, 0, 0] : Fin 6 → ℝ) = res at hres
    have hr0 : rowsDown 6 0 = [4, 3, 2, 1, 0] := rfl
    have hr1 : rowsDown 6 1 = [4, 3, 2, 1] := rfl
    have hl : List.range 2 = [0, 1] := rfl
    have hz : ∀ (m n : Nat), ¬ (m = 1 ∧ n = 0) → coeff A m n = 0 := by
      intro m n h
      simp only [coeff]
      split_ifs with h1
      · rw [hA, if_neg]
        intro h2
        apply h
        exact ⟨congrArg Fin.val h2.1, congrArg Fin.val h2.2⟩
      · rfl
    have hc1 : coeff A 1 0 = 1 := by
      simp only [coeff]
      rw [dif_pos (by decide), hA]
      simp
    have hg : makeGivens Real.sqrt (coeff A 1 0) (coeff A 1 0) =
        { c := 1 / Real.sqrt 2, s := -1 / Real.sqrt 2 } := by
      rw [hc1]
      exact makeGivens_self_of_pos 1 (by norm_num)
    generalize hS : compressStep Real.sqrt 0 (A, res) 1 = S
    have hS00 : coeff S.1 0 0 = 0 := by
      rw [← hS]
      simp only [compressStep, coeff]
      rw [dif_pos (by decide), blockApplyOnTheLeft_of_row_ne _ _ _ _ _ _ (by decide) (by decide),
        hA]
      simp
    have hScol : ∀ i, S.1 i 1 = 0 := by
      intro i
      rw [← hS]
      simp only [compressStep]
      exact blockApplyOnTheLeft_col_zero _ _ _ _ _ (fun i => by rw [hA]; simp) i
    have hSc : ∀ m, coeff S.1 m 1 = 0 := by
      intro m
      simp only [coeff]
      split_ifs with h1
      · exact hScol _
      · rfl
    have hS10 : S.1 1 0 = 1 / Real.sqrt 2 := by
      rw [← hS]
      simp only [compressStep, hg]
      have e := blockApplyOnTheLeft_row_self A 1 0
        (JacobiRotation.adjoint { c := 1 / Real.sqrt 2, s := -1 / Real.sqrt 2 })
        (by norm_num : 1 + 1 < 6) 0 (Nat.le_refl _)
      have e2 : blockApplyOnTheLeft A 1 0
          (JacobiRotation.adjoint { c := 1 / Real.sqrt 2, s := -1 / Real.sqrt 2 }) 1 0 =
          (JacobiRotation.adjoint { c := 1 / Real.sqrt 2, s := -1 / Real.sqrt 2 }).c * A 1 0 +
            (JacobiRotation.adjoint { c := 1 / Real.sqrt 2, s := -1 / Real.sqrt 2 }).s *
              A 2 0 := e
      rw [e2, hA, hA]
      simp [JacobiRotation.adjoint]
    have hS1 : S.2 1 = 1 / Real.sqrt 2 := by
      rw [← hS]
      simp only [compressStep, hg]
      have e := vecApplyOnTheLeft_row_self res 1
        (JacobiRotation.adjoint { c := 1 / Real.sqrt 2, s := -1 / Real.sqrt 2 })
        (by norm_num : 1 + 1 < 6)
      have e2 : vecApplyOnTheLeft res 1
          (JacobiRotation.adjoint { c := 1 / Real.sqrt 2, s := -1 / Real.sqrt 2 }) 1 =
          (JacobiRotation.adjoint { c := 1 / Real.sqrt 2, s := -1 / Real.sqrt 2 }).c * res 1 +
            (JacobiRotation.adjoint { c := 1 / Real.sqrt 2, s := -1 / Real.sqrt 2 }).s *
              res 2 := e
      rw [e2, hres, hres]
      simp [JacobiRotation.adjoint]
    have hC : CompressMeasurements Real.sqrt A res = S := by
      simp only [CompressMeasurements, if_pos (by decide : 6 > 2), hl, hr0, hr1,
        List.foldl_cons, List.foldl_nil]
      rw [compressStep_of_pivot_zero _ 0 4 _ (hz 4 0 (by decide)),
        compressStep_of_pivot_zero _ 0 3 _ (hz 3 0 (by decide)),
        compressStep_of_pivot_zero _ 0 2 _ (hz 2 0 (by decide)), hS,
        compressStep_of_pivot_zero _ 0 0 _ hS00,
        compressStep_of_pivot_zero _ 1 4 _ (hSc 4),
        compressStep_of_pivot_zero _ 1 3 _ (hSc 3),
        compressStep_of_pivot_zero _ 1 2 _ (hSc 2),
        compressStep_of_pivot_zero _ 1 1 _ (hSc 1)]
    simp only [compressedSystem, if_neg hmin, Option.map_some', Option.some.injEq, hC]
    simp only [coeff]
    rw [dif_pos (by decide), dif_pos (by decide)]
    exact Prod.ext hS10 hS1

theorem getBlock_top_setBlock {M M' S p q : Nat} (hM : M ≤ M')
    (A : Matrix (Fin M') (Fin S) K) (i0 j0 : Nat) (B : Matrix (Fin p) (Fin q) K) :
    getBlock (setBlock A i0 j0 B) 0 0 M S = setBlock (getBlock A 0 0 M S) i0 j0 B := by
  ext i j
  have hi := i.isLt
  have hj := j.isLt
  have h1 : i.val < M' ∧ j.val < S := ⟨by omega, by omega⟩
  simp only [getBlock, coeff, setBlock, Nat.zero_add, dif_pos h1]

theorem getSegment_top_setSegment {M M' p : Nat} (hM : M ≤ M')
    (v : Fin M' → K) (i0 : Nat) (w : Fin p → K) :
    getSegment (setSegment v i0 w) 0 M = setSegment (getSegment v 0 M) i0 w := by
  funext i
  have hi := i.isLt
  have h1 : i.val < M' := by omega
  simp only [getSegment, setSegment, Nat.zero_add, dif_pos h1]

/-- One pass of the loop over the tracks on two buffers of the heights `M ≤ M'`, the taller
of which is the shorter with zero rows below: both passes fail, or both succeed and the
taller buffer is again the shorter with zero rows below. -/
theorem UpdateEKF_pass_zero_rows (u : MsckfUpdater K) (sqrt : K → K)
    (cam_state_start aug_state_size : Nat) (GetAugStateStartIndex : Nat → Nat)
    {M M' state_size : Nat} (hM : M ≤ M')
    (st : Matrix (Fin M) (Fin state_size) K × (Fin M → K) × Nat)
    (st' : Matrix (Fin M') (Fin state_size) K × (Fin M' → K) × Nat)
    (feature_track : List (FeatureTrack K))
    (hcap : st.2.2 + 2 * feature_track.length ≤ M)
    (hrel : st'.2.2 = st.2.2 ∧ getBlock st'.1 0 0 M state_size = st.1 ∧
      getSegment st'.2.1 0 M = st.2.1 ∧ (∀ i j, M ≤ i.val → st'.1 i j = 0) ∧
      (∀ i, M ≤ i.val → st'.2.1 i = 0)) :
    (u.UpdateEKF_pass sqrt cam_state_start aug_state_size GetAugStateStartIndex st
        feature_track = none ∧
      u.UpdateEKF_pass sqrt cam_state_start aug_state_size GetAugStateStartIndex st'
        feature_track = none) ∨
    ∃ o o', u.UpdateEKF_pass sqrt cam_state_start aug_state_size GetAugStateStartIndex st
        feature_track = some o ∧
      u.UpdateEKF_pass sqrt cam_state_start aug_state_size GetAugStateStartIndex st'
        feature_track = some o' ∧
      o.2.2 ≤ st.2.2 + 2 * feature_track.length ∧
      o'.2.2 = o.2.2 ∧ getBlock o'.1 0 0 M state_size = o.1 ∧
      getSegment o'.2.1 0 M = o.2.1 ∧ (∀ i j, M ≤ i.val → o'.1 i j = 0) ∧
      (∀ i, M ≤ i.val → o'.2.1 i = 0) := by
  obtain ⟨hct, hH, hr, hz, hzr⟩ := hrel
  simp only [MsckfUpdater.UpdateEKF_pass]
  cases hT : u.TriangulateFeature sqrt feature_track with
  | none => exact Or.inl ⟨rfl, rfl⟩
  | some p_FinA =>
    simp only []
    by_cases hn : norm3 sqrt p_FinA < 1e-3
    · simp only [if_pos hn]
      exact Or.inr ⟨st, st', rfl, rfl, by omega, hct, hH, hr, hz, hzr⟩
    · simp only [if_neg hn]
      cases ha : u.UpdateEKF_anchor with
      | none => exact Or.inl ⟨rfl, rfl⟩
      | some anchor =>
        simp only []
        by_cases hl : 2 * feature_track.length < 3
        · simp only [if_pos hl]
          exact Or.inl ⟨trivial, trivial⟩
        · simp only [if_neg hl]
          refine Or.inr ⟨_, _, rfl, rfl, by simp only; omega, by simp only [hct], ?_, ?_, ?_, ?_⟩
          · simp only
            rw [getBlock_top_setBlock hM, hH, hct]
          · simp only
            rw [getSegment_top_setSegment hM, hr, hct]
          · intro i j hi
            simp only
            rw [setBlock_apply_of_row_not_mem _ _ _ _ _ _ (by omega)]
            exact hz i j hi
          · intro i hi
            simp only
            rw [setSegment_apply_of_not_mem _ _ _ _ (by omega)]
            exact hzr i hi

/-- The loop over the tracks on two buffers of the heights `M ≤ M'`, the taller of which is
the shorter with zero rows below, when the shorter has room for all the tracks. -/
theorem UpdateEKF_foldlM_zero_rows (u : MsckfUpdater K) (sqrt : K → K)
    (cam_state_start aug_state_size : Nat) (GetAugStateStartIndex : Nat → Nat)
    {M M' state_size : Nat} (hM : M ≤ M') (feature_tracks : List (List (FeatureTrack K))) :
    ∀ (st : Matrix (Fin M) (Fin state_size) K × (Fin M → K) × Nat)
      (st' : Matrix (Fin M') (Fin state_size) K × (Fin M' → K) × Nat),
      st.2.2 + (feature_tracks.map (fun feature_track => 2 * feature_track.length)).sum ≤ M →
      (st'.2.2 = st.2.2 ∧ getBlock st'.1 0 0 M state_size = st.1 ∧
        getSegment st'.2.1 0 M = st.2.1 ∧ (∀ i j, M ≤ i.val → st'.1 i j = 0) ∧
        (∀ i, M ≤ i.val → st'.2.1 i = 0)) →
      (feature_tracks.foldlM
          (u.UpdateEKF_pass sqrt cam_state_start aug_state_size GetAugStateStartIndex) st =
          none ∧
        feature_tracks.foldlM
          (u.UpdateEKF_pass sqrt cam_state_start aug_state_size GetAugStateStartIndex) st' =
          none) ∨
      ∃ o o', feature_tracks.foldlM
          (u.UpdateEKF_pass sqrt cam_state_start aug_state_size GetAugStateStartIndex) st =
          some o ∧
        feature_tracks.foldlM
          (u.UpdateEKF_pass sqrt cam_state_start aug_state_size GetAugStateStartIndex) st' =
          some o' ∧
        o'.2.2 = o.2.2 ∧ getBlock o'.1 0 0 M state_size = o.1 ∧
        getSegment o'.2.1 0 M = o.2.1 ∧ (∀ i j, M ≤ i.val → o'.1 i j = 0) ∧
        (∀ i, M ≤ i.val → o'.2.1 i = 0) := by
  induction feature_tracks with
  | nil =>
    intro st st' _ hrel
    exact Or.inr ⟨st, st', rfl, rfl, hrel⟩
  | cons feature_track rest ih =>
    intro st st' hcap hrel
    simp only [List.map_cons, List.sum_cons] at hcap
    simp only [List.foldlM_cons]
    rcases UpdateEKF_pass_zero_rows u sqrt cam_state_start aug_state_size
      GetAugStateStartIndex hM st st' feature_track (by omega) hrel with
      ⟨h1, h2⟩ | ⟨o, o', h1, h2, hle, hrel'⟩
    · rw [h1, h2]
      exact Or.inl ⟨rfl, rfl⟩
    · rw [h1, h2]
      exact ih o o' (by omega) hrel'

/-- The system that the loop over the tracks builds in the buffers of `max_meas_size` rows
and in taller buffers: the taller ones hold the same rows and zero rows below. -/
theorem UpdateEKF_loop_zero_rows (u : MsckfUpdater K) (sqrt : K → K)
    (cam_state_start aug_state_size : Nat) (GetAugStateStartIndex : Nat → Nat)
    (M' state_size : Nat) (feature_tracks : List (List (FeatureTrack K)))
    (hM : UpdateEKF_max_meas_size feature_tracks ≤ M') :
    (u.UpdateEKF_loop sqrt cam_state_start aug_state_size GetAugStateStartIndex
          (UpdateEKF_max_meas_size feature_tracks) state_size feature_tracks = none ∧
      u.UpdateEKF_loop sqrt cam_state_start aug_state_size GetAugStateStartIndex
          M' state_size feature_tracks = none) ∨
    ∃ o o', u.UpdateEKF_loop sqrt cam_state_start aug_state_size GetAugStateStartIndex
          (UpdateEKF_max_meas_size feature_tracks) state_size feature_tracks = some o ∧
      u.UpdateEKF_loop sqrt cam_state_start aug_state_size GetAugStateStartIndex
          M' state_size feature_tracks = some o' ∧
      o'.2.2 = o.2.2 ∧
      getBlock o'.1 0 0 (UpdateEKF_max_meas_size feature_tracks) state_size = o.1 ∧
      getSegment o'.2.1 0 (UpdateEKF_max_meas_size feature_tracks) = o.2.1 ∧
      (∀ i j, UpdateEKF_max_meas_size feature_tracks ≤ i.val → o'.1 i j = 0) ∧
      (∀ i, UpdateEKF_max_meas_size feature_tracks ≤ i.val → o'.2.1 i = 0) := by
  refine UpdateEKF_foldlM_zero_rows u sqrt cam_state_start aug_state_size
    GetAugStateStartIndex hM feature_tracks (0, 0, 0) (0, 0, 0) ?_ ⟨rfl, ?_, ?_, ?_, ?_⟩
  · simp only [UpdateEKF_max_meas_size, max_meas_size_foldl]
    omega
  · ext i j
    simp [getBlock, coeff]
  · funext i
    simp [getSegment]
  · intro i j _
    rfl
  · intro i _
    rfl

theorem turned_clone_MatchState :
    (turned_clone_updater : MsckfUpdater ℝ).MatchState 1 = clone_one_turned ∧
      (turned_clone_updater : MsckfUpdater ℝ).MatchState 2 = clone_two_moved := by
  constructor <;>
    simp [MsckfUpdater.MatchState, turned_clone_updater, clone_one_turned, clone_two_moved]

theorem turned_clone_triangulation :
    (turned_clone_updater : MsckfUpdater ℝ).TriangulateFeature Real.sqrt (two_view_track 560) =
      some ![1, 0, -4 / 3] := by
  rw [two_view_triangulation_of_baseline turned_clone_updater 560 1 (Or.inr rfl)
    (by rw [turned_clone_MatchState.1]; rfl) (by rw [turned_clone_MatchState.2]; rfl)
    (by
      rw [turned_clone_MatchState.1, turned_clone_MatchState.2]
      funext i
      fin_cases i <;> simp [clone_one_turned, clone_two_moved]
      norm_num)
    rfl rfl, turned_clone_MatchState.1]
  refine congrArg some ?_
  funext i
  fin_cases i <;> simp [clone_one_turned]
  norm_num

theorem UpdateEKF_pass_two_views (u : MsckfUpdater K) (sqrt : K → K)
    (cam_state_start aug_state_size : Nat) (GetAugStateStartIndex : Nat → Nat)
    {max_meas_size state_size : Nat}
    (st : Matrix (Fin max_meas_size) (Fin state_size) K × (Fin max_meas_size → K) × Nat)
    (ft0 ft1 : FeatureTrack K) (p_FinA : Fin 3 → K) (anchor : AugmentedState K)
    (hT : u.TriangulateFeature sqrt [ft0, ft1] = some p_FinA)
    (hn : ¬ norm3 sqrt p_FinA < 1e-3) (ha : u.UpdateEKF_anchor = some anchor)
    (J : (Fin 4 → K) × Matrix (Fin 4) (Fin 3) K × Matrix (Fin 4) (Fin aug_state_size) K)
    (hJ : u.UpdateEKF_jacobians cam_state_start GetAugStateStartIndex anchor p_FinA 4
      aug_state_size [ft0, ft1] = J) :
    u.UpdateEKF_pass sqrt cam_state_start aug_state_size GetAugStateStartIndex st [ft0, ft1] =
      some
        (setBlock st.1 st.2.2 cam_state_start
          (getBlock (ApplyLeftNullspace sqrt J.2.1 J.2.2 J.1).2.1 3 0 1 aug_state_size),
        setSegment st.2.1 st.2.2 (getSegment (ApplyLeftNullspace sqrt J.2.1 J.2.2 J.1).2.2 3 1),
        st.2.2 + 1) := by
  simp only [MsckfUpdater.UpdateEKF_pass, hT, if_neg hn, ha]
  rw [← hJ]
  rfl

theorem toRotationMatrix_turned :
    (⟨4 / 5, 0, 0, 3 / 5⟩ : Quaterniond ℝ).toRotationMatrix =
      !![7 / 25, -(24 / 25), 0; 24 / 25, 7 / 25, 0; 0, 0, 1] := by
  ext i j
  fin_cases i <;> fin_cases j <;>
    simp [Quaterniond.toRotationMatrix, Matrix.vecHead, Matrix.vecTail] <;> norm_num

theorem turned_clone_p_FinG :
    UpdateEKF_p_FinG (clone_one_turned : AugmentedState ℝ) ![1, 0, -4 / 3] =
      ![0, 0, -4 / 3] := by
  simp only [UpdateEKF_p_FinG, clone_one_turned, toRotationMatrix_identity,
    toRotationMatrix_turned, Matrix.transpose_transpose, Matrix.mul_one]
  funext i
  fin_cases i <;>
    simp [Matrix.mulVec, Matrix.dotProduct, Fin.sum_univ_three, Matrix.vecHead,
      Matrix.vecTail]

theorem turned_clone_p_FinCi :
    (turned_clone_updater : MsckfUpdater ℝ).UpdateEKF_p_FinCi ![0, 0, -4 / 3]
      { frame_id := 2, x := 560, y := 240 } = ![0, -1, -4 / 3] := by
  rw [UpdateEKF_p_FinCi_identity _ _ (by rw [turned_clone_MatchState.2]; rfl)
    (by rw [turned_clone_MatchState.2]; rfl), turned_clone_MatchState.2]
  funext i
  fin_cases i <;> simp [clone_two_moved]

/-- The residual and the Jacobians of the track `two_view_track 560` for
`turned_clone_updater` before `ApplyLeftNullspace`. -/
theorem turned_clone_jacobians :
    ∃ J : (Fin 4 → ℝ) × Matrix (Fin 4) (Fin 3) ℝ × Matrix (Fin 4) (Fin 24) ℝ,
      (turned_clone_updater : MsckfUpdater ℝ).UpdateEKF_jacobians 18
        two_clone_GetAugStateStartIndex clone_one_turned ![1, 0, -4 / 3] 4 24
        (two_view_track 560) = J ∧
      (∀ k, J.2.1 2 k = 0) ∧ (∀ k, J.2.1 3 k = 0) ∧ (∀ i, J.2.1 i 2 = 0) ∧
      J.2.1 1 0 = 27 / 50 ∧ J.2.1 1 1 = 63 / 400 ∧
      (∀ k, J.2.2 2 k = 0) ∧ (∀ k, J.2.2 3 k = 0) ∧ J.1 2 = 0 ∧ J.1 3 = 0 ∧
      J.2.2 1 16 = 9 / 16 ∧ J.1 1 = 957 / 4 := by
  refine ⟨_, rfl, ?_⟩
  have hJ : (turned_clone_updater : MsckfUpdater ℝ).UpdateEKF_jacobians 18
      two_clone_GetAugStateStartIndex clone_one_turned ![1, 0, -4 / 3] 4 24
      (two_view_track 560) =
      (turned_clone_updater : MsckfUpdater ℝ).UpdateEKF_observation 18
        two_clone_GetAugStateStartIndex ![0, 0, -4 / 3]
        (UpdateEKF_H_anc clone_one_turned ![1, 0, -4 / 3])
        (UpdateEKF_H_calib clone_one_turned ![1, 0, -4 / 3])
        ((clone_one_turned : AugmentedState ℝ).imu_orientation.toRotationMatrixᵀᵀ *
          (clone_one_turned : AugmentedState ℝ).orientation.toRotationMatrix)
        (0, 0, 0) 1 { frame_id := 2, x := 560, y := 240 } := by
    rw [← turned_clone_p_FinG]
    rfl
  rw [hJ]
  have hC : (1 : Matrix (Fin 3) (Fin 3) ℝ) *ᵥ
      ((1 : Matrix (Fin 3) (Fin 3) ℝ) *ᵥ ((![0, 0, -4 / 3] : Fin 3 → ℝ) - ![2, 1, 0])) +
        ![2, 0, 0] = ![0, -1, -4 / 3] := by
    funext i
    fin_cases i <;> simp
  have hD : dzn_dPFC (![0, -1, -4 / 3] : Fin 3 → ℝ) = !![-(3 / 4), 0, 0; 0, 9 / 16, 0] := by
    rw [dzn_dPFC_eq]
    ext i j
    fin_cases i <;> fin_cases j <;> simp <;> norm_num
  simp only [MsckfUpdater.UpdateEKF_observation, turned_clone_MatchState.2, clone_two_moved,
    clone_one_turned, toRotationMatrix_identity, toRotationMatrix_turned,
    Matrix.transpose_one, Matrix.transpose_transpose, Matrix.mul_one, hC, hD]
  refine ⟨?_, ?_, ?_, ?_, ?_, ?_, ?_, ?_, ?_, ?_, ?_⟩
  · intro k
    rw [setBlock_apply_of_row_not_mem _ _ _ _ _ _ (by decide)]
    rfl
  · intro k
    rw [setBlock_apply_of_row_not_mem _ _ _ _ _ _ (by decide)]
    rfl
  · intro i
    fin_cases i <;>
      simp [setBlock, Matrix.mul_apply, Fin.sum_univ_three, Matrix.vecHead, Matrix.vecTail]
  · simp [setBlock, Matrix.mul_apply, Fin.sum_univ_three, Matrix.vecHead, Matrix.vecTail]
    norm_num
  · simp [setBlock, Matrix.mul_apply, Fin.sum_univ_three, Matrix.vecHead, Matrix.vecTail]
    norm_num
  · intro k
    simp only [addBlock]
    rw [setBlock_apply_of_row_not_mem _ _ _ _ _ _ (by decide),
      setBlock_apply_of_row_not_mem _ _ _ _ _ _ (by decide),
      setBlock_apply_of_row_not_mem _ _ _ _ _ _ (by decide),
      setBlock_apply_of_row_not_mem _ _ _ _ _ _ (by decide)]
    rfl
  · intro k
    simp only [addBlock]
    rw [setBlock_apply_of_row_not_mem _ _ _ _ _ _ (by decide),
      setBlock_apply_of_row_not_mem _ _ _ _ _ _ (by decide),
      setBlock_apply_of_row_not_mem _ _ _ _ _ _ (by decide),
      setBlock_apply_of_row_not_mem _ _ _ _ _ _ (by decide)]
    rfl
  · rw [setSegment_apply_of_not_mem _ _ _ _ (by decide)]
    rfl
  · rw [setSegment_apply_of_not_mem _ _ _ _ (by decide)]
    rfl
  · simp [addBlock, setBlock, getBlock, coeff, two_clone_GetAugStateStartIndex,
      UpdateEKF_H_anc, UpdateEKF_H_calib, Matrix.mul_apply, Fin.sum_univ_three,
      Matrix.vecHead, Matrix.vecTail, Fin.coe_ofNat_eq_mod]
    simp [Matrix.vecMul, Matrix.dotProduct, Fin.sum_univ_three, setBlock,
      Fin.coe_ofNat_eq_mod, Matrix.one_apply]
  · simp [setSegment]
    norm_num

/-- C28 (counterexample): the clone window holds the clones of the frames 1 and 2 with
identity camera orientations and the camera positions `(1, 0, 0)` and `(2, 0, 0)` (the body
of the first clone is turned about the z axis, that of the second is at `(2, 1, 0)`), in a
state of one camera (`cam_state_start = 18`, clones at 24 and 36, 48 columns); the track
has the pixels `(320, 240)` in frame 1 and `(560, 240)` in frame 2.  `TriangulateFeature`
returns `(1, 0, -4/3)`: in the camera frame of the first clone the point is
`(0, 0, -4/3)`, behind the camera, and the point `p_FinCi` that `MsckfUpdater::UpdateEKF`
projects into the clone of frame 2 is `(0, -1, -4/3)`, of depth `-4/3 ≤ 0`.  The track is
not rejected: `max_meas_size = 4`, the loop over the tracks ends with `ct_meas = 1`, and
the row that was written to `Hx_big` and `res_big` is not zero (`Hx_big(0, 34) = -9/32`,
`res_big(0) = -957/8`). -/
theorem UpdateEKF_appends_row_for_point_behind_cameras :
    (turned_clone_updater : MsckfUpdater ℝ).TriangulateFeature Real.sqrt (two_view_track 560) =
      some ![1, 0, -4 / 3] ∧
    (turned_clone_updater : MsckfUpdater ℝ).MatchState 1 = clone_one_turned ∧
    (turned_clone_updater : MsckfUpdater ℝ).MatchState 2 = clone_two_moved ∧
    (clone_one_turned : AugmentedState ℝ).orientation.toRotationMatrixᵀ *ᵥ
        ((![1, 0, -4 / 3] : Fin 3 → ℝ) - (clone_one_turned : AugmentedState ℝ).position) =
      ![0, 0, -4 / 3] ∧
    (turned_clone_updater : MsckfUpdater ℝ).UpdateEKF_anchor = some clone_one_turned ∧
    UpdateEKF_p_FinG (clone_one_turned : AugmentedState ℝ) ![1, 0, -4 / 3] = ![0, 0, -4 / 3] ∧
    (turned_clone_updater : MsckfUpdater ℝ).UpdateEKF_p_FinCi ![0, 0, -4 / 3]
      { frame_id := 2, x := 560, y := 240 } = ![0, -1, -4 / 3] ∧
    (turned_clone_updater : MsckfUpdater ℝ).UpdateEKF_p_FinCi ![0, 0, -4 / 3]
      { frame_id := 2, x := 560, y := 240 } 2 ≤ 0 ∧
    UpdateEKF_max_meas_size [(two_view_track 560 : List (FeatureTrack ℝ))] = 4 ∧
    ∃ (Hx_big : Matrix (Fin 4) (Fin 48) ℝ) (res_big : Fin 4 → ℝ),
      (turned_clone_updater : MsckfUpdater ℝ).UpdateEKF_loop Real.sqrt 18 24
          two_clone_GetAugStateStartIndex 4 48 [two_view_track 560] =
        some (Hx_big, res_big, 1) ∧
      Hx_big 0 34 = -(9 / 32) ∧ res_big 0 = -(957 / 8) := by
  have hnorm : ¬ norm3 Real.sqrt (![1, 0, -4 / 3] : Fin 3 → ℝ) < 1e-3 := by
    apply norm3_ge_of_sq_le
    simp
    norm_num
  obtain ⟨J, hJ, hf2, hf3, hc, h10, h11, hx2, hx3, hr2, hr3, hx, hr⟩ := turned_clone_jacobians
  have hN := leftNullspace_last_row_of_H_x J.2.1 J.2.2 J.1 hf2 hf3 hc
    (by rw [h10]; norm_num) (by rw [h11]; norm_num) hx2 hx3 hr2 hr3
  have hP := UpdateEKF_pass_two_views (turned_clone_updater : MsckfUpdater ℝ) Real.sqrt 18 24
    two_clone_GetAugStateStartIndex
    ((0 : Matrix (Fin 4) (Fin 48) ℝ), (0 : Fin 4 → ℝ), 0)
    { frame_id := 1, x := 320, y := 240 } { frame_id := 2, x := 560, y := 240 }
    ![1, 0, -4 / 3] clone_one_turned turned_clone_triangulation hnorm rfl J hJ
  refine ⟨turned_clone_triangulation, turned_clone_MatchState.1, turned_clone_MatchState.2, ?_,
    rfl, turned_clone_p_FinG, turned_clone_p_FinCi, ?_, rfl,
    setBlock 0 0 18 (getBlock (ApplyLeftNullspace Real.sqrt J.2.1 J.2.2 J.1).2.1 3 0 1 24),
    setSegment 0 0 (getSegment (ApplyLeftNullspace Real.sqrt J.2.1 J.2.2 J.1).2.2 3 1),
    ?_, ?_, ?_⟩
  · simp only [clone_one_turned, toRotationMatrix_identity, Matrix.transpose_one,
      Matrix.one_mulVec]
    funext i
    fin_cases i <;> simp
  · rw [turned_clone_p_FinCi]
    norm_num
  · simp only [MsckfUpdater.UpdateEKF_loop, List.foldlM_cons, List.foldlM_nil]
    have h0 : (two_view_track 560 : List (FeatureTrack ℝ)) =
        [{ frame_id := 1, x := 320, y := 240 }, { frame_id := 2, x := 560, y := 240 }] := rfl
    rw [h0, hP]
    rfl
  · simp only [setBlock]
    rw [dif_pos (by decide)]
    simp only [getBlock, coeff]
    rw [dif_pos (by decide)]
    have e := hN.1 16
    rw [hx] at e
    rw [← show (-(9 / 16 / 2) : ℝ) = -(9 / 32) by norm_num, ← e]
    rfl
  · simp only [setSegment]
    rw [dif_pos (by decide)]
    simp only [getSegment]
    rw [dif_pos (by decide)]
    have e := hN.2
    rw [hr] at e
    rw [← show (-(957 / 4 / 2) : ℝ) = -(957 / 8) by norm_num, ← e]
    rfl

theorem below_clone_MatchState :
    (below_clone_updater : MsckfUpdater ℝ).MatchState 1 = clone_one_below ∧
      (below_clone_updater : MsckfUpdater ℝ).MatchState 2 = clone_two_below := by
  constructor <;>
    simp [MsckfUpdater.MatchState, below_clone_updater, clone_one_below, clone_two_below]

theorem below_clone_triangulation :
    (below_clone_updater : MsckfUpdater ℝ).TriangulateFeature Real.sqrt (two_view_track 560) =
      some ![0, 0, 0] := by
  rw [two_view_triangulation_of_baseline below_clone_updater 560 (-3 / 4) (Or.inr rfl)
    (by rw [below_clone_MatchState.1]; rfl) (by rw [below_clone_MatchState.2]; rfl)
    (by
      rw [below_clone_MatchState.1, below_clone_MatchState.2]
      funext i
      fin_cases i <;> simp [clone_one_below, clone_two_below])
    rfl rfl, below_clone_MatchState.1]
  refine congrArg some ?_
  funext i
  fin_cases i <;> simp [clone_one_below]
  norm_num

theorem norm3_zero_lt : norm3 Real.sqrt (![0, 0, 0] : Fin 3 → ℝ) < 1e-3 := by
  simp [norm3]
  norm_num

/-- C28 (amended): for every clone window that is not empty and every track of `n ≥ 2`
observations with triangulated point `p_FinA`, in a call of `MsckfUpdater::UpdateEKF` with
the tracks `before`, the track, and the tracks `after`:
when `‖p_FinA‖ < 1e-3` the track is rejected: its pass of the loop leaves `Hx_big`,
`res_big` and `ct_meas` as they are; `max_meas_size` still counts the `2 n` rows of the
track; and the loop over the tracks fails exactly when it fails without the track, and
otherwise ends with the `ct_meas` of the call without the track and with `Hx_big` and
`res_big` equal to those of the call without the track followed by `2 n` zero rows.
Otherwise, whatever the depth of the point in the cameras of the track, the track is not
rejected: its pass succeeds, `ct_meas` grows by `2 n - 3 > 0`, and only the rows
`ct_meas .. ct_meas + 2 n - 4` of `Hx_big` and `res_big` are written. -/
theorem UpdateEKF_pass_rejects_iff (u : MsckfUpdater K) (sqrt : K → K)
    (cam_state_start aug_state_size : Nat) (GetAugStateStartIndex : Nat → Nat)
    (state_size : Nat) (before after : List (List (FeatureTrack K)))
    (feature_track : List (FeatureTrack K)) (p_FinA : Fin 3 → K)
    (hT : u.TriangulateFeature sqrt feature_track = some p_FinA)
    (hw : u.m_aug_states ≠ []) (hn : 2 ≤ feature_track.length) :
    (norm3 sqrt p_FinA < 1e-3 →
      (∀ (max_meas_size : Nat)
        (st : Matrix (Fin max_meas_size) (Fin state_size) K × (Fin max_meas_size → K) × Nat),
        u.UpdateEKF_pass sqrt cam_state_start aug_state_size GetAugStateStartIndex st
          feature_track = some st) ∧
      UpdateEKF_max_meas_size (before ++ feature_track :: after) =
        UpdateEKF_max_meas_size (before ++ after) + 2 * feature_track.length ∧
      ((u.UpdateEKF_stack sqrt cam_state_start aug_state_size GetAugStateStartIndex
            state_size (before ++ after) = none ∧
          u.UpdateEKF_stack sqrt cam_state_start aug_state_size GetAugStateStartIndex
            state_size (before ++ feature_track :: after) = none) ∨
        ∃ out out',
          u.UpdateEKF_stack sqrt cam_state_start aug_state_size GetAugStateStartIndex
            state_size (before ++ after) = some out ∧
          u.UpdateEKF_stack sqrt cam_state_start aug_state_size GetAugStateStartIndex
            state_size (before ++ feature_track :: after) = some out' ∧
          out'.2.2 = out.2.2 ∧
          getBlock out'.1 0 0 (UpdateEKF_max_meas_size (before ++ after)) state_size = out.1 ∧
          getSegment out'.2.1 0 (UpdateEKF_max_meas_size (before ++ after)) = out.2.1 ∧
          (∀ i j, UpdateEKF_max_meas_size (before ++ after) ≤ i.val → out'.1 i j = 0) ∧
          (∀ i, UpdateEKF_max_meas_size (before ++ after) ≤ i.val → out'.2.1 i = 0))) ∧
    (¬ norm3 sqrt p_FinA < 1e-3 →
      ∀ (max_meas_size : Nat)
        (st : Matrix (Fin max_meas_size) (Fin state_size) K × (Fin max_meas_size → K) × Nat),
        ∃ st', u.UpdateEKF_pass sqrt cam_state_start aug_state_size GetAugStateStartIndex st
            feature_track = some st' ∧
          st'.2.2 = st.2.2 + (2 * feature_track.length - 3) ∧ st.2.2 < st'.2.2 ∧
          (∀ i j, i.val < st.2.2 ∨ st.2.2 + (2 * feature_track.length - 3) ≤ i.val →
            st'.1 i j = st.1 i j) ∧
          (∀ i, i.val < st.2.2 ∨ st.2.2 + (2 * feature_track.length - 3) ≤ i.val →
            st'.2.1 i = st.2.1 i)) := by
  refine ⟨?_, ?_⟩
  · intro h
    refine ⟨fun _ st => UpdateEKF_pass_of_small_norm u sqrt _ _ _ st feature_track p_FinA hT h,
      UpdateEKF_max_meas_size_insert before after feature_track, ?_⟩
    have hs := UpdateEKF_loop_skip u sqrt cam_state_start aug_state_size GetAugStateStartIndex
      (UpdateEKF_max_meas_size (before ++ feature_track :: after)) state_size before after
      feature_track p_FinA hT h
    simp only [MsckfUpdater.UpdateEKF_stack]
    rw [hs]
    exact UpdateEKF_loop_zero_rows u sqrt cam_state_start aug_state_size GetAugStateStartIndex
      _ state_size (before ++ after)
      (by rw [UpdateEKF_max_meas_size_insert]; omega)
  · intro h max_meas_size st
    obtain ⟨a, rest, hl⟩ := List.exists_cons_of_ne_nil hw
    have ha : u.UpdateEKF_anchor = some a := by
      simp [MsckfUpdater.UpdateEKF_anchor, hl]
    simp only [MsckfUpdater.UpdateEKF_pass, hT, if_neg h, ha]
    rw [if_neg (by omega)]
    refine ⟨_, rfl, rfl, by simp only; omega, ?_, ?_⟩
    · intro i j hij
      exact setBlock_apply_of_row_not_mem _ _ _ _ _ _ hij
    · intro i hi
      exact setSegment_apply_of_not_mem _ _ _ _ hi

theorem UpdateEKF_pass_rejects_iff_witness :
    (below_clone_updater : MsckfUpdater ℝ).TriangulateFeature Real.sqrt (two_view_track 560) =
      some ![0, 0, 0] ∧
    (below_clone_updater : MsckfUpdater ℝ).m_aug_states ≠ [] ∧
    2 ≤ (two_view_track 560 : List (FeatureTrack ℝ)).length ∧
    norm3 Real.sqrt (![0, 0, 0] : Fin 3 → ℝ) < 1e-3 ∧
    ((norm3 Real.sqrt (![0, 0, 0] : Fin 3 → ℝ) < 1e-3 →
      (∀ (max_meas_size : Nat)
        (st : Matrix (Fin max_meas_size) (Fin 48) ℝ × (Fin max_meas_size → ℝ) × Nat),
        (below_clone_updater : MsckfUpdater ℝ).UpdateEKF_pass Real.sqrt 18 24
          two_clone_GetAugStateStartIndex st (two_view_track 560) = some st) ∧
      UpdateEKF_max_meas_size
          ([(two_view_track 80 : List (FeatureTrack ℝ))] ++ two_view_track 560 :: []) =
        UpdateEKF_max_meas_size ([(two_view_track 80 : List (FeatureTrack ℝ))] ++ []) +
          2 * (two_view_track 560 : List (FeatureTrack ℝ)).length ∧
      (((below_clone_updater : MsckfUpdater ℝ).UpdateEKF_stack Real.sqrt 18 24
            two_clone_GetAugStateStartIndex 48
            ([(two_view_track 80 : List (FeatureTrack ℝ))] ++ []) = none ∧
          (below_clone_updater : MsckfUpdater ℝ).UpdateEKF_stack Real.sqrt 18 24
            two_clone_GetAugStateStartIndex 48
            ([(two_view_track 80 : List (FeatureTrack ℝ))] ++ two_view_track 560 :: []) =
              none) ∨
        ∃ out out',
          (below_clone_updater : MsckfUpdater ℝ).UpdateEKF_stack Real.sqrt 18 24
            two_clone_GetAugStateStartIndex 48
            ([(two_view_track 80 : List (FeatureTrack ℝ))] ++ []) = some out ∧
          (below_clone_updater : MsckfUpdater ℝ).UpdateEKF_stack Real.sqrt 18 24
            two_clone_GetAugStateStartIndex 48
            ([(two_view_track 80 : List (FeatureTrack ℝ))] ++ two_view_track 560 :: []) =
              some out' ∧
          out'.2.2 = out.2.2 ∧
          getBlock out'.1 0 0
            (UpdateEKF_max_meas_size ([(two_view_track 80 : List (FeatureTrack ℝ))] ++ []))
            48 = out.1 ∧
          getSegment out'.2.1 0
            (UpdateEKF_max_meas_size ([(two_view_track 80 : List (FeatureTrack ℝ))] ++ [])) =
              out.2.1 ∧
          (∀ i j,
            UpdateEKF_max_meas_size ([(two_view_track 80 : List (FeatureTrack ℝ))] ++ []) ≤
              i.val → out'.1 i j = 0) ∧
          (∀ i,
            UpdateEKF_max_meas_size ([(two_view_track 80 : List (FeatureTrack ℝ))] ++ []) ≤
              i.val → out'.2.1 i = 0))) ∧
    (¬ norm3 Real.sqrt (![0, 0, 0] : Fin 3 → ℝ) < 1e-3 →
      ∀ (max_meas_size : Nat)
        (st : Matrix (Fin max_meas_size) (Fin 48) ℝ × (Fin max_meas_size → ℝ) × Nat),
        ∃ st', (below_clone_updater : MsckfUpdater ℝ).UpdateEKF_pass Real.sqrt 18 24
            two_clone_GetAugStateStartIndex st (two_view_track 560) = some st' ∧
          st'.2.2 = st.2.2 + (2 * (two_view_track 560 : List (FeatureTrack ℝ)).length - 3) ∧
          st.2.2 < st'.2.2 ∧
          (∀ i j, i.val < st.2.2 ∨
              st.2.2 + (2 * (two_view_track 560 : List (FeatureTrack ℝ)).length - 3) ≤ i.val →
            st'.1 i j = st.1 i j) ∧
          (∀ i, i.val < st.2.2 ∨
              st.2.2 + (2 * (two_view_track 560 : List (FeatureTrack ℝ)).length - 3) ≤ i.val →
            st'.2.1 i = st.2.1 i))) :=
  ⟨below_clone_triangulation, by simp [below_clone_updater], by simp [two_view_track],
    norm3_zero_lt,
    UpdateEKF_pass_rejects_iff below_clone_updater Real.sqrt 18 24
      two_clone_GetAugStateStartIndex 48 [two_view_track 80] [] (two_view_track 560) ![0, 0, 0]
      below_clone_triangulation (by simp [below_clone_updater]) (by simp [two_view_track])⟩

end EkfCal
